import Mathlib

/-!
# gost-minimal: route configuration core

A shallow embedding of `config/cfg.go`, `config/peer.go` and `config/route.go`
(with its twin `cmd/gost/route.go`), followed by theorems about the embedded
functions.

Conventions.
* A Go `string` is a list of Unicode code points (`Str`); the sources only cut
  strings at ASCII separators, so on well-formed UTF-8 text this agrees with the
  byte-level behaviour.
* A Go slice is a `List`; a `nil` slice and an empty slice are both `[]`.
* Everything the sources reach outside themselves (the file system, the `gost`
  package, `encoding/json`, `encoding/base64`, `crypto/tls`, ...) is a field of
  `Env`.
* A Go function returning `(value, error)` returns a pair whose second component is
  an `Option Err`, so that the value returned next to an error stays visible.
-/

namespace Gost

/-- A Go string. -/
abbrev Str := List Char

instance : Coe String Str := ⟨String.toList⟩

/-! ## Standard-library string helpers -/

/-- Go `unicode.IsSpace`. -/
def isSpace (c : Char) : Bool :=
  c = '\t' || c = '\n' || c.toNat = 0x0B || c.toNat = 0x0C || c = '\r' || c = ' '
    || c.toNat = 0x85 || c.toNat = 0xA0 || c.toNat = 0x1680
    || (0x2000 ≤ c.toNat && c.toNat ≤ 0x200A)
    || c.toNat = 0x2028 || c.toNat = 0x2029 || c.toNat = 0x202F
    || c.toNat = 0x205F || c.toNat = 0x3000

/-- Go `strings.TrimSpace`. -/
def TrimSpace (s : Str) : Str :=
  ((s.dropWhile isSpace).reverse.dropWhile isSpace).reverse

/-- Go `strings.Split(s, sep)` for a separator of one character. -/
def Split (sep : Char) : Str → List Str
  | [] => [[]]
  | c :: cs =>
    if c = sep then [] :: Split sep cs
    else
      match Split sep cs with
      | [] => [[c]]
      | p :: ps => (c :: p) :: ps

/-- Go `strings.Contains(s, sep)` / `strings.IndexByte(s, c) >= 0` for one character. -/
def Contains (s : Str) (c : Char) : Bool :=
  s.any (· = c)

/-- Go `strings.HasPrefix`. -/
def HasPrefix (s p : Str) : Bool :=
  p.isPrefixOf s

/-- Go `strings.TrimLeft(s, cutset)` for a cutset of one character. -/
def TrimLeft (s : Str) (c : Char) : Str :=
  s.dropWhile (· = c)

/-- Go `strings.Replace(s, old, new, -1)` for single characters. -/
def ReplaceAll (s : Str) (old new : Char) : Str :=
  s.map (fun c => if c = old then new else c)

/-- Number of bytes of the UTF-8 encoding of a code point. -/
def utf8Len (c : Char) : Nat :=
  if c.toNat < 0x80 then 1 else if c.toNat < 0x800 then 2
  else if c.toNat < 0x10000 then 3 else 4

/-- Go `len(s)`: the length in bytes. -/
def byteLen (s : Str) : Nat :=
  (s.map utf8Len).sum

/-- Go `bufio.MaxScanTokenSize`. -/
def MaxScanTokenSize : Nat := 64 * 1024

/-- Go `bufio.ScanLines` strips one trailing carriage return from a line. -/
def dropCR (line : Str) : Str :=
  match line.getLast? with
  | some '\r' => line.dropLast
  | _ => line

/-- The raw lines of a text: the pieces between newlines, without the empty piece
after a final newline (and none at all for the empty text). -/
def rawLines (data : Str) : List Str :=
  let ps := Split '\n' data
  if ps.getLast? = some [] then ps.dropLast else ps

/-- The lines a `bufio.Scanner` delivers before it stops: it stops, with
`ErrTooLong`, at the first line that does not fit its buffer. -/
def scanTake : List Str → List Str × Bool
  | [] => ([], false)
  | l :: ls =>
    if MaxScanTokenSize ≤ byteLen l then ([], true)
    else ((dropCR l) :: (scanTake ls).1, (scanTake ls).2)

/-- A `bufio.Scanner` with the default line splitter run to its end over `data`:
the lines delivered, and whether it stopped with `ErrTooLong`. -/
def scanLines (data : Str) : List Str × Bool :=
  scanTake (rawLines data)

/-! ## Errors, readers, environment -/

/-- Errors. -/
inductive Err where
  | notOpen (path : Str)
  | read
  | tooLong
  | base64
  | badNode (spec : Str)
  | ca
  | tls
  | listen
  | permissions
  | indexOutOfRange
  | nilPointer
  deriving DecidableEq, Repr

/-- An `io.Reader`: the bytes it yields, and whether reading ends in an I/O error
instead of end-of-file. -/
structure Reader where
  data : Str
  fails : Bool
  deriving DecidableEq, Repr

/-! ## Data model

The `gost` package itself (nodes, groups, chains, functional options, listeners,
handlers) lies outside the four source files; the records below hold what the
configuration code reads and writes of them. -/

/-- A `*url.Userinfo`: `url.User(name)` has no password, `url.UserPassword(n, p)` has. -/
structure Userinfo where
  username : Str
  password : Str
  passwordSet : Bool
  deriving DecidableEq, Repr

/-- Go `url.User`. -/
def Userinfo.user (name : Str) : Userinfo := ⟨name, [], false⟩

/-- Go `url.UserPassword`. -/
def Userinfo.userPassword (name pw : Str) : Userinfo := ⟨name, pw, true⟩

/-- A `tls.Certificate` as loaded from a certificate file and a key file. -/
structure Certificate where
  certFile : Str
  keyFile : Str
  deriving DecidableEq, Repr

/-- An `*x509.CertPool` holding the certificates of a PEM text. -/
structure CertPool where
  pem : Str
  deriving DecidableEq, Repr

/-- A `tls.Config`, with the fields the sources set. -/
structure TLSConfig where
  Certificates : List Certificate
  ServerName : Str
  InsecureSkipVerify : Bool
  RootCAs : Option CertPool
  deriving DecidableEq, Repr

/-- A `gost.QUICConfig`. -/
structure QUICConfig where
  TLSConfig : Option TLSConfig
  KeepAlive : Bool
  Timeout : Int
  IdleTimeout : Int
  Key : Option Str
  deriving DecidableEq, Repr

/-- Modelled from the spec: the functional options `gost.AddrHandshakeOption`, ...,
`gost.RetryHandshakeOption` of §4.4 step 6 ("HandshakeOptions (addr, host, user, TLS,
ping interval, timeout, retry)"), each setting one field of the handshake options. -/
inductive HandshakeOption where
  | Addr (addr : Str)
  | Host (host : Str)
  | User (user : Option Userinfo)
  | TLSConfig (cfg : Option TLSConfig)
  | Interval (d : Int)
  | Timeout (d : Int)
  | Retry (n : Int)
  deriving DecidableEq, Repr

/-- Modelled from the spec: the `gost.HandshakeOptions` record a transporter builds by
applying the options of a node in list order. -/
structure HandshakeOptions where
  Addr : Str := []
  Host : Str := []
  User : Option Userinfo := none
  TLSConfig : Option TLSConfig := none
  Interval : Int := 0
  Timeout : Int := 0
  Retry : Int := 0
  deriving DecidableEq, Repr

/-- Applying one functional option. -/
def HandshakeOption.apply (o : HandshakeOptions) : HandshakeOption → HandshakeOptions
  | .Addr a => { o with Addr := a }
  | .Host h => { o with Host := h }
  | .User u => { o with User := u }
  | .TLSConfig c => { o with TLSConfig := c }
  | .Interval d => { o with Interval := d }
  | .Timeout d => { o with Timeout := d }
  | .Retry n => { o with Retry := n }

/-- The handshake options in effect for an option list: every option applied, in order. -/
def handshakeOptionsOf (opts : List HandshakeOption) : HandshakeOptions :=
  opts.foldl HandshakeOption.apply {}

/-- The address of the last `AddrHandshakeOption` of an option list, if there is one. -/
def lastAddrOption : List HandshakeOption → Option Str
  | [] => none
  | .Addr a :: rest => (lastAddrOption rest).orElse (fun _ => some a)
  | _ :: rest => lastAddrOption rest

/-- A `gost.DialOption`. -/
inductive DialOption where
  | Timeout (d : Int)
  deriving DecidableEq, Repr

/-- A `gost.ConnectOption`. -/
inductive ConnectOption where
  | UserAgent (ua : Str)
  | NoTLS (b : Bool)
  deriving DecidableEq, Repr

/-- A `gost.Transporter`, by constructor. -/
inductive Transporter where
  | tcp
  | tls
  | mtls
  | quic (cfg : QUICConfig)
  deriving DecidableEq, Repr

/-- A `gost.Connector`, by constructor. -/
inductive Connector where
  | socks5 (user : Option Userinfo)
  | socks4
  | socks4a
  | forward
  | sni (host : Str)
  | http (user : Option Userinfo)
  | auto (user : Option Userinfo)
  deriving DecidableEq, Repr

/-- A `gost.Client`; the transporter stays `nil` for a transport that sets none. -/
structure Client where
  Connector : Connector
  Transporter : Option Transporter
  deriving DecidableEq, Repr

/-- A `*gost.Bypass`: the match sense and the matcher patterns it was built with, and,
when it was loaded from a file, the path a reload task watches and the reader its
`Reload` was fed. -/
structure Bypass where
  reversed : Bool
  matchers : List Str
  source : Option (Str × Reader) := none
  deriving DecidableEq, Repr

/-- Modelled from the spec: the `gost.Node` of §3 ("transport tag, protocol tag,
address (host:port), optional remote, credential, option bag (string→string), integer
identity, cloned Client, DialOptions, ConnectOptions, HandshakeOptions, Bypass
reference"). -/
structure Node where
  ID : Int := 0
  Addr : Str := []
  Host : Str := []
  Protocol : Str := []
  Transport : Str := []
  Remote : Str := []
  User : Option Userinfo := none
  Values : List (Str × Str) := []
  DialOptions : List DialOption := []
  HandshakeOptions : List HandshakeOption := []
  ConnectOptions : List ConnectOption := []
  Client : Option Client := none
  Bypass : Option Bypass := none
  deriving DecidableEq, Repr

/-- Modelled from the spec: the option accessor `Get(key)` of §4.2; a missing key
yields the empty string. -/
def Node.Get (node : Node) (key : Str) : Str :=
  match node.Values.find? (fun kv => kv.1 = key) with
  | some kv => kv.2
  | none => []

/-- Modelled from the spec: `Node.Clone` of §3 ("may be cloned once per expanded IP"),
a copy of the node. -/
def Node.Clone (node : Node) : Node := node

/-- The selector a group is given by `SetSelector(nil, WithFilter(&FailFilter{...},
&InvalidFilter{}), WithStrategy(NewStrategy(name)))`. -/
structure Selector where
  MaxFails : Int
  FailTimeout : Int
  Strategy : Str
  deriving DecidableEq, Repr

/-- Modelled from the spec: the `gost.NodeGroup` of §3 ("integer identity, current
node list, selector"). -/
structure NodeGroup where
  ID : Int := 0
  nodes : List Node := []
  selector : Option Selector := none
  deriving DecidableEq, Repr

/-- Modelled from the spec: `NodeGroup.AddNode` appends to the node list. -/
def NodeGroup.AddNode (g : NodeGroup) (nodes : List Node) : NodeGroup :=
  { g with nodes := g.nodes ++ nodes }

/-- Modelled from the spec: `NodeGroup.SetNodes` of §5 ("install it with a single
replacement call"); it returns the list it replaced. -/
def NodeGroup.SetNodes (g : NodeGroup) (nodes : List Node) : NodeGroup × List Node :=
  ({ g with nodes := nodes }, g.nodes)

/-- Modelled from the spec: `NodeGroup.SetSelector` re-seats the selector. -/
def NodeGroup.SetSelector (g : NodeGroup) (sel : Selector) : NodeGroup :=
  { g with selector := some sel }

/-- Modelled from the spec: the `gost.Chain` of §3 ("an ordered sequence of NodeGroups
plus a global retry budget"). -/
structure Chain where
  Retries : Int := 0
  groups : List NodeGroup := []
  deriving DecidableEq, Repr

/-- Modelled from the spec: `Chain.AddNodeGroup` appends a hop. -/
def Chain.AddNodeGroup (c : Chain) (g : NodeGroup) : Chain :=
  { c with groups := c.groups ++ [g] }

/-- A `gost.Authenticator`: a local authenticator built from a map, or one whose
`Reload` was fed a file that a reload task then watches. -/
inductive Authenticator where
  | ofMap (kvs : List (Str × Str))
  | ofFile (path : Str) (content : Reader)
  deriving DecidableEq, Repr

/-- A `*gost.Hosts` loaded from a file that a reload task then watches. -/
structure Hosts where
  path : Str
  content : Reader
  deriving DecidableEq, Repr

/-- A `*gost.Permissions` parsed from a permission text. -/
structure Permissions where
  text : Str
  deriving DecidableEq, Repr

/-- A `gost.NameServer`. -/
structure NameServer where
  Addr : Str
  Protocol : Str := []
  deriving DecidableEq, Repr

/-- The options `resolver.Init` is given by `GenRouters`. -/
structure ResolverInit where
  Chain : Chain
  Timeout : Int
  TTL : Int
  Prefer : Str
  SrcIP : Str
  deriving DecidableEq, Repr

/-- A `gost.Resolver`: its name servers when given inline, the file it was loaded from
otherwise, and the options of `Init` once initialised. -/
structure Resolver where
  servers : List NameServer
  source : Option (Str × Reader) := none
  init : Option ResolverInit := none
  deriving DecidableEq, Repr

/-- A `gost.Listener`, by the constructor call that made it. -/
inductive Listener where
  | tls (addr : Str) (cfg : Option TLSConfig)
  | mtls (addr : Str) (cfg : Option TLSConfig)
  | tcp (addr : Str)
  | rtcp (addr : Str) (chain : Chain)
  | dns (addr : Str) (mode : Str) (cfg : Option TLSConfig)
  | quic (addr : Str) (cfg : QUICConfig)
  deriving DecidableEq, Repr

/-- A node slice next to the backing array of `cfg.BaseNodes`: the first `n` cells of
that array, or a slice with a backing array of its own. -/
inductive NodeSlice where
  | shared (n : Nat)
  | own (nodes : List Node)
  deriving DecidableEq, Repr

/-- The elements of a node slice, given the cells of the backing array of
`cfg.BaseNodes`. -/
def NodeSlice.view (cells : List Node) : NodeSlice → List Node
  | .shared n => cells.take n
  | .own nodes => nodes

/-- What `encoding/json` makes of the key `Group` of a peer file, the field being a
pointer to a `gost.NodeGroup`: nothing when the key is absent, nil for `null`, and an
object is decoded into the group pointed to (into a new group when the pointer is
nil). Of a group the decoder is taken to reach `ID` only, the one field the sources
set directly (route.go:40); the node list and the selector are reached through
methods. -/
inductive JsonGroup where
  | absent
  | null
  | object (ID : Option Int)
  deriving DecidableEq, Repr

/-- What `encoding/json` found in a peer file: whether decoding succeeded, and what
each key that was present and well typed holds. A key that is absent leaves its field
of the `PeerConfig` as it was. Every exported field has a key: the decoder writes
`Group` and `BaseNodes` as well, the latter as a function of the base nodes held
before, since it decodes into the elements of an existing slice. The channel `StoppedF`
cannot be decoded: `null` leaves it alone and any other value is a type error. -/
structure JsonPeer where
  ok : Bool
  strategy : Option Str := none
  max_fails : Option Int := none
  FailTimeout : Option Int := none
  PeriodF : Option Int := none
  nodes : Option (List Str) := none
  Group : JsonGroup := .absent
  BaseNodes : Option (List Node → List Node) := none

/-- Everything the sources reach outside themselves. -/
structure Env where
  /-- The file system: the reader `os.Open` gives for a path, `none` when it fails. -/
  files : Str → Option Reader
  /-- Go `gost.ParseNode`. -/
  ParseNode : Str → Node × Option Err
  /-- Go `node.GetInt(key)`. -/
  GetInt : Node → Str → Int
  /-- Go `node.GetBool(key)`. -/
  GetBool : Node → Str → Bool
  /-- Go `node.GetDuration(key)`. -/
  GetDuration : Node → Str → Int
  /-- Go `base64.StdEncoding.DecodeString`, `none` when it fails. -/
  base64Decode : Str → Option Str
  /-- Go `CertPool.AppendCertsFromPEM`: whether the PEM text holds a certificate. -/
  appendCertsFromPEM : Str → Bool
  /-- Go `tls.LoadX509KeyPair`: whether the pair of files loads. -/
  loadX509KeyPair : Str → Str → Bool
  /-- Go `time.ParseDuration`, error discarded (it returns 0 next to an error). -/
  ParseDuration : Str → Int
  /-- Go `json.NewDecoder(...).Decode(cfg)` on a peer file, `cfg` being a `PeerConfig`
  of peer.go: it writes every exported field the content has a key for. -/
  jsonDecode : Str → JsonPeer
  /-- Where that decoder puts the array of the key `BaseNodes`: from the cells of the
  backing array of `cfg.BaseNodes` and a node slice next to it, the cells of the
  backing array `cfg.BaseNodes` has afterwards and that node slice next to them. -/
  jsonBaseCells : Str → List Node → NodeSlice → List Node × NodeSlice
  /-- Go `sha256.Sum256`. -/
  sha256 : Str → Str
  /-- Whether the rest of `url.Parse`, after the scheme is split off, fails. -/
  urlRestFails : Str → Bool
  /-- Creating a listener: the error, if it fails. -/
  listen : Listener → Option Err
  /-- Go `ln.Addr().String()`. -/
  listenAddr : Listener → Str
  /-- Go `gost.ParsePermissions`: whether the text is a valid permission spec. -/
  permissionsOk : Str → Bool

/-- Go `os.Open`: the empty path never opens. -/
def Env.Open (env : Env) (name : Str) : Option Reader :=
  if name = [] then none else env.files name

/-- The error `scanner.Err()` reports after a scan to the end. -/
def scannerErr (r : Reader) (tooLong : Bool) : Option Err :=
  if tooLong then some .tooLong else if r.fails then some .read else none

/-! ## cfg.go -/

/-- The package variable `DefaultCertFile`. -/
def DefaultCertFile : Str := "cert.pem"

/-- The package variable `DefaultKeyFile`. -/
def DefaultKeyFile : Str := "key.pem"

/-- Go `TlsConfig` of cfg.go. -/
def TlsConfig (env : Env) (certFile keyFile : Str) : Option TLSConfig × Option Err :=
  let files := if certFile = [] ∨ keyFile = [] then (DefaultCertFile, DefaultKeyFile)
    else (certFile, keyFile)
  if env.loadX509KeyPair files.1 files.2 then
    (some { Certificates := [⟨files.1, files.2⟩], ServerName := [],
            InsecureSkipVerify := false, RootCAs := none }, none)
  else (none, some .tls)

/-- Go `LoadCA` of cfg.go. -/
def LoadCA (env : Env) (caFile : Str) : Option CertPool × Option Err :=
  if caFile = [] then (none, none)
  else
    match env.Open caFile with
    | none => (none, some (.notOpen caFile))
    | some r =>
      if r.fails then (none, some .read)
      else if !env.appendCertsFromPEM r.data then (none, some .ca)
      else (some ⟨r.data⟩, none)

/-- Go `strings.SplitN(s, sep, 2)` for a separator of one character: the text before
the first separator and, if there is one, the text after it. -/
def SplitN2 (sep : Char) (s : Str) : List Str :=
  if Contains s sep then [s.takeWhile (· ≠ sep), (s.dropWhile (· ≠ sep)).drop 1] else [s]

/-- One line of the loop of `ParseUsers`. -/
def usersStep (users : List Userinfo) (text : Str) : List Userinfo :=
  let line := TrimSpace text
  if line = [] ∨ HasPrefix line "#" then users
  else
    match SplitN2 ' ' line with
    | [n] => users ++ [Userinfo.user (TrimSpace n)]
    | [n, p] => users ++ [Userinfo.userPassword (TrimSpace n) (TrimSpace p)]
    | _ => users

/-- Go `ParseUsers` of cfg.go. -/
def ParseUsers (env : Env) (authFile : Str) : List Userinfo × Option Err :=
  if authFile = [] then ([], none)
  else
    match env.Open authFile with
    | none => ([], some (.notOpen authFile))
    | some r =>
      ((scanLines r.data).1.foldl usersStep [], scannerErr r (scanLines r.data).2)

/-- Go `ParseAuthenticator` of cfg.go. -/
def ParseAuthenticator (env : Env) (s : Str) : Option Authenticator × Option Err :=
  if s = [] then (none, none)
  else
    match env.Open s with
    | none => (none, some (.notOpen s))
    | some r => (some (.ofFile s r), none)

/-- One comma-separated entry of the inline branch of `ParseIP`. -/
def ipEntryStep (port : Str) (ips : List Str) (entry : Str) : List Str :=
  let s := TrimSpace entry
  if s ≠ [] then
    ips ++ [if !Contains s ':' then s ++ (":" : Str) ++ port else s]
  else ips

/-- One line of the file branch of `ParseIP`. -/
def ipLineStep (port : Str) (ips : List Str) (text : Str) : List Str :=
  let line := TrimSpace text
  if line = [] ∨ HasPrefix line "#" then ips
  else ips ++ [if !Contains line ':' then line ++ (":" : Str) ++ port else line]

/-- Go `ParseIP` of cfg.go. -/
def ParseIP (env : Env) (s port : Str) : List Str :=
  if s = [] then []
  else
    let port := if port = [] then ("8080" : Str) else port
    match env.Open s with
    | none => (Split ',' s).foldl (ipEntryStep port) []
    | some r => (scanLines r.data).1.foldl (ipLineStep port) []

/-- One comma-separated entry of the inline branch of `ParseBypass`. -/
def bypassEntryStep (matchers : List Str) (entry : Str) : List Str :=
  let s := TrimSpace entry
  if s = [] then matchers else matchers ++ [s]

/-- Go `ParseBypass` of cfg.go. -/
def ParseBypass (env : Env) (s : Str) : Option Bypass :=
  if s = [] then none
  else
    let reversed := HasPrefix s "~"
    let s := if reversed then TrimLeft s '~' else s
    match env.Open s with
    | none => some { reversed := reversed, matchers := (Split ',' s).foldl bypassEntryStep [] }
    | some r => some { reversed := reversed, matchers := [], source := some (s, r) }

/-- Go `ParseHosts` of cfg.go. -/
def ParseHosts (env : Env) (s : Str) : Option Hosts :=
  match env.Open s with
  | none => none
  | some r => some ⟨s, r⟩

/-- Go `url.stringContainsCTLByte`, on one character. -/
def isCTL (c : Char) : Bool :=
  c.toNat < 0x20 || c.toNat = 0x7F

/-- Go `url.getScheme`: the scheme of a raw URL (empty when there is none), `none` for
the error "missing protocol scheme". `first` tells whether the scan is at index 0 and
`acc` holds the characters scanned so far. -/
def getSchemeFrom (first : Bool) (acc : Str) : Str → Option Str
  | [] => some []
  | c :: cs =>
    if c.isAlpha then getSchemeFrom false (acc ++ [c]) cs
    else if c.isDigit ∨ c = '+' ∨ c = '-' ∨ c = '.' then
      if first then some [] else getSchemeFrom false (acc ++ [c]) cs
    else if c = ':' then
      if first then none else some acc
    else some []

/-- The `Scheme` of `url.Parse(raw)`, `none` when `url.Parse` returns no URL: the
fragment is cut off, control characters are refused, the scheme is split off and
lower-cased, and the rest is parsed. -/
def urlScheme (env : Env) (raw : Str) : Option Str :=
  let u := raw.takeWhile (· ≠ '#')
  if u.any isCTL then none
  else if u = ("*" : Str) then some []
  else
    match getSchemeFrom true [] u with
    | none => none
    | some scheme => if env.urlRestFails raw then none else some (scheme.map Char.toLower)

/-- One comma-separated entry of the inline branch of `ParseResolver`. -/
def resolverEntryStep (env : Env) (nss : List NameServer) (entry : Str) : List NameServer :=
  let s := TrimSpace entry
  if s = [] then nss
  else if HasPrefix s "https" then
    match urlScheme env s with
    | none => nss
    | some scheme =>
      if scheme = [] then nss
      else nss ++ [{ Addr := s, Protocol := if scheme = ("https-Chain" : Str) then scheme else "https" }]
  else
    match Split '/' s with
    | [a] => nss ++ [{ Addr := a }]
    | [a, p] => nss ++ [{ Addr := a, Protocol := p }]
    | _ => nss

/-- Go `ParseResolver` of cfg.go. -/
def ParseResolver (env : Env) (cfg : Str) : Option Resolver :=
  if cfg = [] then none
  else
    match env.Open cfg with
    | none => some { servers := (Split ',' cfg).foldl (resolverEntryStep env) [] }
    | some r => some { servers := [], source := some (cfg, r) }

/-! ## More of the standard library -/

/-- Go `strings.IndexByte`: the index of the first `c`, `none` for -1. -/
def IndexByte (s : Str) (c : Char) : Option Nat :=
  if s.indexOf c < s.length then some (s.indexOf c) else none

/-- Go `strings.LastIndexByte`: the index of the last `c`, `none` for -1. -/
def LastIndexByte (s : Str) (c : Char) : Option Nat :=
  match IndexByte s.reverse c with
  | some k => some (s.length - 1 - k)
  | none => none

/-- Go `net.SplitHostPort`: host, port and whether it succeeded; host and port are
empty when it fails. -/
def SplitHostPort (hostport : Str) : Str × Str × Bool :=
  match LastIndexByte hostport ':' with
  | none => ([], [], false)
  | some i =>
    if hostport.head? = some '[' then
      match IndexByte hostport ']' with
      | none => ([], [], false)
      | some e =>
        if e + 1 = hostport.length then ([], [], false)
        else if e + 1 = i then
          if Contains (hostport.drop 1) '[' then ([], [], false)
          else if Contains (hostport.drop (e + 1)) ']' then ([], [], false)
          else ((hostport.take e).drop 1, hostport.drop (i + 1), true)
        else ([], [], false)
    else
      if Contains (hostport.take i) ':' then ([], [], false)
      else if Contains hostport '[' then ([], [], false)
      else if Contains hostport ']' then ([], [], false)
      else (hostport.take i, hostport.drop (i + 1), true)

/-- The value of a run of decimal digits. -/
def digitsValue (ds : Str) : Nat :=
  ds.foldl (fun n c => n * 10 + (c.toNat - '0'.toNat)) 0

/-- Go `strconv.Atoi` with a 64-bit `int`: the value returned and whether there was no
error. A syntax error returns 0, a range error the nearest bound. -/
def Atoi (s : Str) : Int × Bool :=
  let neg := s.head? = some '-'
  let ds := if s.head? = some '-' ∨ s.head? = some '+' then s.drop 1 else s
  if ds = [] ∨ !ds.all Char.isDigit then (0, false)
  else if neg then
    if 2 ^ 63 < digitsValue ds then (-(2 ^ 63 : Int), false) else (-(digitsValue ds : Int), true)
  else
    if 2 ^ 63 ≤ digitsValue ds then ((2 ^ 63 : Int) - 1, false) else ((digitsValue ds : Int), true)

/-! ## route.go: chain nodes -/

/-- The two copies of the builder: `config/route.go` and `cmd/gost/route.go`. The
second one knows the `quic` transport and reads the host map from the key `hosts`; it
calls the lower-case namesakes of the helpers of cfg.go and peer.go. -/
inductive Build where
  | config
  | cmd
  deriving DecidableEq, Repr

/-- The credential made of a decoded `auth` option: split at the first colon. -/
def credentialOfAuth (cs : Str) : Userinfo :=
  match IndexByte cs ':' with
  | none => Userinfo.user cs
  | some s => Userinfo.userPassword (cs.take s) (cs.drop (s + 1))

/-- The `auth` block that opens both `ParseChainNode` and the loop of `GenRouters`. -/
def authStep (env : Env) (node : Node) : Node × Option Err :=
  if node.Get "auth" ≠ [] ∧ node.User = none then
    match env.base64Decode (node.Get "auth") with
    | none => (node, some .base64)
    | some cs => ({ node with User := some (credentialOfAuth cs) }, none)
  else (node, none)

/-- The `secrets` block of `ParseChainNode`. -/
def secretsStep (env : Env) (node : Node) : Node × Option Err :=
  if node.User = none then
    match ParseUsers env (node.Get "secrets") with
    | (_, some err) => (node, some err)
    | (users, none) =>
      match users with
      | u :: _ => ({ node with User := some u }, none)
      | [] => (node, none)
  else (node, none)

/-- The outbound TLS config of `ParseChainNode`. -/
def chainTLSConfig (env : Env) (node : Node) (rootCAs : Option CertPool) : TLSConfig :=
  let serverName := (SplitHostPort node.Addr).1
  { Certificates := []
    ServerName := if serverName = [] then ("localhost" : Str) else serverName
    InsecureSkipVerify := !env.GetBool node "secure"
    RootCAs := rootCAs }

/-- The `quic` configuration both builders of `cmd/gost/route.go` assemble. -/
def quicConfig (env : Env) (node : Node) (tlsCfg : Option TLSConfig) (timeout : Int) :
    QUICConfig :=
  { TLSConfig := tlsCfg
    KeepAlive := env.GetBool node "keepalive"
    Timeout := timeout
    IdleTimeout := env.GetDuration node "idle"
    Key := if node.Get "cipher" ≠ [] then some (env.sha256 (node.Get "cipher")) else none }

/-- The `switch node.Transport` of `ParseChainNode`: the transporter and the `host`
variable. -/
def chainTransporter (env : Env) (b : Build) (node : Node) (tlsCfg : TLSConfig)
    (timeout : Int) : Option Transporter × Str :=
  if node.Transport = ("tls" : Str) then (some .tls, [])
  else if node.Transport = ("mtls" : Str) then (some .mtls, [])
  else if node.Transport = ("quic" : Str) ∧ b = .cmd then
    (some (.quic (quicConfig env node (some tlsCfg) timeout)), [])
  else if node.Transport = ("ohttp" : Str) then (none, node.Get "host")
  else (some .tcp, [])

/-- The `switch node.Protocol` of `ParseChainNode`. -/
def chainConnector (node : Node) : Connector :=
  if node.Protocol = ("socks" : Str) ∨ node.Protocol = ("socks5" : Str) then .socks5 node.User
  else if node.Protocol = ("socks4" : Str) then .socks4
  else if node.Protocol = ("socks4a" : Str) then .socks4a
  else if node.Protocol = ("forward" : Str) then .forward
  else if node.Protocol = ("sni" : Str) then .sni (node.Get "host")
  else if node.Protocol = ("http" : Str) then .http node.User
  else .auto node.User

/-- The slice literal `handshakeOptions` of `ParseChainNode`. -/
def chainHandshakeOptions (env : Env) (node : Node) (host : Str) (tlsCfg : TLSConfig)
    (timeout : Int) : List HandshakeOption :=
  [ .Addr node.Addr, .Host host, .User node.User, .TLSConfig (some tlsCfg),
    .Interval (env.GetDuration node "ping"), .Timeout timeout,
    .Retry (env.GetInt node "retry") ]

/-- Go `ParseChainNode` from the call of `LoadCA` on, for a node whose credential is
resolved. -/
def chainNodeBuild (env : Env) (b : Build) (node : Node) : List Node × Option Err :=
  let sport := (SplitHostPort node.Addr).2.1
  match LoadCA env (node.Get "ca") with
  | (_, some err) => ([], some err)
  | (rootCAs, none) =>
    let tlsCfg := chainTLSConfig env node rootCAs
    let timeout := env.GetDuration node "timeout"
    let tr := chainTransporter env b node tlsCfg timeout
    let connector := chainConnector node
    let node := { node with DialOptions := node.DialOptions ++ [DialOption.Timeout timeout] }
    let node := { node with
      ConnectOptions := [ConnectOption.UserAgent (node.Get "agent"), ConnectOption.NoTLS (env.GetBool node "notls")] }
    let host := if tr.2 = [] then node.Host else tr.2
    let handshakeOptions := chainHandshakeOptions env node host tlsCfg timeout
    let node := { node with Client := some { Connector := connector, Transporter := tr.1 } }
    let node := { node with Bypass := ParseBypass env (node.Get "bypass") }
    let ips := ParseIP env (node.Get "ip") sport
    if ips = [] then ([{ node with HandshakeOptions := handshakeOptions }], none)
    else
      (ips.map (fun ip =>
        { node.Clone with Addr := ip, HandshakeOptions := handshakeOptions ++ [HandshakeOption.Addr ip] }),
       none)

/-- Go `ParseChainNode` of route.go (`parseChainNode` in cmd/gost). -/
def ParseChainNode (env : Env) (b : Build) (ns : Str) : List Node × Option Err :=
  match env.ParseNode ns with
  | (_, some err) => ([], some err)
  | (node, none) =>
    match authStep env node with
    | (_, some err) => ([], some err)
    | (node, none) =>
      match secretsStep env node with
      | (_, some err) => ([], some err)
      | (node, none) => chainNodeBuild env b node

/-- The loop `for i := range nodes { nodes[i].ID = nid; nid++ }`. -/
def assignIDs (nid : Int) : List Node → List Node
  | [] => []
  | n :: ns => { n with ID := nid } :: assignIDs (nid + 1) ns

/-! ## peer.go -/

/-- The struct `PeerConfig` of peer.go. `Group` says whether the pointer `Group` is set
(not nil); the group it points to is passed to `Reload` and returned by it. `StoppedF`
is the channel `StoppedF`: `true` once it is closed. -/
structure PeerConfig where
  Strategy : Str := []
  MaxFails : Int := 0
  FailTimeout : Int := 0
  PeriodF : Int := 0
  Nodes : List Str := []
  Group : Bool := false
  BaseNodes : List Node := []
  StoppedF : Bool := false
  deriving DecidableEq, Repr

/-- Go `newPeerConfig` of peer.go. -/
def newPeerConfig : PeerConfig := {}

/-- Go `PeerConfig.Stopped` of peer.go. -/
def PeerConfig.Stopped (cfg : PeerConfig) : Bool :=
  cfg.StoppedF

/-- Go `PeerConfig.Stop` of peer.go. -/
def PeerConfig.Stop (cfg : PeerConfig) : PeerConfig :=
  if cfg.StoppedF then cfg else { cfg with StoppedF := true }

/-- Go `PeerConfig.Period` of peer.go. -/
def PeerConfig.Period (cfg : PeerConfig) : Int :=
  if cfg.Stopped then -1 else cfg.PeriodF

/-- What a successful or failed JSON decoding leaves in the `PeerConfig`. -/
def JsonPeer.applyTo (j : JsonPeer) (cfg : PeerConfig) : PeerConfig :=
  { cfg with
    Strategy := j.strategy.getD cfg.Strategy
    MaxFails := j.max_fails.getD cfg.MaxFails
    FailTimeout := j.FailTimeout.getD cfg.FailTimeout
    PeriodF := j.PeriodF.getD cfg.PeriodF
    Nodes := j.nodes.getD cfg.Nodes
    Group :=
      match j.Group with
      | .absent => cfg.Group
      | .null => false
      | .object _ => true
    BaseNodes :=
      match j.BaseNodes with
      | none => cfg.BaseNodes
      | some decode => decode cfg.BaseNodes }

/-- The group behind the pointer `Group` once the decoder has run, `group` being the
group behind it before when `set` says that the pointer is not nil: an object is
decoded into that group, or into a new group when the pointer is nil. -/
def JsonGroup.applyTo (j : JsonGroup) (set : Bool) (group : NodeGroup) : NodeGroup :=
  match j with
  | .object id =>
    { (if set then group else {}) with ID := id.getD (if set then group else {}).ID }
  | _ => group

/-- One token of the loop of the closure `split`. -/
def splitStep (ss : List Str) (piece : Str) : List Str :=
  let s := TrimSpace piece
  if s ≠ [] then ss ++ [s] else ss

/-- The closure `split` of `PeerConfig.parse`. -/
def PeerConfig.split (line : Str) : List Str :=
  if line = [] then []
  else
    let line := match IndexByte line '#' with
      | some n => line.take n
      | none => line
    let line := ReplaceAll line '\t' ' '
    let line := TrimSpace line
    (Split ' ' line).foldl splitStep []

/-- One line of the scanner loop of `PeerConfig.parse`. -/
def PeerConfig.parseLine (env : Env) (cfg : PeerConfig) (line : Str) : PeerConfig :=
  match PeerConfig.split line with
  | k :: v :: _ =>
    if k = ("strategy" : Str) then { cfg with Strategy := v }
    else if k = ("max_fails" : Str) then { cfg with MaxFails := (Atoi v).1 }
    else if k = ("fail_timeout" : Str) then { cfg with FailTimeout := env.ParseDuration v }
    else if k = ("reload" : Str) then { cfg with PeriodF := env.ParseDuration v }
    else if k = ("peer" : Str) then { cfg with Nodes := cfg.Nodes ++ [v] }
    else cfg
  | _ => cfg

/-- Go `PeerConfig.parse` of peer.go. The JSON decoder is handed the whole `PeerConfig`
and writes every key it finds into it, `Group` and `BaseNodes` included, also when it
returns an error in the end; what it does to the group behind the pointer `Group` is
`PeerConfig.parseGroup`. -/
def PeerConfig.parse (env : Env) (cfg : PeerConfig) (r : Reader) : PeerConfig × Option Err :=
  if r.fails then (cfg, some .read)
  else if (env.jsonDecode r.data).ok then ((env.jsonDecode r.data).applyTo cfg, none)
  else
    let cfg := { (env.jsonDecode r.data).applyTo cfg with Nodes := [] }
    ((scanLines r.data).1.foldl (PeerConfig.parseLine env) cfg,
      if (scanLines r.data).2 then some .tooLong else none)

/-- Modelled from the spec: the `parse` of the build at hand. For package config it is
`PeerConfig.parse`. The peer.go of cmd/gost is not among the sources: its `peerConfig`
is taken to be the `PeerConfig` above with the two fields that cmd/gost/route.go names
`group` and `baseNodes` unexported, which the JSON decoder therefore leaves alone (§3:
"back-reference to the target NodeGroup, immutable prefix of base nodes"). -/
def PeerConfig.parseFor (env : Env) (b : Build) (cfg : PeerConfig) (r : Reader) :
    PeerConfig × Option Err :=
  match b with
  | .config => cfg.parse env r
  | .cmd =>
    ({ (cfg.parse env r).1 with Group := cfg.Group, BaseNodes := cfg.BaseNodes },
      (cfg.parse env r).2)

/-- What the `parse` of the build at hand does to the group behind the pointer
`cfg.Group`: the group behind it afterwards, and `group` itself when the pointer is
nil afterwards. -/
def PeerConfig.parseGroup (env : Env) (b : Build) (cfg : PeerConfig) (group : NodeGroup)
    (r : Reader) : NodeGroup :=
  match b with
  | .config =>
    if r.fails then group else (env.jsonDecode r.data).Group.applyTo cfg.Group group
  | .cmd => group

/-- The loop over `cfg.Nodes` of `PeerConfig.Reload`: the list `gNodes`, and the error
of the first peer spec that does not parse. -/
def reloadNodes (env : Env) (b : Build) : List Str → List Node → Int → List Node × Option Err
  | [], gNodes, _ => (gNodes, none)
  | s :: rest, gNodes, nid =>
    match ParseChainNode env b s with
    | (_, some err) => (gNodes, some err)
    | (nodes, none) =>
      reloadNodes env b rest (gNodes ++ assignIDs nid nodes) (nid + nodes.length)

/-- The outcome of `PeerConfig.Reload`: the `PeerConfig` and the group behind its
pointer `Group` afterwards (the group passed in when that pointer is nil afterwards),
the nodes whose `Bypass` was stopped, and the error returned. -/
structure Reloaded where
  cfg : PeerConfig
  group : NodeGroup
  stopped : List Node := []
  err : Option Err := none
  deriving DecidableEq, Repr

/-- Go `PeerConfig.Reload` of peer.go, `group` being the group `cfg.Group` points to.
Calling `SetSelector` through a nil `Group` and slicing the replaced list beyond its
length are reported as `nilPointer` and `indexOutOfRange`. -/
def PeerConfig.Reload (env : Env) (b : Build) (cfg : PeerConfig) (group : NodeGroup)
    (r : Reader) : Reloaded :=
  if cfg.Stopped then { cfg := cfg, group := group }
  else
    let group := cfg.parseGroup env b group r
    match cfg.parseFor env b r with
    | (cfg, some err) => { cfg := cfg, group := group, err := some err }
    | (cfg, none) =>
      if cfg.Group = false then { cfg := cfg, group := group, err := some .nilPointer }
      else
        let group := group.SetSelector
          { MaxFails := cfg.MaxFails, FailTimeout := cfg.FailTimeout, Strategy := cfg.Strategy }
        match reloadNodes env b cfg.Nodes cfg.BaseNodes (cfg.BaseNodes.length + 1) with
        | (_, some err) => { cfg := cfg, group := group, err := some err }
        | (gNodes, none) =>
          let set := group.SetNodes gNodes
          if set.2.length < cfg.BaseNodes.length then
            { cfg := cfg, group := set.1, err := some .indexOutOfRange }
          else
            { cfg := cfg, group := set.1
              stopped := (set.2.drop cfg.BaseNodes.length).filter (fun n => n.Bypass.isSome) }

/-! ## route.go: chains -/

/-- The struct `Route` of route.go. -/
structure Route where
  ServeNodes : List Str := []
  ChainNodes : List Str := []
  Retries : Int := 0
  deriving DecidableEq, Repr

/-- What one round of the loop of `ParseChain` builds: the group, and the `PeerConfig`
handed to the reload task together with the path it watches. -/
structure GroupBuilt where
  group : NodeGroup
  peer : Option (PeerConfig × Str) := none
  deriving DecidableEq, Repr

/-- The body of the loop of `ParseChain` for the chain-node spec `ns` and the group
identity `gid`. -/
def chainGroup (env : Env) (b : Build) (gid : Int) (ns : Str) : Except Err GroupBuilt :=
  let ngroup : NodeGroup := { ID := gid }
  match ParseChainNode env b ns with
  | (_, some err) => .error err
  | (nodes, none) =>
    let nodes := assignIDs 1 nodes
    let ngroup := ngroup.AddNode nodes
    match nodes with
    | [] => .error .indexOutOfRange
    | n0 :: _ =>
      let ngroup := ngroup.SetSelector
        { MaxFails := env.GetInt n0 "max_fails"
          FailTimeout := env.GetDuration n0 "fail_timeout"
          Strategy := n0.Get "strategy" }
      if n0.Get "peer" ≠ [] then
        match env.Open (n0.Get "peer") with
        | none => .error (.notOpen (n0.Get "peer"))
        | some f =>
          let peerCfg : PeerConfig := { newPeerConfig with Group := true, BaseNodes := nodes }
          let res := peerCfg.Reload env b ngroup f
          if res.err = some .indexOutOfRange then .error .indexOutOfRange
          else if res.err = some .nilPointer then .error .nilPointer
          else .ok { group := res.group, peer := some (res.cfg, n0.Get "peer") }
      else .ok { group := ngroup }

/-- The loop of `ParseChain`, from the group identity `gid` and the chain built so far. -/
def chainLoop (env : Env) (b : Build) : List Str → Int → Chain → Except Err Chain
  | [], _, chain => .ok chain
  | ns :: rest, gid, chain =>
    match chainGroup env b gid ns with
    | .error err => .error err
    | .ok g => chainLoop env b rest (gid + 1) (chain.AddNodeGroup g.group)

/-- Go `Route.ParseChain` of route.go (`parseChain` in cmd/gost): the chain, or the error
next to which it returns no chain. -/
def Route.ParseChain (env : Env) (b : Build) (r : Route) : Except Err Chain :=
  chainLoop env b r.ChainNodes 1 { Retries := r.Retries }

/-! ## route.go: routers -/

/-- A `gost.Handler`, by constructor. -/
inductive HandlerKind where
  | socks5
  | socks4
  | http
  | tcpDirectForward (remote : Str)
  | tcpRemoteForward (remote : Str)
  | udpDirectForward (remote : Str)
  | udpRemoteForward (remote : Str)
  | sni
  | dns (remote : Str)
  | auto
  deriving DecidableEq, Repr

/-- The options `handler.Init` is given by `GenRouters`, in the order of the call. -/
structure HandlerOptions where
  Addr : Str
  Chain : Chain
  Users : List (Option Userinfo)
  Authenticator : Option Authenticator
  TLSConfig : Option TLSConfig
  Whitelist : Option Permissions
  Blacklist : Option Permissions
  Strategy : Str
  MaxFails : Int
  FailTimeout : Int
  Bypass : Option Bypass
  Resolver : Option Resolver
  Hosts : Option Hosts
  Retry : Int
  Timeout : Int
  ProbeResist : Str
  Knocking : Str
  Node : Node
  IPs : List Str
  TCPMode : Bool
  deriving DecidableEq, Repr

/-- An initialised `gost.Handler`. -/
structure Handler where
  kind : HandlerKind
  options : HandlerOptions
  deriving DecidableEq, Repr

/-- The struct `Router` of route.go; `Server` is the listener of the `gost.Server`. -/
structure Router where
  Node : Node
  Server : Listener
  Handler : Handler
  Chain : Chain
  Resolver : Option Resolver
  Hosts : Option Hosts
  deriving DecidableEq, Repr

/-- The authenticator of a serve node: `ParseAuthenticator` on the `secrets` option,
and the local authenticator of the node's credential when that gave none. -/
def serveAuthenticator (env : Env) (node : Node) : Option Authenticator × Option Err :=
  match ParseAuthenticator env (node.Get "secrets") with
  | (_, some err) => (none, some err)
  | (authenticator, none) =>
    match authenticator, node.User with
    | none, some user => (some (.ofMap [(user.username, user.password)]), none)
    | _, _ => (authenticator, none)

/-- The block of `GenRouters` that takes the first user of the `secrets` file for a
node without credential; the error of `ParseUsers` is discarded. -/
def serveUser (env : Env) (node : Node) : Node :=
  if node.User = none then
    match (ParseUsers env (node.Get "secrets")).1 with
    | u :: _ => { node with User := some u }
    | [] => node
  else node

/-- The `switch node.Transport` of `GenRouters`: the listener asked for. -/
def serveListener (env : Env) (b : Build) (chain : Chain) (node : Node)
    (tlsCfg : Option TLSConfig) (timeout : Int) : Listener :=
  if node.Transport = ("tls" : Str) then .tls node.Addr tlsCfg
  else if node.Transport = ("mtls" : Str) then .mtls node.Addr tlsCfg
  else if node.Transport = ("quic" : Str) ∧ b = .cmd then
    .quic node.Addr (quicConfig env node tlsCfg timeout)
  else if node.Transport = ("tcp" : Str) then .tcp node.Addr
  else if node.Transport = ("rtcp" : Str) then .rtcp node.Addr chain
  else if node.Transport = ("dns" : Str) then .dns node.Addr (node.Get "mode") tlsCfg
  else .tcp node.Addr

/-- The `switch node.Protocol` of `GenRouters`. -/
def serveHandlerKind (node : Node) : HandlerKind :=
  if node.Protocol = ("socks" : Str) ∨ node.Protocol = ("socks5" : Str) then .socks5
  else if node.Protocol = ("socks4" : Str) ∨ node.Protocol = ("socks4a" : Str) then .socks4
  else if node.Protocol = ("http" : Str) then .http
  else if node.Protocol = ("tcp" : Str) then .tcpDirectForward node.Remote
  else if node.Protocol = ("rtcp" : Str) then .tcpRemoteForward node.Remote
  else if node.Protocol = ("udp" : Str) then .udpDirectForward node.Remote
  else if node.Protocol = ("rudp" : Str) then .udpRemoteForward node.Remote
  else if node.Protocol = ("sni" : Str) then .sni
  else if node.Protocol = ("dns" : Str) then .dns node.Remote
  else if node.Remote ≠ [] then .tcpDirectForward node.Remote
  else .auto

/-- The `whitelist` and `blacklist` blocks of `GenRouters`. -/
def servePermissions (env : Env) (node : Node) (key : Str) : Option Permissions × Option Err :=
  if node.Get key ≠ [] then
    if env.permissionsOk (node.Get key) then (some ⟨node.Get key⟩, none)
    else (none, some .permissions)
  else (none, none)

/-- The key under which `GenRouters` looks up the host-map file. -/
def hostsKey : Build → Str
  | .config => "Hosts"
  | .cmd => "hosts"

/-- The body of the loop of `GenRouters` from the creation of the listener on, for a
node whose credential, authenticator and TLS config are settled. -/
def serveFinish (env : Env) (b : Build) (chain : Chain) (node : Node)
    (authenticator : Option Authenticator) (tlsCfg : Option TLSConfig) : Except Err Router :=
  let ttl := env.GetDuration node "ttl"
  let timeout := env.GetDuration node "timeout"
  let ln := serveListener env b chain node tlsCfg timeout
  match env.listen ln with
  | some err => .error err
  | none =>
    let kind := serveHandlerKind node
    match servePermissions env node "whitelist" with
    | (_, some err) => .error err
    | (whitelist, none) =>
      match servePermissions env node "blacklist" with
      | (_, some err) => .error err
      | (blacklist, none) =>
        let node := { node with Bypass := ParseBypass env (node.Get "bypass") }
        let hosts := ParseHosts env (node.Get (hostsKey b))
        let ips := ParseIP env (node.Get "ip") []
        let init : ResolverInit :=
          { Chain := chain, Timeout := timeout, TTL := ttl
            Prefer := node.Get "prefer", SrcIP := node.Get "ip" }
        let resolver := (ParseResolver env (node.Get "dns")).map
          (fun r => { r with init := some init })
        let handler : Handler :=
          { kind := kind
            options :=
              { Addr := env.listenAddr ln
                Chain := chain
                Users := [node.User]
                Authenticator := authenticator
                TLSConfig := tlsCfg
                Whitelist := whitelist
                Blacklist := blacklist
                Strategy := node.Get "strategy"
                MaxFails := env.GetInt node "max_fails"
                FailTimeout := env.GetDuration node "fail_timeout"
                Bypass := node.Bypass
                Resolver := resolver
                Hosts := hosts
                Retry := env.GetInt node "retry"
                Timeout := timeout
                ProbeResist := node.Get "probe_resist"
                Knocking := node.Get "knock"
                Node := node
                IPs := ips
                TCPMode := env.GetBool node "tcp" } }
        .ok { Node := node, Server := ln, Handler := handler, Chain := chain
              Resolver := resolver, Hosts := hosts }

/-- The body of the loop of `GenRouters` from the call of `TlsConfig` on. -/
def serveTLS (env : Env) (b : Build) (chain : Chain) (node : Node)
    (authenticator : Option Authenticator) : Except Err Router :=
  match TlsConfig env (node.Get "cert") (node.Get "key") with
  | (tlsCfg, some err) =>
    if node.Get "cert" ≠ [] ∧ node.Get "key" ≠ [] then .error err
    else serveFinish env b chain node authenticator tlsCfg
  | (tlsCfg, none) => serveFinish env b chain node authenticator tlsCfg

/-- The body of the loop of `GenRouters` for the serve-node spec `ns`. -/
def serveRouter (env : Env) (b : Build) (chain : Chain) (ns : Str) : Except Err Router :=
  match env.ParseNode ns with
  | (_, some err) => .error err
  | (node, none) =>
    match authStep env node with
    | (_, some err) => .error err
    | (node, none) =>
      match serveAuthenticator env node with
      | (_, some err) => .error err
      | (authenticator, none) => serveTLS env b chain (serveUser env node) authenticator

/-- The loop of `GenRouters` over the serve nodes, from the routers built so far. -/
def routersLoop (env : Env) (b : Build) (chain : Chain) :
    List Str → List Router → List Router × Option Err
  | [], rts => (rts, none)
  | ns :: rest, rts =>
    match serveRouter env b chain ns with
    | .error err => ([], some err)
    | .ok rt => routersLoop env b chain rest (rts ++ [rt])

/-- Go `Route.GenRouters` of route.go: the router list and the error it returns. -/
def Route.GenRouters (env : Env) (b : Build) (r : Route) : List Router × Option Err :=
  match r.ParseChain env b with
  | .error err => ([], some err)
  | .ok chain => routersLoop env b chain r.ServeNodes []

/-! ## A small environment for worked examples -/

/-- The content of the peer file of end-to-end scenario 4. -/
def examplePeers : Str :=
  "strategy round\nmax_fails 3\nfail_timeout 30s\npeer socks5://p1:1080\npeer socks5://p2:1080"

/-- A peer file in JSON that names a strategy and no nodes: `{"strategy":"round"}`. -/
def exampleJsonPeers : Str :=
  "\x7b\"strategy\":\"round\"\x7d"

/-- A peer file in JSON with the key `BaseNodes`:
`{"BaseNodes":[],"nodes":["socks5://p1:1080"]}`. -/
def exampleJsonBase : Str :=
  "\x7b\"BaseNodes\":[],\"nodes\":[\"socks5://p1:1080\"]\x7d"

/-- A users file: a comment, a blank line, a user whose password holds a space, and a
user without password. -/
def exampleSecrets : Str :=
  "# accounts\n\nalice  wonder land \nbob"

/-- An example file system: the peer files `peers.txt` and `peers.json`, the host map
`hosts.txt`, the users file `secrets.txt` and nothing else. -/
def exampleFiles (path : Str) : Option Reader :=
  if path = ("peers.txt" : Str) then some ⟨examplePeers, false⟩
  else if path = ("peers.json" : Str) then some ⟨exampleJsonBase, false⟩
  else if path = ("hosts.txt" : Str) then some ⟨("127.0.0.1 gateway" : Str), false⟩
  else if path = ("secrets.txt" : Str) then some ⟨exampleSecrets, false⟩
  else none

/-- What `gost.ParseNode` gives for the node specs used in the examples; every other
spec is refused. -/
def exampleParseNode (ns : Str) : Node × Option Err :=
  if ns = ("socks5://relay:1080?ip=10.0.0.1,10.0.0.2:1081" : Str) then
    ({ Addr := "relay:1080", Host := "relay:1080", Protocol := "socks5", Transport := "tcp"
       Values := [("ip", "10.0.0.1,10.0.0.2:1081")] }, none)
  else if ns = ("socks5://p1:1080" : Str) then
    ({ Addr := "p1:1080", Host := "p1:1080", Protocol := "socks5", Transport := "tcp" }, none)
  else if ns = ("socks5://p2:1080" : Str) then
    ({ Addr := "p2:1080", Host := "p2:1080", Protocol := "socks5", Transport := "tcp" }, none)
  else if ns = ("socks5://base:1080?peer=peers.txt" : Str) then
    ({ Addr := "base:1080", Host := "base:1080", Protocol := "socks5", Transport := "tcp"
       Values := [("peer", "peers.txt")] }, none)
  else if ns = ("socks5://base:1080?peer=peers.json" : Str) then
    ({ Addr := "base:1080", Host := "base:1080", Protocol := "socks5", Transport := "tcp"
       Values := [("peer", "peers.json")] }, none)
  else if ns = ("socks5://:1080" : Str) then
    ({ Addr := ":1080", Host := ":1080", Protocol := "socks5", Transport := "tcp" }, none)
  else if ns = ("http+tls://user:pass@:8443?cert=c.pem&key=k.pem" : Str) then
    ({ Addr := ":8443", Host := ":8443", Protocol := "http", Transport := "tls"
       User := some (Userinfo.userPassword "user" "pass")
       Values := [("cert", "c.pem"), ("key", "k.pem")] }, none)
  else if ns = ("http://user:pass@:8080?secrets=nofile" : Str) then
    ({ Addr := ":8080", Host := ":8080", Protocol := "http", Transport := "tcp"
       User := some (Userinfo.userPassword "user" "pass")
       Values := [("secrets", "nofile")] }, none)
  else if ns = ("http://:8080?auth=dXNlcjpwYTpzcw==" : Str) then
    ({ Addr := ":8080", Host := ":8080", Protocol := "http", Transport := "tcp"
       Values := [("auth", "dXNlcjpwYTpzcw==")] }, none)
  else if ns = ("http://:8080?secrets=secrets.txt" : Str) then
    ({ Addr := ":8080", Host := ":8080", Protocol := "http", Transport := "tcp"
       Values := [("secrets", "secrets.txt")] }, none)
  else if ns = ("http+tls://:8443?cert=c.pem" : Str) then
    ({ Addr := ":8443", Host := ":8443", Protocol := "http", Transport := "tls"
       Values := [("cert", "c.pem")] }, none)
  else if ns = ("http+tls://:8443?cert=x.pem&key=y.pem" : Str) then
    ({ Addr := ":8443", Host := ":8443", Protocol := "http", Transport := "tls"
       Values := [("cert", "x.pem"), ("key", "y.pem")] }, none)
  else if ns = ("socks5+tls://relay" : Str) then
    ({ Addr := "relay", Host := "relay", Protocol := "socks5", Transport := "tls" }, none)
  else if ns = ("socks5+tls://relay:1080" : Str) then
    ({ Addr := "relay:1080", Host := "relay:1080", Protocol := "socks5", Transport := "tls" },
      none)
  else if ns = ("socks5://:1080?hosts=hosts.txt" : Str) then
    ({ Addr := ":1080", Host := ":1080", Protocol := "socks5", Transport := "tcp"
       Values := [("hosts", "hosts.txt")] }, none)
  else if ns = ("socks5://relay:1080?ip=10.0.0.1,10.0.0.2,10.0.0.3" : Str) then
    ({ Addr := "relay:1080", Host := "relay:1080", Protocol := "socks5", Transport := "tcp"
       Values := [("ip", "10.0.0.1,10.0.0.2,10.0.0.3")] }, none)
  else if ns = ("socks5://p1:1080?bypass=a.com" : Str) then
    ({ Addr := "p1:1080", Host := "p1:1080", Protocol := "socks5", Transport := "tcp"
       Values := [("bypass", "a.com")] }, none)
  else if ns = ("socks5://p2:1080?bypass=b.com" : Str) then
    ({ Addr := "p2:1080", Host := "p2:1080", Protocol := "socks5", Transport := "tcp"
       Values := [("bypass", "b.com")] }, none)
  else ({}, some (.badNode ns))

/-- An example environment: the example files and node specs, one base64 text
(`user:pa:ss`), one duration, one loadable key pair (`c.pem`, `k.pem`), a JSON decoder
that accepts `exampleJsonPeers` and `exampleJsonBase` only (the empty array of the
latter gives `BaseNodes` an empty slice of its own), and listeners that always bind. -/
def exampleEnv : Env where
  files := exampleFiles
  ParseNode := exampleParseNode
  GetInt := fun node key => (Atoi (node.Get key)).1
  GetBool := fun node key => node.Get key = ("true" : Str)
  GetDuration := fun node key => if node.Get key = ("30s" : Str) then 30000000000 else 0
  base64Decode := fun s => if s = ("dXNlcjpwYTpzcw==" : Str) then some ("user:pa:ss" : Str) else none
  appendCertsFromPEM := fun _ => false
  loadX509KeyPair := fun c k => c = ("c.pem" : Str) ∧ k = ("k.pem" : Str)
  ParseDuration := fun s => if s = ("30s" : Str) then 30000000000 else 0
  jsonDecode := fun s =>
    if s = exampleJsonPeers then { ok := true, strategy := some ("round" : Str) }
    else if s = exampleJsonBase then
      { ok := true, nodes := some [("socks5://p1:1080" : Str)], BaseNodes := some (fun _ => []) }
    else { ok := false }
  jsonBaseCells := fun _ cells nodes => ([], .own (nodes.view cells))
  sha256 := fun s => s
  urlRestFails := fun _ => false
  listen := fun _ => none
  listenAddr := fun ln =>
    match ln with
    | .tls a _ => a
    | .mtls a _ => a
    | .tcp a => a
    | .rtcp a _ => a
    | .dns a _ _ => a
    | .quic a _ => a
  permissionsOk := fun _ => true

/-! ## The claims in the words of the specification

Definitions that follow the wording of the specification; the theorems compare them
with the functions embedded from the sources. -/

/-- The entries of an inline list: the comma-separated pieces of the argument,
white-space trimmed, without the empty ones, in their original order. -/
def specEntries (s : Str) : List Str :=
  ((Split ',' s).map TrimSpace).filter (fun e => e ≠ [])

/-- An entry of an IP list with the default port `d` supplied: unchanged when it
contains a colon, `entry:d` otherwise. -/
def specWithPort (d : Str) (e : Str) : Str :=
  if Contains e ':' then e else e ++ (":" : Str) ++ d

/-- The default port of an IP list: the supplied port, or `8080` when that is empty. -/
def specDefaultPort (p : Str) : Str :=
  if p = [] then ("8080" : Str) else p

/-- The identities `1, 2, ..., n`. -/
def specIDs (n : Nat) : List Int :=
  (List.range n).map (fun (i : Nat) => (i : Int) + 1)

/-- The number of peer nodes a list of peer specs expands to: the total number of
nodes `ParseChainNode` produces for them. -/
def specPeerCount (env : Env) (b : Build) (specs : List Str) : Nat :=
  (specs.map (fun s => (ParseChainNode env b s).1.length)).sum

/-- The nodes parsed from a list of peer specs, with identities counting on from `nid`. -/
def specPeerNodes (env : Env) (b : Build) : Int → List Str → List Node
  | _, [] => []
  | nid, s :: rest =>
    assignIDs nid (ParseChainNode env b s).1 ++
      specPeerNodes env b (nid + (ParseChainNode env b s).1.length) rest

/-- The route of end-to-end scenario 4: one chain node with a peer file. -/
def examplePeerRoute : Route :=
  { ChainNodes := [("socks5://base:1080?peer=peers.txt" : Str)] }

/-- A route whose one chain node has the peer file `peers.json`. -/
def exampleJsonBaseRoute : Route :=
  { ChainNodes := [("socks5://base:1080?peer=peers.json" : Str)] }

/-- The chain `ParseChain` builds for `examplePeerRoute` in the example environment. -/
def examplePeerChain : Chain :=
  match examplePeerRoute.ParseChain exampleEnv .config with
  | .ok chain => chain
  | .error _ => {}

/-- A running `PeerConfig` whose base nodes are the two nodes of scenario 3. -/
def examplePeerConfig : PeerConfig :=
  { newPeerConfig with
    Group := true
    BaseNodes := assignIDs 1
      (ParseChainNode exampleEnv .config "socks5://relay:1080?ip=10.0.0.1,10.0.0.2:1081").1 }

/-- The group of `examplePeerConfig` before its first reload. -/
def examplePeerGroup : NodeGroup :=
  { ID := 1, nodes := examplePeerConfig.BaseNodes }

/-- A line of a peer file without its comment: the text from the first `#` on is
dropped. -/
def specCutComment (line : Str) : Str :=
  line.takeWhile (· ≠ '#')

/-- The pieces of a text between its spaces and tabs. -/
def specPieces : Str → List Str
  | [] => [[]]
  | c :: cs =>
    if c = ' ' ∨ c = '\t' then [] :: specPieces cs
    else
      match specPieces cs with
      | [] => [[c]]
      | p :: ps => (c :: p) :: ps

/-- The tokens of a line as the claim words them: the comment dropped, the rest
split on spaces and tabs. -/
def specTokensPlain (line : Str) : List Str :=
  (specPieces (specCutComment line)).filter (fun t => t ≠ [])

/-- The tokens of a line: the comment dropped, the rest split on spaces and tabs,
every piece trimmed of white space, empty pieces dropped. -/
def specTokens (line : Str) : List Str :=
  ((specPieces (specCutComment line)).map TrimSpace).filter (fun t => t ≠ [])

/-- The directive of a line: its first two tokens; a line with fewer than two tokens
has none. -/
def specDirective : List Str → Option (Str × Str)
  | k :: v :: _ => some (k, v)
  | _ => none

/-- The directives of a list of lines under a tokeniser, in file order. -/
def specDirectives (tokens : Str → List Str) (lines : List Str) : List (Str × Str) :=
  lines.filterMap (fun l => specDirective (tokens l))

/-- The second tokens of the directives whose first token is `key`, in file order. -/
def specValues (key : Str) (ds : List (Str × Str)) : List Str :=
  (ds.filter (fun d => d.1 = key)).map (fun d => d.2)

/-- The second token of the last directive whose first token is `key`. -/
def specLast (key : Str) (ds : List (Str × Str)) : Option Str :=
  (specValues key ds).getLast?

/-- The tokens of the pieces between blanks of a text. -/
def blankTokens (l : Str) : List Str :=
  ((Split ' ' l).map TrimSpace).filter (fun t => t ≠ [])

/-- What a directive does to a `PeerConfig`: `strategy`, `max_fails`, `fail_timeout`
and `reload` set their field, `peer` appends a peer spec, anything else is ignored. -/
def specApply (env : Env) (cfg : PeerConfig) (d : Str × Str) : PeerConfig :=
  if d.1 = ("strategy" : Str) then { cfg with Strategy := d.2 }
  else if d.1 = ("max_fails" : Str) then { cfg with MaxFails := (Atoi d.2).1 }
  else if d.1 = ("fail_timeout" : Str) then { cfg with FailTimeout := env.ParseDuration d.2 }
  else if d.1 = ("reload" : Str) then { cfg with PeriodF := env.ParseDuration d.2 }
  else if d.1 = ("peer" : Str) then { cfg with Nodes := cfg.Nodes ++ [d.2] }
  else cfg

/-- A peer file with a form feed between the directive and its argument. -/
def exampleFormFeedPeers : Str :=
  "peer \x0csocks5://p1:1080"

/-- A decoded `auth` text split at its first colon into username and password: no
colon gives a username without password, later colons stay in the password. -/
def specSplitCredential (cs : Str) : Userinfo :=
  if Contains cs ':' then
    Userinfo.userPassword (cs.takeWhile (· ≠ ':')) ((cs.dropWhile (· ≠ ':')).drop 1)
  else Userinfo.user cs

/-- The credential of a parsed node from its userinfo or, failing that, its `auth`
option (`none` also when the option does not decode). -/
def specAuthCredential (env : Env) (p : Node) : Option Userinfo :=
  match p.User with
  | some u => some u
  | none =>
    if p.Get "auth" ≠ [] then (env.base64Decode (p.Get "auth")).map specSplitCredential
    else none

/-- The entry a line of a users file stands for: none for a line that, trimmed of
white space, is empty or starts with `#`; else `username`, or `username password`
split at the first space of the trimmed line, both parts trimmed of white space. -/
def specUserEntry (line : Str) : Option Userinfo :=
  if TrimSpace line = [] ∨ HasPrefix (TrimSpace line) "#" then none
  else if Contains (TrimSpace line) ' ' then
    some (Userinfo.userPassword (TrimSpace ((TrimSpace line).takeWhile (· ≠ ' ')))
      (TrimSpace (((TrimSpace line).dropWhile (· ≠ ' ')).drop 1)))
  else some (Userinfo.user (TrimSpace line))

/-- The users list of a users file: the entries of its lines, in file order. -/
def specUsers (content : Str) : List Userinfo :=
  (scanLines content).1.filterMap specUserEntry

/-- The credential of a chain node: the userinfo, else the decoded `auth` option, else
the first entry of the users list of the file the `secrets` option names, else none. -/
def specChainCredential (env : Env) (p : Node) : Option Userinfo :=
  match p.User with
  | some u => some u
  | none =>
    if p.Get "auth" ≠ [] then (env.base64Decode (p.Get "auth")).map specSplitCredential
    else (env.Open (p.Get "secrets")).bind (fun r => (specUsers r.data).head?)

/-- The local authenticator holding exactly one username/password pair. -/
def specSingleton (u : Userinfo) : Authenticator :=
  .ofMap [(u.username, u.password)]

/-- The TLS config a listener was created with; none for the listeners that take
none. -/
def Listener.TLSConfig : Listener → Option TLSConfig
  | .tls _ cfg => cfg
  | .mtls _ cfg => cfg
  | .tcp _ => none
  | .rtcp _ _ => none
  | .dns _ _ cfg => cfg
  | .quic _ cfg => cfg.TLSConfig

/-- The peer specs of a peer-file content: the `nodes` array of a JSON content (none
when it has no such key), the second tokens of the `peer` lines of a text content. -/
def specContentPeers (env : Env) (c : Str) : List Str :=
  if (env.jsonDecode c).ok then (env.jsonDecode c).nodes.getD []
  else specValues "peer" (specDirectives specTokens (scanLines c).1)

/-- The peer specs a `PeerConfig` holds after parsing a content: those of the content,
except that a JSON content without a `nodes` key leaves the specs held before. -/
def specHeldPeers (env : Env) (cfg : PeerConfig) (c : Str) : List Str :=
  if (env.jsonDecode c).ok then (env.jsonDecode c).nodes.getD cfg.Nodes
  else specValues "peer" (specDirectives specTokens (scanLines c).1)

/-- A running `PeerConfig` over the two base nodes of scenario 3 that holds one peer
spec from an earlier reload. -/
def exampleHeldConfig : PeerConfig :=
  { examplePeerConfig with Nodes := [("socks5://p1:1080" : Str)] }

/-- The rest of a bypass argument as the claim words it: the prefix `~` stripped. -/
def specBypassRestPlain (s : Str) : Str :=
  if HasPrefix s "~" then s.drop 1 else s

/-- The rest of a bypass argument: every leading `~` stripped. -/
def specBypassRest (s : Str) : Str :=
  s.dropWhile (· = '~')

/-- The name server of an inline resolver entry: an entry starting with `https` whose
URL parses with a scheme becomes the entry verbatim with protocol `https`, and is
skipped otherwise; any other entry is `addr` (empty protocol) or `addr/proto`, and
is skipped when it has more than one slash. -/
def specNameServer (env : Env) (e : Str) : Option NameServer :=
  if HasPrefix e "https" then
    match urlScheme env e with
    | none => none
    | some scheme => if scheme = [] then none else some { Addr := e, Protocol := "https" }
  else
    match Split '/' e with
    | [a] => some { Addr := a }
    | [a, p] => some { Addr := a, Protocol := p }
    | _ => none

/-- The name server of an inline resolver entry as the claim words it: an entry
starting with `https` becomes the entry verbatim with protocol `https`, or with
protocol `https-Chain` when that literal is its URL scheme; any other entry is `addr`
or `addr/proto`. -/
def specNameServerPlain (e : Str) : Option NameServer :=
  if HasPrefix e "https" then
    some { Addr := e
           Protocol :=
             if getSchemeFrom true [] e = some ("https-Chain" : Str) then ("https-Chain" : Str)
             else ("https" : Str) }
  else
    match Split '/' e with
    | [a] => some { Addr := a }
    | [a, p] => some { Addr := a, Protocol := p }
    | _ => none

/-! ## Reload at the level of slices

`PeerConfig.Reload` above takes every slice as the list of its elements. The
definitions below, on the node slices `NodeSlice` declared with the data model, follow
the backing array of `cfg.BaseNodes` as well: `append` writes into its spare capacity
when the appended nodes fit, and the node list of the group may be a slice of that
same array once a reload has installed one. -/

/-- Go `append(s, xs...)`: when `s` is a slice of the cells and the capacity (the
number of cells) suffices, the nodes are written into the cells behind `s`; otherwise
the result has a fresh backing array. It returns the cells and the resulting slice. -/
def appendNodes (cells : List Node) (s : NodeSlice) (xs : List Node) : List Node × NodeSlice :=
  match s with
  | .shared n =>
    if n + xs.length ≤ cells.length then
      (cells.take n ++ xs ++ cells.drop (n + xs.length), .shared (n + xs.length))
    else (cells, .own (cells.take n ++ xs))
  | .own nodes => (cells, .own (nodes ++ xs))

/-- The loop over `cfg.Nodes` of `PeerConfig.Reload` at the level of slices: the cells
of the backing array of `cfg.BaseNodes` and the slice `gNodes` afterwards, and the
error of the first peer spec that does not parse. -/
def reloadNodesShared (env : Env) (b : Build) :
    List Str → List Node → NodeSlice → Int → (List Node × NodeSlice) × Option Err
  | [], cells, gNodes, _ => ((cells, gNodes), none)
  | s :: rest, cells, gNodes, nid =>
    match ParseChainNode env b s with
    | (_, some err) => ((cells, gNodes), some err)
    | (nodes, none) =>
      reloadNodesShared env b rest (appendNodes cells gNodes (assignIDs nid nodes)).1
        (appendNodes cells gNodes (assignIDs nid nodes)).2 (nid + nodes.length)

/-- The outcome of `PeerConfig.Reload` at the level of slices: the `PeerConfig`, the
cells of the backing array of its `BaseNodes`, the selector and the node slice of the
group afterwards, the nodes whose `Bypass` was stopped, and the error returned. -/
structure SharedReloaded where
  cfg : PeerConfig
  cells : List Node
  selector : Option Selector
  nodes : NodeSlice
  stopped : List Node := []
  err : Option Err := none
  deriving DecidableEq, Repr

/-- What the `parse` of the build at hand does to the backing array of `cfg.BaseNodes`
and to a node slice next to it: nothing, unless the JSON decoder finds the key
`BaseNodes`. -/
def parseCells (env : Env) (b : Build) (cells : List Node) (nodes : NodeSlice) (r : Reader) :
    List Node × NodeSlice :=
  match b with
  | .config =>
    if r.fails then (cells, nodes)
    else
      match (env.jsonDecode r.data).BaseNodes with
      | none => (cells, nodes)
      | some _ => env.jsonBaseCells r.data cells nodes
  | .cmd => (cells, nodes)

/-- Whether the `parse` of the build at hand makes `cfg.Group` point to a new group:
the JSON decoder finds an object under `Group` while the pointer is nil. -/
def PeerConfig.parseNewGroup (env : Env) (b : Build) (cfg : PeerConfig) (r : Reader) : Bool :=
  match b with
  | .config =>
    !r.fails && !cfg.Group &&
      (match (env.jsonDecode r.data).Group with
        | .object _ => true
        | _ => false)
  | .cmd => false

/-- `PeerConfig.Reload` of peer.go at the level of slices, for a `PeerConfig` whose
`BaseNodes` are the first `len(BaseNodes)` cells of `cells` and a group with the
selector `selector` and the node slice `nodes`. The replaced slice is read after the
appends, as the loop that stops the old nodes reads it. -/
def PeerConfig.ReloadShared (env : Env) (b : Build) (cfg : PeerConfig) (cells : List Node)
    (selector : Option Selector) (nodes : NodeSlice) (r : Reader) : SharedReloaded :=
  if cfg.Stopped then { cfg := cfg, cells := cells, selector := selector, nodes := nodes }
  else
    let mem := parseCells env b cells nodes r
    let cells := mem.1
    let nodes : NodeSlice := if cfg.parseNewGroup env b r then .own [] else mem.2
    let selector : Option Selector := if cfg.parseNewGroup env b r then none else selector
    match cfg.parseFor env b r with
    | (cfg, some err) =>
      { cfg := cfg, cells := cells, selector := selector, nodes := nodes, err := some err }
    | (cfg, none) =>
      if cfg.Group = false then
        { cfg := cfg, cells := cells, selector := selector, nodes := nodes
          err := some .nilPointer }
      else
        let selector : Option Selector := some
          { MaxFails := cfg.MaxFails, FailTimeout := cfg.FailTimeout, Strategy := cfg.Strategy }
        match reloadNodesShared env b cfg.Nodes cells (.shared cfg.BaseNodes.length)
            (cfg.BaseNodes.length + 1) with
        | (after, some err) =>
          { cfg := cfg, cells := after.1, selector := selector, nodes := nodes, err := some err }
        | (after, none) =>
          let old := nodes.view after.1
          if old.length < cfg.BaseNodes.length then
            { cfg := cfg, cells := after.1, selector := selector, nodes := after.2
              err := some .indexOutOfRange }
          else
            { cfg := cfg, cells := after.1, selector := selector, nodes := after.2
              stopped := (old.drop cfg.BaseNodes.length).filter (fun n => n.Bypass.isSome) }

/-- The three base nodes of a chain node expanded over three addresses. -/
def exampleBase3 : List Node :=
  assignIDs 1
    (ParseChainNode exampleEnv .config "socks5://relay:1080?ip=10.0.0.1,10.0.0.2,10.0.0.3").1

/-- The backing array of `exampleBase3` as three appends to a nil slice leave it: the
three nodes and one spare cell. -/
def exampleCells3 : List Node :=
  exampleBase3 ++ [({} : Node)]

/-- The outcome of the first reload of a `PeerConfig` over `exampleBase3`, whose group
still holds the copy of the base nodes `AddNode` made, on a peer file with the one
peer `socks5://p1:1080?bypass=a.com`. -/
def exampleFirstReload : SharedReloaded :=
  ({ newPeerConfig with Group := true, BaseNodes := exampleBase3 } : PeerConfig).ReloadShared
    exampleEnv .config exampleCells3
    none (.own exampleBase3) ⟨("peer socks5://p1:1080?bypass=a.com" : Str), false⟩

/-- The outcome of the next reload, after the peer file was rewritten to hold the one
peer `socks5://p2:1080?bypass=b.com`. -/
def exampleSecondReload : SharedReloaded :=
  exampleFirstReload.cfg.ReloadShared exampleEnv .config exampleFirstReload.cells
    exampleFirstReload.selector exampleFirstReload.nodes
    ⟨("peer socks5://p2:1080?bypass=b.com" : Str), false⟩

/-- The outcome of a reload, after the first one, of a peer file whose second peer
spec does not parse. -/
def exampleFailedReload : SharedReloaded :=
  exampleFirstReload.cfg.ReloadShared exampleEnv .config exampleFirstReload.cells
    exampleFirstReload.selector exampleFirstReload.nodes
    ⟨("peer socks5://p2:1080?bypass=b.com\npeer socks5://%zz" : Str), false⟩

/-- A node slice that, when it lies in the cells, covers at least the first `k` of
them and no more cells than there are. -/
def NodeSlice.covers (k : Nat) (cells : List Node) : NodeSlice → Prop
  | .shared n => k ≤ n ∧ n ≤ cells.length
  | .own _ => True

/-- A node slice that, when it lies in the cells, fills them all: there is no spare
capacity behind it. -/
def NodeSlice.full (cells : List Node) : NodeSlice → Prop
  | .shared n => n = cells.length
  | .own _ => True

/-- A sequence of `Reload` calls on lists, one per reader, each on the `PeerConfig`
and the group the one before left. -/
def reloadAll (env : Env) (b : Build) : PeerConfig → NodeGroup → List Reader → PeerConfig × NodeGroup
  | cfg, group, [] => (cfg, group)
  | cfg, group, r :: rest =>
    reloadAll env b (cfg.Reload env b group r).cfg (cfg.Reload env b group r).group rest

/-! # Theorems -/

theorem Node.Get_congr {n m : Node} (h : n.Values = m.Values) (key : Str) :
    n.Get key = m.Get key := by
  simp [Node.Get, h]

theorem authStep_ok {env : Env} {n n' : Node} (h : authStep env n = (n', none)) :
    n'.Addr = n.Addr ∧ n'.Values = n.Values := by
  unfold authStep at h
  split at h
  · split at h
    · simp at h
    · simp only [Prod.mk.injEq] at h
      rw [← h.1]
      exact ⟨rfl, rfl⟩
  · simp only [Prod.mk.injEq] at h
    rw [← h.1]
    exact ⟨rfl, rfl⟩

theorem secretsStep_ok {env : Env} {n n' : Node} (h : secretsStep env n = (n', none)) :
    n'.Addr = n.Addr ∧ n'.Values = n.Values := by
  unfold secretsStep at h
  split at h
  · split at h
    · simp at h
    · split at h
      · simp only [Prod.mk.injEq] at h
        rw [← h.1]
        exact ⟨rfl, rfl⟩
      · simp only [Prod.mk.injEq] at h
        rw [← h.1]
        exact ⟨rfl, rfl⟩
  · simp only [Prod.mk.injEq] at h
    rw [← h.1]
    exact ⟨rfl, rfl⟩

theorem lastAddrOption_append_addr (opts : List HandshakeOption) (a : Str) :
    lastAddrOption (opts ++ [HandshakeOption.Addr a]) = some a := by
  induction opts with
  | nil => simp [lastAddrOption]
  | cons o os ih =>
    cases o <;> simp [lastAddrOption, ih]

theorem handshakeOptionsOf_append_addr (opts : List HandshakeOption) (a : Str) :
    (handshakeOptionsOf (opts ++ [HandshakeOption.Addr a])).Addr = a := by
  simp [handshakeOptionsOf, List.foldl_append, HandshakeOption.apply]

/-- The nodes `chainNodeBuild` returns, in terms of the expanded address list. -/
theorem chainNodeBuild_ok {env : Env} {b : Build} {node : Node} {nodes : List Node}
    (h : chainNodeBuild env b node = (nodes, none)) :
    (ParseIP env (node.Get "ip") (SplitHostPort node.Addr).2.1 = [] →
        ∃ n, nodes = [n] ∧ n.Addr = node.Addr) ∧
    (ParseIP env (node.Get "ip") (SplitHostPort node.Addr).2.1 ≠ [] →
        nodes.map (fun n => n.Addr) = ParseIP env (node.Get "ip") (SplitHostPort node.Addr).2.1) ∧
    (∀ n ∈ nodes, lastAddrOption n.HandshakeOptions = some n.Addr ∧
        (handshakeOptionsOf n.HandshakeOptions).Addr = n.Addr) ∧
    (∀ n ∈ nodes, n.User = node.User) := by
  unfold chainNodeBuild at h
  split at h
  · simp at h
  · simp only [Node.Get, Node.Clone] at h ⊢
    split at h
    · rename_i hips
      simp only [Prod.mk.injEq, and_true] at h
      subst h
      refine ⟨fun _ => ⟨_, rfl, rfl⟩, fun hne => absurd hips hne, ?_, ?_⟩
      · intro n hn
        simp only [List.mem_singleton] at hn
        subst hn
        simp [chainHandshakeOptions, lastAddrOption, handshakeOptionsOf, HandshakeOption.apply]
      · intro n hn
        simp only [List.mem_singleton] at hn
        subst hn
        rfl
    · rename_i hips
      simp only [Prod.mk.injEq, and_true] at h
      subst h
      refine ⟨fun he => absurd he hips, fun _ => ?_, ?_, ?_⟩
      · simp [List.map_map, Function.comp_def]
      · intro n hn
        simp only [List.mem_map] at hn
        obtain ⟨ip, _, rfl⟩ := hn
        exact ⟨lastAddrOption_append_addr _ _, handshakeOptionsOf_append_addr _ _⟩
      · intro n hn
        simp only [List.mem_map] at hn
        obtain ⟨ip, _, rfl⟩ := hn
        rfl

/-- C1: when `ParseChainNode` succeeds, with `L` the address list `ParseIP` gives for
the `ip` option and the port of the parsed address: a non-empty `L` yields exactly one
node per entry of `L`, the i-th with `Addr = L[i]`; an empty `L` yields exactly one
node with the parsed address; and in both cases the handshake address in effect for a
node (the last `AddrHandshakeOption` of its options) is the node's own `Addr`. -/
theorem parseChainNode_expansion (env : Env) (b : Build) (ns : Str)
    (h : (ParseChainNode env b ns).2 = none) :
    (ParseIP env ((env.ParseNode ns).1.Get "ip") (SplitHostPort (env.ParseNode ns).1.Addr).2.1 ≠ [] →
      (ParseChainNode env b ns).1.length =
          (ParseIP env ((env.ParseNode ns).1.Get "ip")
            (SplitHostPort (env.ParseNode ns).1.Addr).2.1).length ∧
        (ParseChainNode env b ns).1.map (fun n => n.Addr) =
          ParseIP env ((env.ParseNode ns).1.Get "ip")
            (SplitHostPort (env.ParseNode ns).1.Addr).2.1) ∧
    (ParseIP env ((env.ParseNode ns).1.Get "ip") (SplitHostPort (env.ParseNode ns).1.Addr).2.1 = [] →
      ∃ n, (ParseChainNode env b ns).1 = [n] ∧ n.Addr = (env.ParseNode ns).1.Addr) ∧
    (∀ n ∈ (ParseChainNode env b ns).1,
      lastAddrOption n.HandshakeOptions = some n.Addr ∧
        (handshakeOptionsOf n.HandshakeOptions).Addr = n.Addr) := by
  unfold ParseChainNode at h ⊢
  rcases hp : env.ParseNode ns with ⟨node, _ | e⟩
  swap
  · rw [hp] at h; simp at h
  rw [hp] at h
  simp only at h ⊢
  rcases ha : authStep env node with ⟨node1, _ | e⟩
  swap
  · rw [ha] at h; simp at h
  rw [ha] at h
  simp only at h ⊢
  rcases hs : secretsStep env node1 with ⟨node2, _ | e⟩
  swap
  · rw [hs] at h; simp at h
  rw [hs] at h
  simp only at h ⊢
  have e1 := authStep_ok ha
  have e2 := secretsStep_ok hs
  have hb := chainNodeBuild_ok (show chainNodeBuild env b node2 = ((chainNodeBuild env b node2).1, none) from Prod.ext rfl h)
  have hv : node2.Values = node.Values := e2.2.trans e1.2
  have hA : node2.Addr = node.Addr := e2.1.trans e1.1
  rw [Node.Get_congr hv, hA] at hb
  refine ⟨fun hne => ?_, hb.1, hb.2.2.1⟩
  have := hb.2.1 hne
  exact ⟨by rw [← this, List.length_map], this⟩

/-- C1 at the chain node of end-to-end scenario 3. -/
theorem parseChainNode_expansion_witness :
    (ParseChainNode exampleEnv .config "socks5://relay:1080?ip=10.0.0.1,10.0.0.2:1081").1.map
        (fun n => n.Addr) = [("10.0.0.1:1080" : Str), ("10.0.0.2:1081" : Str)] ∧
      ∀ n ∈ (ParseChainNode exampleEnv .config
          "socks5://relay:1080?ip=10.0.0.1,10.0.0.2:1081").1,
        lastAddrOption n.HandshakeOptions = some n.Addr :=
  have h := parseChainNode_expansion exampleEnv .config
    "socks5://relay:1080?ip=10.0.0.1,10.0.0.2:1081" (by decide)
  ⟨((h.1 (by decide)).2).trans (by decide), fun n hn => (h.2.2 n hn).1⟩

theorem foldl_ipEntryStep (port : Str) (xs : List Str) (acc : List Str) :
    xs.foldl (ipEntryStep port) acc =
      acc ++ (((xs.map TrimSpace).filter (fun e => e ≠ [])).map (specWithPort port)) := by
  induction xs generalizing acc with
  | nil => simp
  | cons x xs ih =>
    rw [List.foldl_cons, ih]
    by_cases hx : TrimSpace x = []
    · simp [ipEntryStep, hx]
    · cases hc : Contains (TrimSpace x) ':' <;>
        simp [ipEntryStep, hx, specWithPort, hc]

/-- C3: for a non-empty argument `s` that does not open as a file and any port `p`,
`ParseIP s p` is the list of the white-space trimmed non-empty comma-separated entries
of `s`, in order, an entry with a colon unchanged and an entry without one extended by
`:` and the default port (`p`, or `8080` when `p` is empty). For the `ip` option and
the address `relay:1080` of the spec `socks5://relay:1080?ip=10.0.0.1,10.0.0.2:1081`
the addresses are `10.0.0.1:1080` and `10.0.0.2:1081`. -/
theorem parseIP_inline (env : Env) (s p : Str) (hs : s ≠ []) (hopen : env.Open s = none) :
    ParseIP env s p = (specEntries s).map (specWithPort (specDefaultPort p)) ∧
      (env.Open "10.0.0.1,10.0.0.2:1081" = none →
        ParseIP env "10.0.0.1,10.0.0.2:1081" (SplitHostPort "relay:1080").2.1 =
          [("10.0.0.1:1080" : Str), ("10.0.0.2:1081" : Str)]) := by
  constructor
  · simp only [ParseIP, if_neg hs, hopen, foldl_ipEntryStep, List.nil_append, specEntries,
      specDefaultPort]
  · intro h
    have hne : (("10.0.0.1,10.0.0.2:1081" : String) : Str) ≠ [] := by decide
    simp only [ParseIP, if_neg hne, h, foldl_ipEntryStep, List.nil_append]
    decide

/-- C3 at an argument with blank entries and no port: the entries get port 8080. -/
theorem parseIP_inline_witness :
    ParseIP exampleEnv " 10.0.0.1 ,,10.0.0.2:1081, " [] =
      [("10.0.0.1:8080" : Str), ("10.0.0.2:1081" : Str)] :=
  ((parseIP_inline exampleEnv " 10.0.0.1 ,,10.0.0.2:1081, " [] (by decide) (by decide)).1).trans
    (by decide)

theorem assignIDs_length (nid : Int) (nodes : List Node) :
    (assignIDs nid nodes).length = nodes.length := by
  induction nodes generalizing nid with
  | nil => rfl
  | cons n ns ih => simp [assignIDs, ih]

theorem assignIDs_ids (nid : Int) (nodes : List Node) :
    (assignIDs nid nodes).map (fun n => n.ID) =
      (List.range nodes.length).map (fun (i : Nat) => nid + (i : Int)) := by
  induction nodes generalizing nid with
  | nil => rfl
  | cons n ns ih =>
    simp only [assignIDs, List.map_cons, List.length_cons, List.range_succ_eq_map, ih,
      List.map_map]
    refine congrArg₂ _ (by simp) (List.map_congr_left fun i _ => ?_)
    simp only [Function.comp, Nat.succ_eq_add_one, Nat.cast_add, Nat.cast_one]
    ring

theorem specIDs_append (k m : Nat) :
    specIDs (k + m) = specIDs k ++ (List.range m).map (fun (i : Nat) => ((k : Int) + 1) + (i : Int)) := by
  simp only [specIDs, List.range_add, List.map_append, List.map_map]
  congr 1
  refine List.map_congr_left fun i _ => ?_
  simp only [Function.comp, Nat.cast_add]
  ring

theorem specPeerNodes_length (env : Env) (b : Build) (nid : Int) (specs : List Str) :
    (specPeerNodes env b nid specs).length = specPeerCount env b specs := by
  induction specs generalizing nid with
  | nil => rfl
  | cons s rest ih =>
    simp [specPeerNodes, specPeerCount, assignIDs_length, ih (nid + _)]

theorem specPeerNodes_ids (env : Env) (b : Build) (nid : Int) (specs : List Str) :
    (specPeerNodes env b nid specs).map (fun n => n.ID) =
      (List.range (specPeerCount env b specs)).map (fun (i : Nat) => nid + (i : Int)) := by
  induction specs generalizing nid with
  | nil => rfl
  | cons s rest ih =>
    have hc : specPeerCount env b (s :: rest) =
        (ParseChainNode env b s).1.length + specPeerCount env b rest := by
      simp [specPeerCount]
    rw [hc]
    simp only [specPeerNodes, List.map_append, assignIDs_ids, ih, List.range_add, List.map_map]
    congr 1
    refine List.map_congr_left fun i _ => ?_
    simp only [Function.comp, Nat.cast_add]
    ring

/-- The loop of `Reload`, when no peer spec fails, appends the parsed peer nodes. -/
theorem reloadNodes_ok {env : Env} {b : Build} {specs : List Str} {g g' : List Node} {nid : Int}
    (h : reloadNodes env b specs g nid = (g', none)) :
    g' = g ++ specPeerNodes env b nid specs := by
  induction specs generalizing g nid with
  | nil =>
    simp only [reloadNodes, Prod.mk.injEq, and_true] at h
    simp [specPeerNodes, h]
  | cons s rest ih =>
    unfold reloadNodes at h
    split at h
    · simp at h
    · rename_i nodes hn
      have := ih h
      rw [this, specPeerNodes, hn, List.append_assoc]

theorem parseLine_frame (env : Env) (cfg : PeerConfig) (line : Str) :
    (PeerConfig.parseLine env cfg line).BaseNodes = cfg.BaseNodes ∧
      (PeerConfig.parseLine env cfg line).StoppedF = cfg.StoppedF ∧
      (PeerConfig.parseLine env cfg line).Group = cfg.Group := by
  unfold PeerConfig.parseLine
  split
  · repeat' split
    all_goals exact ⟨rfl, rfl, rfl⟩
  · exact ⟨rfl, rfl, rfl⟩

theorem foldl_parseLine_frame (env : Env) (lines : List Str) (cfg : PeerConfig) :
    (lines.foldl (PeerConfig.parseLine env) cfg).BaseNodes = cfg.BaseNodes ∧
      (lines.foldl (PeerConfig.parseLine env) cfg).StoppedF = cfg.StoppedF ∧
      (lines.foldl (PeerConfig.parseLine env) cfg).Group = cfg.Group := by
  induction lines generalizing cfg with
  | nil => exact ⟨rfl, rfl, rfl⟩
  | cons l ls ih =>
    rw [List.foldl_cons]
    exact ⟨(ih _).1.trans (parseLine_frame env cfg l).1,
      (ih _).2.1.trans (parseLine_frame env cfg l).2.1,
      (ih _).2.2.trans (parseLine_frame env cfg l).2.2⟩

/-- Parsing a peer file leaves the stop signal alone, and the base nodes as well
unless the JSON decoder finds the key `BaseNodes`; the pointer `Group` is what the
JSON decoder leaves. -/
theorem parse_frame (env : Env) (cfg : PeerConfig) (r : Reader) :
    (cfg.parse env r).1.StoppedF = cfg.StoppedF ∧
      ((env.jsonDecode r.data).BaseNodes = none →
        (cfg.parse env r).1.BaseNodes = cfg.BaseNodes) ∧
      (r.fails = false →
        (cfg.parse env r).1.Group = ((env.jsonDecode r.data).applyTo cfg).Group) := by
  unfold PeerConfig.parse
  split
  · rename_i hr
    exact ⟨rfl, fun _ => rfl, fun h => by simp [h] at hr⟩
  · split
    · refine ⟨rfl, fun h => ?_, fun _ => rfl⟩
      simp only [JsonPeer.applyTo, h]
    · refine ⟨(foldl_parseLine_frame env _ _).2.1, fun h => ?_, fun _ => ?_⟩
      · rw [(foldl_parseLine_frame env _ _).1]
        simp only [JsonPeer.applyTo, h]
      · rw [(foldl_parseLine_frame env _ _).2.2]

/-- The `parse` of either build returns the error of `PeerConfig.parse` and leaves the
same peer specs; it leaves the stop signal alone, and the base nodes as well unless it
is the build of package config and the JSON decoder finds the key `BaseNodes`. -/
theorem parseFor_frame (env : Env) (b : Build) (cfg : PeerConfig) (r : Reader) :
    (cfg.parseFor env b r).2 = (cfg.parse env r).2 ∧
      (cfg.parseFor env b r).1.Nodes = (cfg.parse env r).1.Nodes ∧
      (cfg.parseFor env b r).1.StoppedF = cfg.StoppedF ∧
      (b = .cmd ∨ (env.jsonDecode r.data).BaseNodes = none →
        (cfg.parseFor env b r).1.BaseNodes = cfg.BaseNodes) := by
  cases b with
  | config =>
    refine ⟨rfl, rfl, (parse_frame env cfg r).1, fun h => ?_⟩
    rcases h with h | h
    · cases h
    · exact (parse_frame env cfg r).2.1 h
  | cmd => exact ⟨rfl, rfl, (parse_frame env cfg r).1, fun _ => rfl⟩

/-- The group behind a pointer `Group` that is set keeps its node list and its
selector through `parse`; behind a nil pointer the node list is that of the group
passed in or, for a new group, empty. -/
theorem parseGroup_nodes (env : Env) (b : Build) (cfg : PeerConfig) (group : NodeGroup)
    (r : Reader) :
    (cfg.Group = true →
      (cfg.parseGroup env b group r).nodes = group.nodes ∧
        (cfg.parseGroup env b group r).selector = group.selector) ∧
      ((cfg.parseGroup env b group r).nodes = group.nodes ∨
        (cfg.parseGroup env b group r).nodes = []) := by
  cases b with
  | cmd => exact ⟨fun _ => ⟨rfl, rfl⟩, Or.inl rfl⟩
  | config =>
    unfold PeerConfig.parseGroup
    simp only
    split
    · exact ⟨fun _ => ⟨rfl, rfl⟩, Or.inl rfl⟩
    · unfold JsonGroup.applyTo
      split
      · refine ⟨fun h => by simp [h], ?_⟩
        by_cases h : cfg.Group = true
        · exact Or.inl (by simp [h])
        · exact Or.inr (by simp [h])
      · exact ⟨fun _ => ⟨rfl, rfl⟩, Or.inl rfl⟩

/-- A `Reload` of a running `PeerConfig` that returns no error parsed the content,
found the pointer `Group` set, parsed every peer spec, and installed the base nodes
it holds after parsing followed by the peer nodes. -/
theorem reload_ok {env : Env} {b : Build} {cfg : PeerConfig} {group : NodeGroup} {r : Reader}
    (hs : cfg.Stopped = false) (he : (cfg.Reload env b group r).err = none) :
    (cfg.parseFor env b r).2 = none ∧
      (cfg.Reload env b group r).cfg = (cfg.parseFor env b r).1 ∧
      (cfg.parseFor env b r).1.Group = true ∧
      (cfg.Reload env b group r).group.nodes =
        (cfg.parseFor env b r).1.BaseNodes ++
          specPeerNodes env b ((cfg.parseFor env b r).1.BaseNodes.length + 1)
            (cfg.parseFor env b r).1.Nodes ∧
      (cfg.parseFor env b r).1.BaseNodes.length ≤
        (cfg.parseGroup env b group r).nodes.length := by
  unfold PeerConfig.Reload at he ⊢
  rw [if_neg (by simp [hs])] at he ⊢
  simp only at he ⊢
  rcases hp : cfg.parseFor env b r with ⟨cfg1, _ | e⟩
  swap
  · rw [hp] at he; simp at he
  rw [hp] at he
  simp only at he ⊢
  by_cases hG : cfg1.Group = false
  · rw [if_pos hG] at he; simp at he
  rw [if_neg hG] at he ⊢
  rcases hn : reloadNodes env b cfg1.Nodes cfg1.BaseNodes (cfg1.BaseNodes.length + 1)
    with ⟨gNodes, _ | e⟩
  swap
  · rw [hn] at he; simp at he
  rw [hn] at he
  simp only at he ⊢
  have hg := reloadNodes_ok hn
  simp only [NodeGroup.SetNodes, NodeGroup.SetSelector] at he ⊢
  split at he
  · simp at he
  · rename_i hlen
    rw [if_neg hlen]
    refine ⟨trivial, rfl, by simpa using hG, ?_, Nat.le_of_not_lt hlen⟩
    simpa using hg

theorem ids_base_append_peers (env : Env) (b : Build) (base : List Node) (specs : List Str)
    (hb : base.map (fun n => n.ID) = specIDs base.length) :
    (base ++ specPeerNodes env b (base.length + 1) specs).map (fun n => n.ID) =
      specIDs (base.length + specPeerCount env b specs) := by
  rw [List.map_append, hb, specPeerNodes_ids, specIDs_append]

/-- Whatever a `Reload` whose content leaves the base nodes alone does to a group whose
identities are `1..n`, for a `PeerConfig` whose base nodes carry `1..K`, the
identities afterwards are `1..n'`. -/
theorem reload_ids (env : Env) (b : Build) (cfg : PeerConfig) (group : NodeGroup) (r : Reader)
    (hB : b = .cmd ∨ (env.jsonDecode r.data).BaseNodes = none)
    (hb : cfg.BaseNodes.map (fun n => n.ID) = specIDs cfg.BaseNodes.length)
    (hg : group.nodes.map (fun n => n.ID) = specIDs group.nodes.length) :
    (cfg.Reload env b group r).group.nodes.map (fun n => n.ID) =
      specIDs (cfg.Reload env b group r).group.nodes.length := by
  have hf := (parseFor_frame env b cfg r).2.2.2 hB
  have hg' : (cfg.parseGroup env b group r).nodes.map (fun n => n.ID) =
      specIDs (cfg.parseGroup env b group r).nodes.length := by
    rcases (parseGroup_nodes env b cfg group r).2 with h | h
    · rw [h]; exact hg
    · rw [h]; rfl
  unfold PeerConfig.Reload
  split
  · exact hg
  · simp only
    rcases hp : cfg.parseFor env b r with ⟨cfg1, _ | e⟩
    swap
    · exact hg'
    rw [hp] at hf
    simp only at hf ⊢
    split
    · exact hg'
    rcases hn : reloadNodes env b cfg1.Nodes cfg1.BaseNodes (cfg1.BaseNodes.length + 1)
      with ⟨gNodes, _ | e⟩
    swap
    · exact hg'
    simp only
    have hgn := reloadNodes_ok hn
    have hids : gNodes.map (fun n => n.ID) = specIDs gNodes.length := by
      rw [hgn, hf, ids_base_append_peers env b _ _ hb, List.length_append,
        specPeerNodes_length]
    split <;> exact hids

theorem chainGroup_ids {env : Env} {b : Build} {gid : Int} {ns : Str} {g : GroupBuilt}
    (hJ : b = .cmd ∨ ∀ c, (env.jsonDecode c).BaseNodes = none)
    (h : chainGroup env b gid ns = .ok g) :
    g.group.nodes.map (fun n => n.ID) = specIDs g.group.nodes.length := by
  unfold chainGroup at h
  rcases hp : ParseChainNode env b ns with ⟨nodes, _ | e⟩
  swap
  · rw [hp] at h; simp at h
  rw [hp] at h
  simp only at h
  have hids : (assignIDs 1 nodes).map (fun n => n.ID) = specIDs (assignIDs 1 nodes).length := by
    rw [assignIDs_ids, assignIDs_length, specIDs]
    refine List.map_congr_left fun i _ => ?_
    ring
  rcases hn : assignIDs 1 nodes with _ | ⟨n0, rest⟩
  · rw [hn] at h; simp at h
  rw [hn] at h hids
  simp only at h
  split at h
  · split at h
    · simp at h
    · rename_i f _
      split at h
      · simp at h
      · split at h
        · simp at h
        · simp only [Except.ok.injEq] at h
          rw [← h]
          simp only
          refine reload_ids env b _ _ f (hJ.imp id fun hc => hc _) ?_ ?_
          · simpa [newPeerConfig] using hids
          · simpa [NodeGroup.SetSelector, NodeGroup.AddNode] using hids
  · simp only [Except.ok.injEq] at h
    rw [← h]
    simpa [NodeGroup.SetSelector, NodeGroup.AddNode] using hids

theorem chainLoop_ids (env : Env) (b : Build) (specs : List Str) (gid : Int) (acc chain : Chain)
    (hJ : b = .cmd ∨ ∀ c, (env.jsonDecode c).BaseNodes = none)
    (hacc : ∀ g ∈ acc.groups, g.nodes.map (fun n => n.ID) = specIDs g.nodes.length)
    (h : chainLoop env b specs gid acc = .ok chain) :
    ∀ g ∈ chain.groups, g.nodes.map (fun n => n.ID) = specIDs g.nodes.length := by
  induction specs generalizing gid acc with
  | nil =>
    simp only [chainLoop, Except.ok.injEq] at h
    rw [← h]
    exact hacc
  | cons ns rest ih =>
    unfold chainLoop at h
    split at h
    · simp at h
    · rename_i g hg
      refine ih _ _ ?_ h
      intro g' hg'
      simp only [Chain.AddNodeGroup, List.mem_append, List.mem_singleton] at hg'
      rcases hg' with hin | rfl
      · exact hacc g' hin
      · exact chainGroup_ids hJ hg

/-- A `Reload` leaves the stop signal of the `PeerConfig` alone, and its base nodes as
well when the content leaves them alone. -/
theorem reload_frame (env : Env) (b : Build) (cfg : PeerConfig) (group : NodeGroup) (r : Reader) :
    (cfg.Reload env b group r).cfg.StoppedF = cfg.StoppedF ∧
      (b = .cmd ∨ (env.jsonDecode r.data).BaseNodes = none →
        (cfg.Reload env b group r).cfg.BaseNodes = cfg.BaseNodes) := by
  have hf := parseFor_frame env b cfg r
  have hc : (cfg.Reload env b group r).cfg = cfg ∨
      (cfg.Reload env b group r).cfg = (cfg.parseFor env b r).1 := by
    unfold PeerConfig.Reload
    split
    · exact Or.inl rfl
    · simp only
      rcases hp : cfg.parseFor env b r with ⟨cfg1, _ | e⟩
      swap
      · exact Or.inr rfl
      simp only
      split
      · exact Or.inr rfl
      rcases hn : reloadNodes env b cfg1.Nodes cfg1.BaseNodes (cfg1.BaseNodes.length + 1)
        with ⟨gNodes, _ | e⟩
      swap
      · exact Or.inr rfl
      simp only
      split <;> exact Or.inr rfl
  rcases hc with hc | hc
  · rw [hc]
    exact ⟨rfl, fun _ => rfl⟩
  · rw [hc]
    exact ⟨hf.2.2.1, hf.2.2.2⟩

/-- The `PeerConfig` the loop of `ParseChain` hands to the reload task is running and,
when its peer file left the base nodes alone, its base nodes carry the identities
`1..K`. -/
theorem chainGroup_peer {env : Env} {b : Build} {gid : Int} {ns : Str} {g : GroupBuilt}
    {pc : PeerConfig} {path : Str}
    (hJ : b = .cmd ∨ ∀ c, (env.jsonDecode c).BaseNodes = none)
    (h : chainGroup env b gid ns = .ok g) (hpc : g.peer = some (pc, path)) :
    pc.Stopped = false ∧ pc.BaseNodes.map (fun n => n.ID) = specIDs pc.BaseNodes.length := by
  unfold chainGroup at h
  rcases hp : ParseChainNode env b ns with ⟨nodes, _ | e⟩
  swap
  · rw [hp] at h; simp at h
  rw [hp] at h
  simp only at h
  have hids : (assignIDs 1 nodes).map (fun n => n.ID) = specIDs (assignIDs 1 nodes).length := by
    rw [assignIDs_ids, assignIDs_length, specIDs]
    refine List.map_congr_left fun i _ => ?_
    ring
  rcases hn : assignIDs 1 nodes with _ | ⟨n0, rest⟩
  · rw [hn] at h; simp at h
  rw [hn] at h hids
  simp only at h
  split at h
  · split at h
    · simp at h
    · rename_i f _
      split at h
      · simp at h
      · split at h
        · simp at h
        · simp only [Except.ok.injEq] at h
          rw [← h] at hpc
          simp only [Option.some.injEq, Prod.mk.injEq] at hpc
          have hfr := reload_frame env b
            ({ newPeerConfig with Group := true, BaseNodes := n0 :: rest } : PeerConfig)
            (({ ID := gid } : NodeGroup).AddNode (n0 :: rest) |>.SetSelector
              { MaxFails := env.GetInt n0 "max_fails"
                FailTimeout := env.GetDuration n0 "fail_timeout"
                Strategy := n0.Get "strategy" }) f
          rw [← hpc.1]
          refine ⟨?_, ?_⟩
          · exact hfr.1
          · rw [hfr.2 (hJ.imp id fun hc => hc _)]
            exact hids
  · simp only [Except.ok.injEq] at h
    rw [← h] at hpc
    simp at hpc

/-- Where no peer file reaches the base nodes (the build of cmd/gost, or a JSON decoder
that never finds the key `BaseNodes`): in every group of a chain built by `ParseChain`
the node identities are, in list order, exactly `1, 2, ..., N`; every `PeerConfig`
that `ParseChain` attaches is running and has base nodes carrying `1, ..., K`; and
after a `Reload` that returns no error on such a `PeerConfig`, the group has `K + M`
nodes (`M` the total number of nodes the peer specs expand to) whose identities in
list order are exactly `1, ..., K + M`, the first `K` being the base nodes
themselves. -/
theorem node_ids_of_kept_base (env : Env) (b : Build)
    (hJ : b = .cmd ∨ ∀ c, (env.jsonDecode c).BaseNodes = none) :
    (∀ (r : Route) (chain : Chain), r.ParseChain env b = .ok chain →
      ∀ g ∈ chain.groups, g.nodes.map (fun n => n.ID) = specIDs g.nodes.length) ∧
    (∀ (gid : Int) (ns : Str) (g : GroupBuilt) (pc : PeerConfig) (path : Str),
      chainGroup env b gid ns = .ok g → g.peer = some (pc, path) →
      pc.Stopped = false ∧ pc.BaseNodes.map (fun n => n.ID) = specIDs pc.BaseNodes.length) ∧
    (∀ (cfg : PeerConfig) (group : NodeGroup) (rd : Reader),
      cfg.Stopped = false →
      cfg.BaseNodes.map (fun n => n.ID) = specIDs cfg.BaseNodes.length →
      (cfg.Reload env b group rd).err = none →
      (cfg.Reload env b group rd).group.nodes.length =
          cfg.BaseNodes.length + specPeerCount env b (cfg.Reload env b group rd).cfg.Nodes ∧
        (cfg.Reload env b group rd).group.nodes.map (fun n => n.ID) =
          specIDs (cfg.BaseNodes.length +
            specPeerCount env b (cfg.Reload env b group rd).cfg.Nodes) ∧
        (cfg.Reload env b group rd).group.nodes.take cfg.BaseNodes.length = cfg.BaseNodes ∧
        (cfg.Reload env b group rd).cfg.BaseNodes = cfg.BaseNodes) := by
  refine ⟨?_, ?_, ?_⟩
  · intro r chain h
    exact chainLoop_ids env b r.ChainNodes 1 _ chain hJ (by simp) h
  · intro gid ns g pc path h hpc
    exact chainGroup_peer hJ h hpc
  · intro cfg group rd hs hb he
    have hB := (parseFor_frame env b cfg rd).2.2.2 (hJ.imp id fun hc => hc _)
    obtain ⟨_, hc, _, hn, _⟩ := reload_ok hs he
    rw [hc, hn, hB]
    refine ⟨?_, ids_base_append_peers env b _ _ hb, ?_, rfl⟩
    · rw [List.length_append, specPeerNodes_length]
    · simp

/-- C2 at its failing input, the peer file `{"BaseNodes":[],"nodes":["socks5://p1:1080"]}`.
The JSON decoder of package config writes the exported field `BaseNodes`: a `Reload`
over the two base nodes of scenario 3 returns no error, empties the base nodes and
installs the one peer node with the identity 1, where the claim has three nodes with
the identities 1, 2, 3, the first two being the base nodes; and `ParseChain` on a
chain node with that peer file builds a group without its base node. In the build of
cmd/gost, whose `baseNodes` the decoder cannot reach, the same inputs give what the
claim says. -/
theorem json_replaces_base_nodes :
    examplePeerConfig.Stopped = false ∧
      examplePeerConfig.BaseNodes.map (fun n => (n.Addr, n.ID)) =
        [(("10.0.0.1:1080" : Str), 1), (("10.0.0.2:1081" : Str), 2)] ∧
      (examplePeerConfig.Reload exampleEnv .config examplePeerGroup
        ⟨exampleJsonBase, false⟩).err = none ∧
      (examplePeerConfig.Reload exampleEnv .config examplePeerGroup
        ⟨exampleJsonBase, false⟩).cfg.Nodes = [("socks5://p1:1080" : Str)] ∧
      specPeerCount exampleEnv .config [("socks5://p1:1080" : Str)] = 1 ∧
      (examplePeerConfig.Reload exampleEnv .config examplePeerGroup
        ⟨exampleJsonBase, false⟩).group.nodes.map (fun n => (n.Addr, n.ID)) =
        [(("p1:1080" : Str), 1)] ∧
      (examplePeerConfig.Reload exampleEnv .config examplePeerGroup
        ⟨exampleJsonBase, false⟩).cfg.BaseNodes = [] ∧
      (examplePeerConfig.Reload exampleEnv .cmd examplePeerGroup
        ⟨exampleJsonBase, false⟩).group.nodes.map (fun n => (n.Addr, n.ID)) =
        [(("10.0.0.1:1080" : Str), 1), (("10.0.0.2:1081" : Str), 2), (("p1:1080" : Str), 3)] ∧
      (exampleJsonBaseRoute.ParseChain exampleEnv .config).toOption.map
          (fun c => c.groups.map (fun g => g.nodes.map (fun n => (n.Addr, n.ID)))) =
        some [[(("p1:1080" : Str), 1)]] ∧
      (exampleJsonBaseRoute.ParseChain exampleEnv .cmd).toOption.map
          (fun c => c.groups.map (fun g => g.nodes.map (fun n => (n.Addr, n.ID)))) =
        some [[(("base:1080" : Str), 1), (("p1:1080" : Str), 2)]] := by
  decide

/-! ## The line grammar of peer files -/

theorem foldl_splitStep (xs : List Str) (acc : List Str) :
    xs.foldl splitStep acc = acc ++ ((xs.map TrimSpace).filter (fun t => t ≠ [])) := by
  induction xs generalizing acc with
  | nil => simp
  | cons x xs ih =>
    rw [List.foldl_cons, ih]
    by_cases hx : TrimSpace x = [] <;> simp [splitStep, hx]

theorem TrimSpace_eq (s : Str) : TrimSpace s = (s.dropWhile isSpace).rdropWhile isSpace := rfl

theorem TrimSpace_nil : TrimSpace [] = [] := rfl

theorem TrimSpace_cons_space (c : Char) (s : Str) (hc : isSpace c = true) :
    TrimSpace (c :: s) = TrimSpace s := by
  simp [TrimSpace, List.dropWhile_cons, hc]

theorem TrimSpace_concat_space (s : Str) (c : Char) (hc : isSpace c = true) :
    TrimSpace (s ++ [c]) = TrimSpace s := by
  rw [TrimSpace_eq, TrimSpace_eq, List.dropWhile_append]
  split
  · rename_i he
    have : s.dropWhile isSpace = [] := by simpa using he
    simp [this, List.dropWhile_cons, hc, List.rdropWhile_nil]
  · exact List.rdropWhile_concat_pos _ _ _ hc

theorem Split_ne_nil (sep : Char) (l : Str) : Split sep l ≠ [] := by
  cases l with
  | nil => simp [Split]
  | cons c cs =>
    unfold Split
    split
    · simp
    · split <;> simp

theorem Split_cons_sep (sep : Char) (cs : Str) : Split sep (sep :: cs) = [] :: Split sep cs := by
  simp [Split]

theorem Split_cons_ne {sep a : Char} {cs p : Str} {ps : List Str} (ha : a ≠ sep)
    (hs : Split sep cs = p :: ps) : Split sep (a :: cs) = (a :: p) :: ps := by
  simp [Split, ha, hs]

theorem Split_concat (sep : Char) (m : Str) (c : Char) :
    ∃ init last, Split sep m = init ++ [last] ∧
      Split sep (m ++ [c]) =
        if c = sep then init ++ [last] ++ [[]] else init ++ [last ++ [c]] := by
  induction m with
  | nil =>
    refine ⟨[], [], by simp [Split], ?_⟩
    by_cases h : c = sep <;> simp [Split, h]
  | cons a m ih =>
    obtain ⟨init, last, h1, h2⟩ := ih
    by_cases ha : a = sep
    · subst ha
      refine ⟨[] :: init, last, by rw [Split_cons_sep, h1]; rfl, ?_⟩
      rw [List.cons_append, Split_cons_sep, h2]
      split <;> rfl
    · cases init with
      | nil =>
        refine ⟨[], a :: last, by rw [Split_cons_ne ha h1]; rfl, ?_⟩
        rw [List.cons_append]
        by_cases hc : c = sep
        · rw [if_pos hc] at h2
          rw [if_pos hc, Split_cons_ne ha h2]
          rfl
        · rw [if_neg hc] at h2
          rw [if_neg hc, Split_cons_ne ha h2]
          rfl
      | cons i is =>
        refine ⟨(a :: i) :: is, last, by rw [Split_cons_ne ha h1]; rfl, ?_⟩
        rw [List.cons_append]
        by_cases hc : c = sep
        · rw [if_pos hc] at h2
          rw [if_pos hc, Split_cons_ne ha h2]
          rfl
        · rw [if_neg hc] at h2
          rw [if_neg hc, Split_cons_ne ha h2]
          rfl

theorem blankTokens_cons_space (c : Char) (l : Str) (hc : isSpace c = true) :
    blankTokens (c :: l) = blankTokens l := by
  unfold blankTokens
  by_cases h : c = ' '
  · simp [Split, h, TrimSpace_nil]
  · simp only [Split, h, if_false]
    rcases hs : Split ' ' l with _ | ⟨p, ps⟩
    · exact absurd hs (Split_ne_nil _ _)
    · simp [TrimSpace_cons_space c p hc]

theorem blankTokens_concat_space (l : Str) (c : Char) (hc : isSpace c = true) :
    blankTokens (l ++ [c]) = blankTokens l := by
  unfold blankTokens
  obtain ⟨init, last, h1, h2⟩ := Split_concat ' ' l c
  rw [h1, h2]
  by_cases h : c = ' '
  · rw [if_pos h]
    simp [TrimSpace_nil, List.filter]
  · rw [if_neg h]
    simp [TrimSpace_concat_space last c hc]

theorem blankTokens_dropWhile (l : Str) : blankTokens (l.dropWhile isSpace) = blankTokens l := by
  induction l with
  | nil => rfl
  | cons c l ih =>
    by_cases hc : isSpace c = true
    · rw [List.dropWhile_cons, if_pos hc, ih, blankTokens_cons_space c l hc]
    · rw [List.dropWhile_cons, if_neg hc]

theorem blankTokens_rdropWhile (l : Str) : blankTokens (l.rdropWhile isSpace) = blankTokens l := by
  induction l using List.reverseRecOn with
  | nil => rfl
  | append_singleton l c ih =>
    by_cases hc : isSpace c = true
    · rw [List.rdropWhile_concat_pos _ _ _ hc, ih, blankTokens_concat_space l c hc]
    · rw [List.rdropWhile_concat_neg _ _ _ hc]

theorem blankTokens_TrimSpace (l : Str) : blankTokens (TrimSpace l) = blankTokens l := by
  rw [TrimSpace_eq, blankTokens_rdropWhile, blankTokens_dropWhile]

theorem Split_ReplaceAll_tab (l : Str) : Split ' ' (ReplaceAll l '\t' ' ') = specPieces l := by
  induction l with
  | nil => rfl
  | cons c l ih =>
    simp only [ReplaceAll, List.map_cons] at ih ⊢
    by_cases ht : c = '\t'
    · simp [Split, specPieces, ht, ih]
    · by_cases hs : c = ' '
      · simp [Split, specPieces, hs, ih]
      · simp [Split, specPieces, ht, hs, ih]

theorem take_indexOf (c : Char) (l : Str) :
    l.take (l.indexOf c) = l.takeWhile (· ≠ c) := by
  induction l with
  | nil => rfl
  | cons a l ih =>
    by_cases ha : a = c
    · simp [ha, List.indexOf_cons]
    · have hne : (a == c) = false := by simpa using ha
      rw [List.indexOf_cons, hne, cond_false, List.take_succ_cons, ih, List.takeWhile_cons,
        if_pos (by simpa using ha)]

theorem cutComment_eq (line : Str) :
    (match IndexByte line '#' with
      | some n => line.take n
      | none => line) = specCutComment line := by
  unfold IndexByte specCutComment
  split
  · rename_i n hn
    split at hn
    · simp only [Option.some.injEq] at hn
      rw [← hn, take_indexOf]
    · simp at hn
  · rename_i hn
    split at hn
    · simp at hn
    · rename_i hlt
      rw [← take_indexOf, List.take_of_length_le (Nat.le_of_not_lt hlt)]

/-- The closure `split` computes the tokens of the line. -/
theorem split_eq_specTokens (line : Str) : PeerConfig.split line = specTokens line := by
  unfold PeerConfig.split
  split
  · rename_i h
    subst h
    rfl
  · simp only [cutComment_eq, foldl_splitStep, List.nil_append]
    have := blankTokens_TrimSpace (ReplaceAll (specCutComment line) '\t' ' ')
    unfold blankTokens at this
    rw [this, Split_ReplaceAll_tab]
    rfl

theorem parseLine_eq (env : Env) (cfg : PeerConfig) (line : Str) :
    PeerConfig.parseLine env cfg line =
      match specDirective (specTokens line) with
      | some d => specApply env cfg d
      | none => cfg := by
  unfold PeerConfig.parseLine
  rw [split_eq_specTokens]
  rcases specTokens line with _ | ⟨k, _ | ⟨v, rest⟩⟩ <;> simp [specDirective, specApply]

theorem foldl_parseLine_eq (env : Env) (lines : List Str) (cfg : PeerConfig) :
    lines.foldl (PeerConfig.parseLine env) cfg =
      (specDirectives specTokens lines).foldl (specApply env) cfg := by
  induction lines generalizing cfg with
  | nil => rfl
  | cons l ls ih =>
    rw [List.foldl_cons, ih, parseLine_eq]
    unfold specDirectives
    rw [List.filterMap_cons]
    cases specDirective (specTokens l) <;> rfl

theorem specValues_cons (key : Str) (d : Str × Str) (ds : List (Str × Str)) :
    specValues key (d :: ds) =
      if d.1 = key then d.2 :: specValues key ds else specValues key ds := by
  unfold specValues
  by_cases h : d.1 = key <;> simp [List.filter_cons, h]

/-- A field that only the directive `key` sets holds, after a run of directives, the
value of the last such directive, or what it held before if there is none. -/
theorem foldl_specApply_last {α : Type} (env : Env) (f : PeerConfig → α) (key : Str)
    (val : Str → α)
    (hset : ∀ cfg d, d.1 = key → f (specApply env cfg d) = val d.2)
    (hkeep : ∀ cfg d, d.1 ≠ key → f (specApply env cfg d) = f cfg)
    (ds : List (Str × Str)) (cfg : PeerConfig) :
    f (ds.foldl (specApply env) cfg) = ((specLast key ds).map val).getD (f cfg) := by
  induction ds generalizing cfg with
  | nil => rfl
  | cons d ds ih =>
    rw [List.foldl_cons, ih]
    unfold specLast
    rw [specValues_cons]
    by_cases h : d.1 = key
    · rw [if_pos h, hset cfg d h]
      cases hl : (specValues key ds).getLast? with
      | none =>
        have : specValues key ds = [] := List.getLast?_eq_none_iff.mp hl
        simp [this]
      | some v =>
        rcases hv : specValues key ds with _ | ⟨b, l⟩
        · rw [hv] at hl; simp at hl
        · rw [hv] at hl
          simp [List.getLast?_cons_cons, hl]
    · rw [if_neg h, hkeep cfg d h]

theorem foldl_specApply_nodes (env : Env) (ds : List (Str × Str)) (cfg : PeerConfig) :
    (ds.foldl (specApply env) cfg).Nodes = cfg.Nodes ++ specValues "peer" ds := by
  induction ds generalizing cfg with
  | nil => simp [specValues]
  | cons d ds ih =>
    rw [List.foldl_cons, ih, specValues_cons]
    by_cases h : d.1 = ("peer" : Str)
    · have h1 : d.1 ≠ ("strategy" : Str) := by rw [h]; decide
      have h2 : d.1 ≠ ("max_fails" : Str) := by rw [h]; decide
      have h3 : d.1 ≠ ("fail_timeout" : Str) := by rw [h]; decide
      have h4 : d.1 ≠ ("reload" : Str) := by rw [h]; decide
      simp [specApply, h1, h2, h3, h4, h]
    · rw [if_neg h]
      congr 1
      unfold specApply
      repeat' split
      all_goals rfl

/-- On a content that is read without error and is not JSON, `parse` runs the
directives of the scanned lines over the `PeerConfig` the JSON attempt left, its peer
specs cleared. -/
theorem parse_text_eq (env : Env) (cfg : PeerConfig) (r : Reader)
    (hr : r.fails = false) (hj : (env.jsonDecode r.data).ok = false) :
    (cfg.parse env r).1 =
      (specDirectives specTokens (scanLines r.data).1).foldl (specApply env)
        { (env.jsonDecode r.data).applyTo cfg with Nodes := [] } := by
  unfold PeerConfig.parse
  rw [if_neg (by simp [hr]), if_neg (by simp [hj])]
  exact foldl_parseLine_eq env _ _

/-- The peer specs a `PeerConfig` holds after a parse without error. -/
theorem parse_nodes (env : Env) (cfg : PeerConfig) (r : Reader)
    (h : (cfg.parse env r).2 = none) :
    (cfg.parse env r).1.Nodes = specHeldPeers env cfg r.data := by
  have hr : r.fails = false := by
    by_contra hr
    unfold PeerConfig.parse at h
    rw [if_pos (by simpa using hr)] at h
    simp at h
  unfold specHeldPeers
  by_cases hj : (env.jsonDecode r.data).ok = true
  · rw [if_pos hj]
    unfold PeerConfig.parse
    rw [if_neg (by simp [hr]), if_pos hj]
    rfl
  · rw [if_neg hj, parse_text_eq env cfg r hr (by simpa using hj), foldl_specApply_nodes]
    rfl

/-- C4 as stated fails: with tokens read as the plain pieces between spaces and
tabs, the peer file `peer ␣\fsocks5://p1:1080` (a form feed before the spec) would
carry the peer spec `\fsocks5://p1:1080`, while `parse`, which also trims white space
off every piece, stores `socks5://p1:1080`. -/
theorem peer_tokens_plain_counterexample :
    (exampleEnv.jsonDecode exampleFormFeedPeers).ok = false ∧
      (PeerConfig.parse exampleEnv {} ⟨exampleFormFeedPeers, false⟩).1.Nodes =
        [("socks5://p1:1080" : Str)] ∧
      specValues "peer" (specDirectives specTokensPlain (scanLines exampleFormFeedPeers).1) =
        [("\x0csocks5://p1:1080" : Str)] ∧
      (PeerConfig.parse exampleEnv {} ⟨exampleFormFeedPeers, false⟩).1.Nodes ≠
        specValues "peer" (specDirectives specTokensPlain (scanLines exampleFormFeedPeers).1) := by
  decide

/-- C4, amended: for a peer file that is read without error and fails JSON decoding,
`parse` applies the line grammar to the lines its scanner delivers: on each line the
text from the first `#` on is dropped, the rest is split on spaces and tabs into
pieces that are trimmed of white space, empty pieces are dropped, and a line with
fewer than two tokens is ignored. Afterwards `Nodes` is the list of second tokens of
the `peer` lines in file order, and `Strategy`, `MaxFails`, `FailTimeout` and the
reload period come from the second token of the last `strategy`, `max_fails`,
`fail_timeout` and `reload` line (a field without such a line keeps the value the
JSON attempt left). For the peer file of scenario 4 this gives `round`, 3, the
duration `30s` and the two peer specs. -/
theorem peer_line_grammar (env : Env) (cfg : PeerConfig) (r : Reader)
    (hr : r.fails = false) (hj : (env.jsonDecode r.data).ok = false) :
    (cfg.parse env r).1.Nodes =
        specValues "peer" (specDirectives specTokens (scanLines r.data).1) ∧
      (cfg.parse env r).1.Strategy =
        (specLast "strategy" (specDirectives specTokens (scanLines r.data).1)).getD
          ((env.jsonDecode r.data).applyTo cfg).Strategy ∧
      (cfg.parse env r).1.MaxFails =
        ((specLast "max_fails" (specDirectives specTokens (scanLines r.data).1)).map
          (fun v => (Atoi v).1)).getD ((env.jsonDecode r.data).applyTo cfg).MaxFails ∧
      (cfg.parse env r).1.FailTimeout =
        ((specLast "fail_timeout" (specDirectives specTokens (scanLines r.data).1)).map
          env.ParseDuration).getD ((env.jsonDecode r.data).applyTo cfg).FailTimeout ∧
      (cfg.parse env r).1.PeriodF =
        ((specLast "reload" (specDirectives specTokens (scanLines r.data).1)).map
          env.ParseDuration).getD ((env.jsonDecode r.data).applyTo cfg).PeriodF ∧
      (r.data = examplePeers →
        (cfg.parse env r).1.Strategy = ("round" : Str) ∧
          (cfg.parse env r).1.MaxFails = 3 ∧
          (cfg.parse env r).1.FailTimeout = env.ParseDuration "30s" ∧
          (cfg.parse env r).1.Nodes =
            [("socks5://p1:1080" : Str), ("socks5://p2:1080" : Str)]) := by
  have hp := parse_text_eq env cfg r hr hj
  have hN : (cfg.parse env r).1.Nodes =
      specValues "peer" (specDirectives specTokens (scanLines r.data).1) := by
    rw [hp, foldl_specApply_nodes]
    rfl
  have hS : (cfg.parse env r).1.Strategy =
      (specLast "strategy" (specDirectives specTokens (scanLines r.data).1)).getD
        ((env.jsonDecode r.data).applyTo cfg).Strategy := by
    rw [hp, foldl_specApply_last env (fun c => c.Strategy) "strategy" id]
    · simp
    · intro c d h
      simp [specApply, h]
    · intro c d h
      unfold specApply
      repeat' split
      all_goals first | rfl | contradiction
  have hM : (cfg.parse env r).1.MaxFails =
      ((specLast "max_fails" (specDirectives specTokens (scanLines r.data).1)).map
        (fun v => (Atoi v).1)).getD ((env.jsonDecode r.data).applyTo cfg).MaxFails := by
    rw [hp, foldl_specApply_last env (fun c => c.MaxFails) "max_fails" (fun v => (Atoi v).1)]
    · intro c d h
      have h1 : d.1 ≠ ("strategy" : Str) := by rw [h]; decide
      simp [specApply, h, h1]
    · intro c d h
      unfold specApply
      repeat' split
      all_goals rfl
  have hF : (cfg.parse env r).1.FailTimeout =
      ((specLast "fail_timeout" (specDirectives specTokens (scanLines r.data).1)).map
        env.ParseDuration).getD ((env.jsonDecode r.data).applyTo cfg).FailTimeout := by
    rw [hp, foldl_specApply_last env (fun c => c.FailTimeout) "fail_timeout" env.ParseDuration]
    · intro c d h
      have h1 : d.1 ≠ ("strategy" : Str) := by rw [h]; decide
      have h2 : d.1 ≠ ("max_fails" : Str) := by rw [h]; decide
      simp [specApply, h, h1, h2]
    · intro c d h
      unfold specApply
      repeat' split
      all_goals rfl
  have hP : (cfg.parse env r).1.PeriodF =
      ((specLast "reload" (specDirectives specTokens (scanLines r.data).1)).map
        env.ParseDuration).getD ((env.jsonDecode r.data).applyTo cfg).PeriodF := by
    rw [hp, foldl_specApply_last env (fun c => c.PeriodF) "reload" env.ParseDuration]
    · intro c d h
      have h1 : d.1 ≠ ("strategy" : Str) := by rw [h]; decide
      have h2 : d.1 ≠ ("max_fails" : Str) := by rw [h]; decide
      have h3 : d.1 ≠ ("fail_timeout" : Str) := by rw [h]; decide
      simp [specApply, h, h1, h2, h3]
    · intro c d h
      unfold specApply
      repeat' split
      all_goals rfl
  refine ⟨hN, hS, hM, hF, hP, fun hd => ?_⟩
  rw [hN, hS, hM, hF, hd]
  have h1 : specLast "strategy" (specDirectives specTokens (scanLines examplePeers).1) =
      some ("round" : Str) := by decide
  have h2 : specLast "max_fails" (specDirectives specTokens (scanLines examplePeers).1) =
      some ("3" : Str) := by decide
  have h3 : specLast "fail_timeout" (specDirectives specTokens (scanLines examplePeers).1) =
      some ("30s" : Str) := by decide
  have h4 : (Atoi ("3" : Str)).1 = 3 := by decide
  rw [h1, h2, h3]
  exact ⟨rfl, h4, rfl, by decide⟩

/-- C4 (amended) at the form-feed peer file: the peer spec is stored trimmed. -/
theorem peer_line_grammar_witness :
    (PeerConfig.parse exampleEnv {} ⟨exampleFormFeedPeers, false⟩).1.Nodes =
      [("socks5://p1:1080" : Str)] :=
  ((peer_line_grammar exampleEnv {} ⟨exampleFormFeedPeers, false⟩ (by decide) (by decide)).1).trans
    (by decide)

/-! ## Stopping a PeerConfig -/

/-- C5: once a `PeerConfig` is stopped, `Reload` returns no error and changes nothing,
whatever the reader holds (the `PeerConfig` and the group, selector and node list
included, come back as they were and no bypass is stopped), `Period` is negative
whatever period was configured, and a further `Stop` changes nothing; and `Stopped` is
true from the first `Stop` on, for every `PeerConfig`. -/
theorem stopped_reload_noop (env : Env) (b : Build) (cfg : PeerConfig) (group : NodeGroup)
    (r : Reader) (h : cfg.Stopped = true) :
    cfg.Reload env b group r = { cfg := cfg, group := group, stopped := [], err := none } ∧
      cfg.Period < 0 ∧
      cfg.Stop = cfg ∧
      (∀ c : PeerConfig, c.Stop.Stopped = true ∧ c.Stop.Stop = c.Stop ∧ c.Stop.Period < 0 ∧
        (c.Stop.Reload env b group r).cfg.Stopped = true) := by
  have hstop : ∀ c : PeerConfig, c.Stop.Stopped = true := by
    intro c
    unfold PeerConfig.Stop PeerConfig.Stopped
    split
    · assumption
    · rfl
  have hre : ∀ c : PeerConfig, c.Stopped = true →
      c.Reload env b group r = { cfg := c, group := group, stopped := [], err := none } := by
    intro c hc
    unfold PeerConfig.Reload
    rw [if_pos hc]
  have hper : ∀ c : PeerConfig, c.Stopped = true → c.Period < 0 := by
    intro c hc
    unfold PeerConfig.Period
    rw [if_pos hc]
    decide
  have hagain : ∀ c : PeerConfig, c.Stopped = true → c.Stop = c := by
    intro c hc
    unfold PeerConfig.Stop
    rw [if_pos (show c.StoppedF = true from hc)]
  refine ⟨hre cfg h, hper cfg h, hagain cfg h, fun c => ⟨hstop c, hagain _ (hstop c),
    hper _ (hstop c), ?_⟩⟩
  rw [hre _ (hstop c)]
  exact hstop c

/-- C5 at a `PeerConfig` with a reload period of 30 seconds, stopped, and fed the peer
file of scenario 4. -/
theorem stopped_reload_noop_witness :
    (({ PeriodF := 30000000000 } : PeerConfig).Stop.Reload exampleEnv .config examplePeerGroup
        ⟨examplePeers, false⟩).group = examplePeerGroup ∧
      ({ PeriodF := 30000000000 } : PeerConfig).Stop.Period < 0 :=
  have h := stopped_reload_noop exampleEnv .config ({ PeriodF := 30000000000 } : PeerConfig).Stop
    examplePeerGroup ⟨examplePeers, false⟩ (by decide)
  ⟨by rw [h.1], h.2.1⟩

/-! ## Reloading the same content twice -/

/-- When a running `PeerConfig` reloads without error. -/
theorem reload_err_none_iff (env : Env) (b : Build) (cfg : PeerConfig) (group : NodeGroup)
    (r : Reader) (hs : cfg.Stopped = false) :
    (cfg.Reload env b group r).err = none ↔
      (cfg.parseFor env b r).2 = none ∧
        (cfg.parseFor env b r).1.Group = true ∧
        (reloadNodes env b (cfg.parseFor env b r).1.Nodes (cfg.parseFor env b r).1.BaseNodes
          ((cfg.parseFor env b r).1.BaseNodes.length + 1)).2 = none ∧
        (cfg.parseFor env b r).1.BaseNodes.length ≤
          (cfg.parseGroup env b group r).nodes.length := by
  unfold PeerConfig.Reload
  rw [if_neg (by simp [hs])]
  simp only
  rcases hp : cfg.parseFor env b r with ⟨cfg1, _ | e⟩
  swap
  · simp
  simp only
  by_cases hG : cfg1.Group = false
  · rw [if_pos hG]
    simp [hG]
  rw [if_neg hG]
  have hG' : cfg1.Group = true := by simpa using hG
  rcases hn : reloadNodes env b cfg1.Nodes cfg1.BaseNodes (cfg1.BaseNodes.length + 1)
    with ⟨gNodes, _ | e⟩
  swap
  · simp
  simp only [NodeGroup.SetNodes, NodeGroup.SetSelector, true_and, hG']
  split
  · rename_i hlt
    simp only [reduceCtorEq, false_iff, not_le]
    exact hlt
  · rename_i hlt
    simp only [true_iff]
    exact Nat.le_of_not_lt hlt

/-- Whether `parse` returns an error is a matter of the content alone. -/
theorem parse_err_congr (env : Env) (cfg cfg' : PeerConfig) (r : Reader) :
    (cfg.parse env r).2 = (cfg'.parse env r).2 := by
  unfold PeerConfig.parse
  split
  · rfl
  · split <;> rfl

/-- The peer specs held after parsing a content are those held after parsing it
again. -/
theorem specHeldPeers_again (env : Env) (cfg cfg' : PeerConfig) (c : Str)
    (h : cfg'.Nodes = specHeldPeers env cfg c) :
    specHeldPeers env cfg' c = specHeldPeers env cfg c := by
  unfold specHeldPeers at h ⊢
  by_cases hj : (env.jsonDecode c).ok = true
  · rw [if_pos hj] at h
    rw [if_pos hj, if_pos hj]
    rcases hn : (env.jsonDecode c).nodes with _ | l
    · rw [hn] at h
      simpa using h
    · rfl
  · rw [if_neg hj, if_neg hj]

/-- Parsing the same content again succeeds again, leaves the peer specs as the first
parse left them, finds the pointer `Group` set if the first parse left it set, and
leaves the base nodes alone if the content does. -/
theorem parseFor_again (env : Env) (b : Build) (cfg : PeerConfig) (r : Reader)
    (h : (cfg.parseFor env b r).2 = none) :
    ((cfg.parseFor env b r).1.parseFor env b r).2 = none ∧
      ((cfg.parseFor env b r).1.parseFor env b r).1.Nodes = (cfg.parseFor env b r).1.Nodes ∧
      ((cfg.parseFor env b r).1.Group = true →
        ((cfg.parseFor env b r).1.parseFor env b r).1.Group = true) ∧
      (b = .cmd ∨ (env.jsonDecode r.data).BaseNodes = none →
        ((cfg.parseFor env b r).1.parseFor env b r).1.BaseNodes = cfg.BaseNodes) := by
  have hf := parseFor_frame env b cfg r
  have hf2 := parseFor_frame env b (cfg.parseFor env b r).1 r
  have h0 : (cfg.parse env r).2 = none := hf.1 ▸ h
  have he2 : ((cfg.parseFor env b r).1.parse env r).2 = none :=
    (parse_err_congr env _ cfg r).trans h0
  have hr : r.fails = false := by
    by_contra hr
    unfold PeerConfig.parse at h0
    rw [if_pos (by simpa using hr)] at h0
    simp at h0
  refine ⟨hf2.1.trans he2, ?_, ?_, fun hB => (hf2.2.2.2 hB).trans (hf.2.2.2 hB)⟩
  · rw [hf2.2.1, parse_nodes env _ r he2, hf.2.1, parse_nodes env cfg r h0]
    exact specHeldPeers_again env cfg _ r.data (hf.2.1.trans (parse_nodes env cfg r h0))
  · intro hG
    cases b with
    | cmd => exact hG
    | config =>
      have h1 := (parse_frame env cfg r).2.2 hr
      have h2 := (parse_frame env (cfg.parse env r).1 r).2.2 hr
      have hG' : (cfg.parse env r).1.Group = true := hG
      show ((cfg.parse env r).1.parse env r).1.Group = true
      rw [h2]
      rw [h1] at hG'
      unfold JsonPeer.applyTo at hG' ⊢
      simp only at hG' ⊢
      rcases hj : (env.jsonDecode r.data).Group with _ | _ | id
      · rw [hj] at hG'
        simp only at hG' ⊢
        rw [h1]
        unfold JsonPeer.applyTo
        simp only [hj]
        exact hG'
      · rw [hj] at hG'
        simp at hG'
      · rfl

/-- C6 as stated fails: a running `PeerConfig` that holds the peer spec
`socks5://p1:1080` from an earlier reload and is fed the JSON content
`{"strategy":"round"}`, which carries no peer spec, reloads without error and installs
the two base nodes followed by the node of that held spec, not the base nodes alone. -/
theorem reload_held_peers_counterexample :
    exampleHeldConfig.Stopped = false ∧
      specContentPeers exampleEnv exampleJsonPeers = [] ∧
      (exampleHeldConfig.Reload exampleEnv .config examplePeerGroup
        ⟨exampleJsonPeers, false⟩).err = none ∧
      (exampleHeldConfig.Reload exampleEnv .config examplePeerGroup
        ⟨exampleJsonPeers, false⟩).group.nodes.map (fun n => n.Addr) =
        [("10.0.0.1:1080" : Str), ("10.0.0.2:1081" : Str), ("p1:1080" : Str)] ∧
      (exampleHeldConfig.Reload exampleEnv .config examplePeerGroup
        ⟨exampleJsonPeers, false⟩).group.nodes ≠
        exampleHeldConfig.BaseNodes ++
          specPeerNodes exampleEnv .config (exampleHeldConfig.BaseNodes.length + 1)
            (specContentPeers exampleEnv exampleJsonPeers) := by
  decide

/-- C6, amended: for a running `PeerConfig` and a content that leaves the base nodes
alone (any content in the build of cmd/gost; in package config, any content in which
the JSON decoder finds no key `BaseNodes`) and on which `Reload` returns no error,
reloading the same content once more returns no error again and leaves the group's
node list equal to the list after the first reload (same nodes, hence same length,
addresses and identities, in the same order); after either reload the list is
`BaseNodes` followed by the nodes parsed from the peer specs the `PeerConfig` holds
after parsing the content (the peer specs of the content, or, for a JSON content
without a `nodes` key, the specs held before), with identities counting on from
`len(BaseNodes) + 1`. -/
theorem reload_twice (env : Env) (b : Build) (cfg : PeerConfig) (group : NodeGroup)
    (r : Reader) (hs : cfg.Stopped = false)
    (hB : b = .cmd ∨ (env.jsonDecode r.data).BaseNodes = none)
    (he : (cfg.Reload env b group r).err = none) :
    ((cfg.Reload env b group r).cfg.Reload env b (cfg.Reload env b group r).group r).err = none ∧
      ((cfg.Reload env b group r).cfg.Reload env b (cfg.Reload env b group r).group r).group.nodes =
        (cfg.Reload env b group r).group.nodes ∧
      (cfg.Reload env b group r).group.nodes =
        cfg.BaseNodes ++ specPeerNodes env b (cfg.BaseNodes.length + 1)
          (specHeldPeers env cfg r.data) ∧
      ((cfg.Reload env b group r).cfg.Reload env b (cfg.Reload env b group r).group r).group.nodes =
        cfg.BaseNodes ++ specPeerNodes env b (cfg.BaseNodes.length + 1)
          (specHeldPeers env cfg r.data) ∧
      ((env.jsonDecode r.data).ok = false ∨ (env.jsonDecode r.data).nodes ≠ none →
        specHeldPeers env cfg r.data = specContentPeers env r.data) := by
  obtain ⟨hp, hc, hG, hn, hlen⟩ := reload_ok hs he
  have h1 := (reload_err_none_iff env b cfg group r hs).mp he
  have hf := parseFor_frame env b cfg r
  have hpa := parseFor_again env b cfg r hp
  have hN : (cfg.parseFor env b r).1.Nodes = specHeldPeers env cfg r.data :=
    hf.2.1.trans (parse_nodes env cfg r (hf.1 ▸ hp))
  have hs2 : (cfg.Reload env b group r).cfg.Stopped = false := by
    rw [hc]
    exact hf.2.2.1.trans hs
  have hB1 : (cfg.parseFor env b r).1.BaseNodes = cfg.BaseNodes := hf.2.2.2 hB
  rw [hB1, hN] at hn
  have he2 : ((cfg.Reload env b group r).cfg.Reload env b (cfg.Reload env b group r).group r).err
      = none := by
    rw [reload_err_none_iff env b _ _ r hs2, hc]
    refine ⟨hpa.1, hpa.2.2.1 hG, ?_, ?_⟩
    · rw [hpa.2.1, hpa.2.2.2 hB, ← hB1]
      exact h1.2.2.1
    · rw [hpa.2.2.2 hB, ((parseGroup_nodes env b _ _ r).1 hG).1, hn, List.length_append]
      exact Nat.le_add_right _ _
  obtain ⟨_, _, _, hn2, _⟩ := reload_ok hs2 he2
  have hc2 : (cfg.Reload env b group r).cfg.parseFor env b r =
      (cfg.parseFor env b r).1.parseFor env b r := by rw [hc]
  rw [hc2, hpa.2.1, hpa.2.2.2 hB, hN] at hn2
  refine ⟨he2, by rw [hn2, hn], hn, hn2, ?_⟩
  intro hcase
  unfold specHeldPeers specContentPeers
  by_cases hj : (env.jsonDecode r.data).ok = true
  · rw [if_pos hj, if_pos hj]
    rcases hcase with hk | hk
    · rw [hj] at hk
      simp at hk
    · rcases hnodes : (env.jsonDecode r.data).nodes with _ | l
      · exact absurd hnodes hk
      · rfl
  · rw [if_neg hj, if_neg hj]

/-- C6 (amended) at the two base nodes of scenario 3 and the peer file of scenario 4:
both reloads give the addresses of the base nodes followed by those of the two peers. -/
theorem reload_twice_witness :
    ((examplePeerConfig.Reload exampleEnv .config examplePeerGroup
        ⟨examplePeers, false⟩).cfg.Reload exampleEnv .config
        (examplePeerConfig.Reload exampleEnv .config examplePeerGroup
          ⟨examplePeers, false⟩).group ⟨examplePeers, false⟩).group.nodes.map (fun n => n.Addr) =
      [("10.0.0.1:1080" : Str), ("10.0.0.2:1081" : Str), ("p1:1080" : Str), ("p2:1080" : Str)] :=
  have h := reload_twice exampleEnv .config examplePeerConfig examplePeerGroup
    ⟨examplePeers, false⟩ (by decide) (Or.inr (by rfl)) (by decide)
  (congrArg (List.map (fun n => n.Addr)) h.2.2.2.1).trans (by decide)

/-! ## GenRouters -/

theorem serveFinish_chain {env : Env} {b : Build} {chain : Chain} {node : Node}
    {au : Option Authenticator} {tlsCfg : Option TLSConfig} {rt : Router}
    (h : serveFinish env b chain node au tlsCfg = .ok rt) :
    rt.Chain = chain ∧ rt.Handler.options.Chain = chain ∧
      rt.Handler.options.Authenticator = au ∧ rt.Handler.options.TLSConfig = tlsCfg ∧
      rt.Server = serveListener env b chain node tlsCfg (env.GetDuration node "timeout") := by
  unfold serveFinish at h
  simp only at h
  split at h
  · simp at h
  · split at h
    · simp at h
    · split at h
      · simp at h
      · simp only [Except.ok.injEq] at h
        rw [← h]
        exact ⟨rfl, rfl, rfl, rfl, rfl⟩

theorem serveTLS_chain {env : Env} {b : Build} {chain : Chain} {node : Node}
    {au : Option Authenticator} {rt : Router}
    (h : serveTLS env b chain node au = .ok rt) : rt.Chain = chain := by
  unfold serveTLS at h
  split at h
  · split at h
    · simp at h
    · exact (serveFinish_chain h).1
  · exact (serveFinish_chain h).1

theorem serveRouter_chain {env : Env} {b : Build} {chain : Chain} {ns : Str} {rt : Router}
    (h : serveRouter env b chain ns = .ok rt) : rt.Chain = chain := by
  unfold serveRouter at h
  split at h
  · simp at h
  · split at h
    · simp at h
    · split at h
      · simp at h
      · exact serveTLS_chain h

theorem routersLoop_error {env : Env} {b : Build} {chain : Chain} (specs : List Str)
    (acc : List Router) {e : Err} (h : (routersLoop env b chain specs acc).2 = some e) :
    (routersLoop env b chain specs acc).1 = [] ∧
      ∃ ns ∈ specs, serveRouter env b chain ns = .error e := by
  induction specs generalizing acc with
  | nil => simp [routersLoop] at h
  | cons ns rest ih =>
    unfold routersLoop at h ⊢
    rcases hs : serveRouter env b chain ns with e' | rt
    · rw [hs] at h
      simp only [Option.some.injEq] at h
      exact ⟨rfl, ns, List.mem_cons_self _ _, by rw [← h]; exact hs⟩
    · rw [hs] at h
      simp only at h ⊢
      obtain ⟨h1, ns', hm, he⟩ := ih _ h
      exact ⟨h1, ns', List.mem_cons_of_mem _ hm, he⟩

theorem routersLoop_ok {env : Env} {b : Build} {chain : Chain} (specs : List Str)
    (acc : List Router) (h : (routersLoop env b chain specs acc).2 = none) :
    ∃ rts, (routersLoop env b chain specs acc).1 = acc ++ rts ∧
      List.Forall₂ (fun ns rt => serveRouter env b chain ns = .ok rt) specs rts := by
  induction specs generalizing acc with
  | nil => exact ⟨[], by simp [routersLoop], List.Forall₂.nil⟩
  | cons ns rest ih =>
    unfold routersLoop at h ⊢
    rcases hs : serveRouter env b chain ns with e | rt
    · rw [hs] at h
      simp at h
    · rw [hs] at h
      simp only at h ⊢
      obtain ⟨rts, h1, h2⟩ := ih _ h
      exact ⟨rt :: rts, by rw [h1, List.append_assoc]; rfl, List.Forall₂.cons hs h2⟩

theorem forall₂_left {α β : Type} {R : α → β → Prop} {l₁ : List α} {l₂ : List β}
    (h : List.Forall₂ R l₁ l₂) : ∀ a ∈ l₁, ∃ b ∈ l₂, R a b := by
  induction h with
  | nil => simp
  | cons hab _ ih =>
    intro a ha
    rcases List.mem_cons.mp ha with rfl | ha
    · exact ⟨_, List.mem_cons_self _ _, hab⟩
    · obtain ⟨b, hb, hr⟩ := ih a ha
      exact ⟨b, List.mem_cons_of_mem _ hb, hr⟩

theorem forall₂_right {α β : Type} {R : α → β → Prop} {l₁ : List α} {l₂ : List β}
    (h : List.Forall₂ R l₁ l₂) : ∀ b ∈ l₂, ∃ a ∈ l₁, R a b := by
  induction h with
  | nil => simp
  | cons hab _ ih =>
    intro b hb
    rcases List.mem_cons.mp hb with rfl | hb
    · exact ⟨_, List.mem_cons_self _ _, hab⟩
    · obtain ⟨a, ha, hr⟩ := ih b hb
      exact ⟨a, List.mem_cons_of_mem _ ha, hr⟩

/-- A failing `TlsConfig` returns the load error and no config. -/
theorem TlsConfig_error {env : Env} {certFile keyFile : Str} {e : Err}
    (h : (TlsConfig env certFile keyFile).2 = some e) :
    e = .tls ∧ (TlsConfig env certFile keyFile).1 = none := by
  simp only [TlsConfig] at h ⊢
  generalize (if certFile = [] ∨ keyFile = [] then (DefaultCertFile, DefaultKeyFile)
    else (certFile, keyFile)) = files at h ⊢
  by_cases hl : env.loadX509KeyPair files.1 files.2 = true
  · rw [if_pos hl] at h
    simp at h
  · rw [if_neg hl] at h ⊢
    simp only [Option.some.injEq] at h
    exact ⟨h.symm, rfl⟩

/-- The ways the build of a serve node fails: the node spec does not parse, the
`auth` option is not base64, the `secrets` file does not open, the TLS key material
does not load, the listener cannot be created, or a permission spec is bad. -/
theorem serveRouter_error {env : Env} {b : Build} {chain : Chain} {ns : Str} {e : Err}
    (h : serveRouter env b chain ns = .error e) :
    (env.ParseNode ns).2 = some e ∨ e = .base64 ∨ (∃ path, e = .notOpen path) ∨ e = .tls ∨
      (∃ ln, env.listen ln = some e) ∨ e = .permissions := by
  unfold serveRouter at h
  split at h
  · rename_i hp
    simp only [Except.error.injEq] at h
    left
    rw [hp, h]
  · split at h
    · rename_i node _ _ e' ha
      simp only [Except.error.injEq] at h
      right; left
      unfold authStep at ha
      split at ha
      · split at ha
        · simp only [Prod.mk.injEq, Option.some.injEq] at ha
          rw [← h, ← ha.2]
        · simp at ha
      · simp at ha
    · split at h
      · rename_i node1 _ _ e' hs
        simp only [Except.error.injEq] at h
        right; right; left
        unfold serveAuthenticator ParseAuthenticator at hs
        split at hs
        · rename_i e'' hpa
          simp only [Prod.mk.injEq, Option.some.injEq] at hs
          split at hpa
          · simp at hpa
          · split at hpa
            · simp only [Prod.mk.injEq, Option.some.injEq] at hpa
              exact ⟨_, by rw [← h, ← hs.2, ← hpa.2]⟩
            · simp at hpa
        · split at hs <;> simp at hs
      · unfold serveTLS at h
        have hfin : ∀ node au tlsCfg, serveFinish env b chain node au tlsCfg = .error e →
            (∃ ln, env.listen ln = some e) ∨ e = .permissions := by
          intro node au tlsCfg hf
          unfold serveFinish at hf
          simp only at hf
          split at hf
          · rename_i e' hl
            simp only [Except.error.injEq] at hf
            exact Or.inl ⟨_, by rw [← hf]; exact hl⟩
          · have hperm : ∀ key e', (servePermissions env node key).2 = some e' →
                e' = .permissions := by
              intro key e' hk
              unfold servePermissions at hk
              split at hk
              · split at hk
                · simp at hk
                · simpa using hk.symm
              · simp at hk
            split at hf
            · rename_i e' hw
              simp only [Except.error.injEq] at hf
              exact Or.inr (by rw [← hf]; exact hperm _ _ (by rw [hw]))
            · split at hf
              · rename_i e' hw
                simp only [Except.error.injEq] at hf
                exact Or.inr (by rw [← hf]; exact hperm _ _ (by rw [hw]))
              · simp at hf
        split at h
        · rename_i tlsCfg e' ht
          split at h
          · simp only [Except.error.injEq] at h
            right; right; right; left
            rw [← h]
            exact (TlsConfig_error (by rw [ht])).1
          · exact Or.inr (Or.inr (Or.inr (Or.inr (hfin _ _ _ h))))
        · exact Or.inr (Or.inr (Or.inr (Or.inr (hfin _ _ _ h))))

/-- C7: `GenRouters` is all-or-nothing. Whenever it returns an error the router list
it returns is empty; it returns an error exactly when `ParseChain` fails or the build
of some serve node fails; such a serve node fails because its spec does not parse, its
`auth` is not base64, its `secrets` file does not open, its TLS key material does not
load, its listener cannot be created or a permission spec is bad; and when
`GenRouters` returns no error it returns exactly one router per entry of `ServeNodes`,
the i-th being the router built for the i-th entry, each holding the one chain
`ParseChain` built. -/
theorem genRouters_all_or_nothing (env : Env) (b : Build) (r : Route) :
    ((r.GenRouters env b).2 ≠ none → (r.GenRouters env b).1 = []) ∧
    ((r.GenRouters env b).2 ≠ none ↔
      (∃ e, r.ParseChain env b = .error e) ∨
        ∃ chain, r.ParseChain env b = .ok chain ∧
          ∃ ns ∈ r.ServeNodes, ∃ e, serveRouter env b chain ns = .error e) ∧
    (∀ chain e, r.ParseChain env b = .ok chain → (r.GenRouters env b).2 = some e →
      ∃ ns ∈ r.ServeNodes,
        (env.ParseNode ns).2 = some e ∨ e = .base64 ∨ (∃ path, e = .notOpen path) ∨ e = .tls ∨
          (∃ ln, env.listen ln = some e) ∨ e = .permissions) ∧
    ((r.GenRouters env b).2 = none →
      ∃ chain, r.ParseChain env b = .ok chain ∧
        (r.GenRouters env b).1.length = r.ServeNodes.length ∧
        List.Forall₂ (fun ns rt => serveRouter env b chain ns = .ok rt)
          r.ServeNodes (r.GenRouters env b).1 ∧
        ∀ rt ∈ (r.GenRouters env b).1, rt.Chain = chain) := by
  unfold Route.GenRouters
  rcases hc : r.ParseChain env b with e | chain
  · simp
  · simp only [reduceCtorEq, exists_false, false_or, Except.ok.injEq, exists_eq_left']
    refine ⟨fun h => ?_, ⟨fun h => ?_, ?_⟩, ?_, ?_⟩
    · obtain ⟨e, he⟩ := Option.ne_none_iff_exists'.mp h
      exact (routersLoop_error _ _ he).1
    · obtain ⟨e, he⟩ := Option.ne_none_iff_exists'.mp h
      obtain ⟨ns, hm, hns⟩ := (routersLoop_error _ _ he).2
      exact ⟨ns, hm, e, hns⟩
    · rintro ⟨ns, hm, e, he⟩ hnone
      obtain ⟨rts, _, hall⟩ := routersLoop_ok r.ServeNodes [] hnone
      obtain ⟨rt, _, hrt⟩ := forall₂_left hall ns hm
      rw [he] at hrt
      simp at hrt
    · intro chain' e hch he
      subst hch
      obtain ⟨ns, hm, hns⟩ := (routersLoop_error _ _ he).2
      exact ⟨ns, hm, serveRouter_error hns⟩
    · intro hnone
      obtain ⟨rts, h1, hall⟩ := routersLoop_ok r.ServeNodes [] hnone
      rw [List.nil_append] at h1
      rw [h1]
      refine ⟨hall.length_eq.symm, hall, ?_⟩
      intro rt hrt
      obtain ⟨ns, _, hns⟩ := forall₂_right hall rt hrt
      exact serveRouter_chain hns

/-- C7 at scenarios 1 and 2 served by one route: two routers, in the order of the
serve nodes. -/
theorem genRouters_all_or_nothing_witness :
    (({ ServeNodes := [("socks5://:1080" : Str),
          ("http+tls://user:pass@:8443?cert=c.pem&key=k.pem" : Str)] } : Route).GenRouters
        exampleEnv .config).1.length = 2 ∧
      (({ ServeNodes := [("socks5://:1080" : Str),
          ("http+tls://user:pass@:8443?cert=c.pem&key=k.pem" : Str)] } : Route).GenRouters
        exampleEnv .config).1.map (fun rt => rt.Node.Addr) =
        [(":1080" : Str), (":8443" : Str)] :=
  have h := (genRouters_all_or_nothing exampleEnv .config
    { ServeNodes := [("socks5://:1080" : Str),
        ("http+tls://user:pass@:8443?cert=c.pem&key=k.pem" : Str)] }).2.2.2 (by decide)
  ⟨h.elim fun _ hc => hc.2.1, by decide⟩

/-! ## Credentials and authenticators -/

theorem drop_indexOf_succ (c : Char) (l : Str) :
    l.drop (l.indexOf c + 1) = (l.dropWhile (· ≠ c)).drop 1 := by
  induction l with
  | nil => rfl
  | cons a l ih =>
    by_cases ha : a = c
    · simp [ha, List.indexOf_cons, List.dropWhile_cons]
    · have hne : (a == c) = false := by simpa using ha
      rw [List.indexOf_cons, hne, cond_false, List.dropWhile_cons, if_pos (by simpa using ha),
        ← ih]
      rfl

theorem Contains_eq_false_iff (s : Str) (c : Char) : Contains s c = false ↔ c ∉ s := by
  unfold Contains
  constructor
  · intro h hm
    have := List.any_eq_false.mp h c hm
    simp at this
  · intro h
    rw [List.any_eq_false]
    intro x hx
    simp only [decide_eq_true_eq]
    rintro rfl
    exact h hx

theorem IndexByte_none_iff (s : Str) (c : Char) : IndexByte s c = none ↔ Contains s c = false := by
  rw [Contains_eq_false_iff]
  unfold IndexByte
  constructor
  · intro h
    split at h
    · simp at h
    · rename_i hlt
      rwa [List.indexOf_lt_length] at hlt
  · intro h
    rw [if_neg]
    rwa [List.indexOf_lt_length]

/-- The credential `ParseChainNode` and `GenRouters` make of a decoded `auth` text is
the text split at its first colon. -/
theorem credentialOfAuth_eq (cs : Str) : credentialOfAuth cs = specSplitCredential cs := by
  unfold credentialOfAuth specSplitCredential
  rcases h : IndexByte cs ':' with _ | n
  · rw [if_neg (by rw [(IndexByte_none_iff cs ':').mp h]; simp)]
  · have hc : Contains cs ':' = true := by
      by_contra hc
      rw [(IndexByte_none_iff cs ':').mpr (by simpa using hc)] at h
      simp at h
    rw [if_pos hc]
    unfold IndexByte at h
    split at h
    · simp only [Option.some.injEq] at h
      subst h
      simp only [take_indexOf, drop_indexOf_succ]
    · simp at h

theorem authStep_user {env : Env} {p n : Node} (h : authStep env p = (n, none)) :
    n.User = specAuthCredential env p := by
  unfold authStep at h
  unfold specAuthCredential
  split at h
  · rename_i hc
    split at h
    · simp at h
    · rename_i cs hd
      simp only [Prod.mk.injEq, and_true] at h
      rw [← h, hc.2]
      simp only [if_pos hc.1, hd, Option.map_some', credentialOfAuth_eq]
  · rename_i hc
    simp only [Prod.mk.injEq, and_true] at h
    rw [← h]
    rcases hu : p.User with _ | u
    · simp only
      rw [if_neg]
      intro ha
      exact hc ⟨ha, hu⟩
    · rfl

theorem serveRouter_ok {env : Env} {b : Build} {chain : Chain} {ns : Str} {rt : Router}
    (h : serveRouter env b chain ns = .ok rt) :
    ∃ node0 node au, env.ParseNode ns = (node0, none) ∧ authStep env node0 = (node, none) ∧
      serveAuthenticator env node = (au, none) ∧
      serveTLS env b chain (serveUser env node) au = .ok rt := by
  unfold serveRouter at h
  split at h
  · simp at h
  · rename_i node0 hp
    split at h
    · simp at h
    · rename_i node ha
      split at h
      · simp at h
      · rename_i au hs
        exact ⟨node0, node, au, hp, ha, hs, h⟩

theorem serveTLS_ok {env : Env} {b : Build} {chain : Chain} {node : Node}
    {au : Option Authenticator} {rt : Router} (h : serveTLS env b chain node au = .ok rt) :
    serveFinish env b chain node au (TlsConfig env (node.Get "cert") (node.Get "key")).1 =
      .ok rt := by
  unfold serveTLS at h
  split at h
  · rename_i hT
    split at h
    · simp at h
    · rw [hT]
      exact h
  · rename_i hT
    rw [hT]
    exact h

theorem Env.Open_nil (env : Env) : env.Open [] = none := by
  simp [Env.Open]

theorem serveAuthenticator_ok {env : Env} {node : Node} {au : Option Authenticator}
    (h : serveAuthenticator env node = (au, none)) :
    (∀ f, env.Open (node.Get "secrets") = some f →
        au = some (.ofFile (node.Get "secrets") f)) ∧
      (env.Open (node.Get "secrets") = none →
        node.Get "secrets" = [] ∧ au = node.User.map specSingleton) := by
  unfold serveAuthenticator ParseAuthenticator at h
  by_cases hs : node.Get "secrets" = []
  · rw [if_pos hs] at h
    rw [hs, Env.Open_nil]
    refine ⟨fun f hf => by simp at hf, fun _ => ⟨rfl, ?_⟩⟩
    simp only at h
    rcases hu : node.User with _ | u
    · rw [hu] at h
      simp only [Prod.mk.injEq, and_true] at h
      rw [← h]
      rfl
    · rw [hu] at h
      simp only [Prod.mk.injEq, and_true] at h
      rw [← h]
      rfl
  · rw [if_neg hs] at h
    rcases ho : env.Open (node.Get "secrets") with _ | f
    · rw [ho] at h
      simp at h
    · rw [ho] at h
      simp only [Prod.mk.injEq, and_true] at h
      refine ⟨fun f' hf' => ?_, fun hn => by simp at hn⟩
      simp only [Option.some.injEq] at hf'
      rw [← h, hf']

theorem serveAuthenticator_notOpen {env : Env} {node : Node}
    (hs : node.Get "secrets" ≠ []) (ho : env.Open (node.Get "secrets") = none) :
    serveAuthenticator env node = (none, some (.notOpen (node.Get "secrets"))) := by
  unfold serveAuthenticator ParseAuthenticator
  rw [if_neg hs, ho]

/-- C8, amended: the authenticator `GenRouters` gives the handler of a serve node it
builds is the file-based authenticator when the `secrets` option names an openable
file; otherwise the `secrets` option is empty, and the authenticator is the singleton
local authenticator of the node's credential (from the userinfo or the `auth` option)
when there is one, and none when there is none. A serve node whose non-empty `secrets`
value does not open is not built: the build fails with the open error, whether or not
the node has a credential. -/
theorem serve_authenticator (env : Env) (b : Build) (chain : Chain) (ns : Str) :
    (∀ rt, serveRouter env b chain ns = .ok rt →
      (∀ f, env.Open ((env.ParseNode ns).1.Get "secrets") = some f →
        rt.Handler.options.Authenticator =
          some (.ofFile ((env.ParseNode ns).1.Get "secrets") f)) ∧
      (env.Open ((env.ParseNode ns).1.Get "secrets") = none →
        (env.ParseNode ns).1.Get "secrets" = [] ∧
          rt.Handler.options.Authenticator =
            (specAuthCredential env (env.ParseNode ns).1).map specSingleton)) ∧
    ((env.ParseNode ns).2 = none → (authStep env (env.ParseNode ns).1).2 = none →
      (env.ParseNode ns).1.Get "secrets" ≠ [] →
      env.Open ((env.ParseNode ns).1.Get "secrets") = none →
      serveRouter env b chain ns = .error (.notOpen ((env.ParseNode ns).1.Get "secrets"))) := by
  constructor
  · intro rt h
    obtain ⟨node0, node, au, hp, ha, hs, ht⟩ := serveRouter_ok h
    have hau := (serveFinish_chain (serveTLS_ok ht)).2.2.1
    have hv := (authStep_ok ha).2
    have hu := authStep_user ha
    have hsa := serveAuthenticator_ok hs
    rw [Node.Get_congr hv, hu] at hsa
    rw [hp, hau]
    exact hsa
  · intro hp ha hs ho
    rcases hp' : env.ParseNode ns with ⟨node0, e0⟩
    rw [hp'] at hp ha hs ho
    simp only at hp ha hs ho
    subst hp
    rcases ha' : authStep env node0 with ⟨node, e1⟩
    rw [ha'] at ha
    simp only at ha
    subst ha
    have hv := (authStep_ok ha').2
    unfold serveRouter
    rw [hp']
    simp only
    rw [ha']
    simp only
    rw [serveAuthenticator_notOpen (by rw [Node.Get_congr hv]; exact hs)
      (by rw [Node.Get_congr hv]; exact ho), Node.Get_congr hv]

/-- C8 as stated fails: the serve node `http://user:pass@:8080?secrets=nofile` has a
credential and a `secrets` value that does not open, and `GenRouters` returns the
open error and no router. -/
theorem serve_authenticator_counterexample :
    (exampleEnv.ParseNode "http://user:pass@:8080?secrets=nofile").1.User =
        some (Userinfo.userPassword "user" "pass") ∧
      exampleEnv.Open "nofile" = none ∧
      ({ ServeNodes := [("http://user:pass@:8080?secrets=nofile" : Str)] } : Route).GenRouters
          exampleEnv .config = ([], some (.notOpen "nofile")) ∧
      ¬ ∃ rt, rt ∈ (({ ServeNodes := [("http://user:pass@:8080?secrets=nofile" : Str)] } :
          Route).GenRouters exampleEnv .config).1 := by
  refine ⟨by decide, by decide, by decide, ?_⟩
  have h : (({ ServeNodes := [("http://user:pass@:8080?secrets=nofile" : Str)] } :
      Route).GenRouters exampleEnv .config).1 = [] := by decide
  rw [h]
  simp

/-- C8 (amended) at scenario 2: the handler gets the singleton authenticator of
`user:pass`; and at the serve node with the `secrets` value that does not open: the
build fails. -/
theorem serve_authenticator_witness :
    (∃ rt, serveRouter exampleEnv .config {}
        "http+tls://user:pass@:8443?cert=c.pem&key=k.pem" = .ok rt ∧
      rt.Handler.options.Authenticator = some (.ofMap [(("user" : Str), ("pass" : Str))])) ∧
      serveRouter exampleEnv .config {} "http://user:pass@:8080?secrets=nofile" =
        .error (.notOpen "nofile") :=
  ⟨⟨_, rfl,
    (((serve_authenticator exampleEnv .config {}
      "http+tls://user:pass@:8443?cert=c.pem&key=k.pem").1 _ rfl).2 (by decide)).2.trans
      (by decide)⟩,
   (serve_authenticator exampleEnv .config {}
      "http://user:pass@:8080?secrets=nofile").2 (by decide) (by decide) (by decide) (by decide)⟩

theorem TrimSpace_idem (s : Str) : TrimSpace (TrimSpace s) = TrimSpace s := by
  rw [TrimSpace_eq, TrimSpace_eq]
  have hu : (s.dropWhile isSpace).dropWhile isSpace = s.dropWhile isSpace :=
    List.dropWhile_idempotent _ _
  have h1 : ((s.dropWhile isSpace).rdropWhile isSpace).dropWhile isSpace =
      (s.dropWhile isSpace).rdropWhile isSpace := by
    rcases ht : (s.dropWhile isSpace).rdropWhile isSpace with _ | ⟨a, t⟩
    · rfl
    · have hpre := List.rdropWhile_prefix isSpace (s.dropWhile isSpace)
      rw [ht] at hpre
      obtain ⟨v, hv⟩ := hpre
      rw [← hv] at hu
      have ha : isSpace a = false := by
        by_contra hc
        have hc' : isSpace a = true := by simpa using hc
        have hlen := congrArg List.length hu
        rw [List.cons_append, List.dropWhile_cons, if_pos hc'] at hlen
        have := (List.dropWhile_sublist isSpace (l := t ++ v)).length_le
        simp only [List.length_cons] at hlen
        omega
      rw [List.dropWhile_cons, if_neg (by simp [ha])]
  rw [h1, List.rdropWhile_idempotent]

theorem usersStep_eq (users : List Userinfo) (text : Str) :
    usersStep users text = users ++ (specUserEntry text).toList := by
  unfold usersStep specUserEntry
  simp only
  by_cases hl : TrimSpace text = [] ∨ HasPrefix (TrimSpace text) "#"
  · rw [if_pos hl, if_pos hl]
    simp
  · rw [if_neg hl, if_neg hl]
    unfold SplitN2
    by_cases hc : Contains (TrimSpace text) ' ' = true
    · rw [if_pos hc, if_pos hc]
      rfl
    · rw [if_neg hc, if_neg hc]
      show users ++ [Userinfo.user (TrimSpace (TrimSpace text))] = _
      rw [TrimSpace_idem]
      rfl

theorem foldl_usersStep (lines : List Str) (users : List Userinfo) :
    lines.foldl usersStep users = users ++ lines.filterMap specUserEntry := by
  induction lines generalizing users with
  | nil => simp
  | cons l ls ih =>
    rw [List.foldl_cons, ih, usersStep_eq, List.filterMap_cons]
    cases specUserEntry l <;> simp

/-- The users list `ParseUsers` reads without error is empty for the empty argument
and is otherwise the users list of the file the argument names, which opens. -/
theorem parseUsers_ok {env : Env} {authFile : Str} {users : List Userinfo}
    (h : ParseUsers env authFile = (users, none)) :
    users.head? = (env.Open authFile).bind (fun r => (specUsers r.data).head?) ∧
      (authFile ≠ [] → ∃ r, env.Open authFile = some r ∧ users = specUsers r.data) := by
  unfold ParseUsers at h
  by_cases ha : authFile = []
  · rw [if_pos ha] at h
    simp only [Prod.mk.injEq, and_true] at h
    subst ha
    rw [← h]
    exact ⟨rfl, fun hne => absurd rfl hne⟩
  · rw [if_neg ha] at h
    rcases ho : env.Open authFile with _ | r
    · rw [ho] at h
      simp at h
    · rw [ho] at h
      simp only [Prod.mk.injEq] at h
      have hu : users = specUsers r.data := by
        rw [← h.1, foldl_usersStep]
        rfl
      exact ⟨by rw [hu]; rfl, fun _ => ⟨r, rfl, hu⟩⟩

theorem secretsStep_user {env : Env} {n n' : Node} (h : secretsStep env n = (n', none)) :
    n'.User = match n.User with
      | some u => some u
      | none => (env.Open (n.Get "secrets")).bind (fun r => (specUsers r.data).head?) := by
  unfold secretsStep at h
  split at h
  · rename_i hu
    rw [hu]
    simp only
    split at h
    · simp at h
    · rename_i users hp
      rw [← (parseUsers_ok hp).1]
      split at h
      · simp only [Prod.mk.injEq, and_true] at h
        rw [← h]
        rfl
      · simp only [Prod.mk.injEq, and_true] at h
        rw [← h, hu]
        rfl
  · rename_i hu
    simp only [Prod.mk.injEq, and_true] at h
    rw [← h]
    rcases hu' : n.User with _ | u
    · exact absurd hu' hu
    · rfl

/-- C9: the credential of every node `ParseChainNode` returns is resolved in this
order: the userinfo of the spec, kept unchanged; else, when the `auth` option is not
empty, its base64 decoding split at the first colon (no colon: a username without
password; later colons stay in the password); else the first entry of the users list
of the file the `secrets` option names (the first line that, trimmed, is neither empty
nor a `#` comment, read as `username` or `username password`); else none. A non-empty
`auth` option that does not decode, on a spec without userinfo, makes `ParseChainNode`
fail. -/
theorem chain_credential (env : Env) (b : Build) (ns : Str) :
    ((ParseChainNode env b ns).2 = none →
      ∀ n ∈ (ParseChainNode env b ns).1,
        n.User = specChainCredential env (env.ParseNode ns).1) ∧
    ((env.ParseNode ns).2 = none → (env.ParseNode ns).1.User = none →
      (env.ParseNode ns).1.Get "auth" ≠ [] →
      env.base64Decode ((env.ParseNode ns).1.Get "auth") = none →
      ParseChainNode env b ns = ([], some .base64)) := by
  constructor
  · intro h n hn
    unfold ParseChainNode at h hn
    rcases hp : env.ParseNode ns with ⟨node, _ | e⟩
    swap
    · rw [hp] at h; simp at h
    rw [hp] at h hn
    simp only at h hn ⊢
    rcases ha : authStep env node with ⟨node1, _ | e⟩
    swap
    · rw [ha] at h; simp at h
    rw [ha] at h hn
    simp only at h hn
    rcases hs : secretsStep env node1 with ⟨node2, _ | e⟩
    swap
    · rw [hs] at h; simp at h
    rw [hs] at h hn
    simp only at h hn
    have hb := (chainNodeBuild_ok
      (show chainNodeBuild env b node2 = ((chainNodeBuild env b node2).1, none) from
        Prod.ext rfl h)).2.2.2 n hn
    have h1 := authStep_user ha
    have h2 := secretsStep_user hs
    have hv := (authStep_ok ha).2
    rw [hb, h2, h1, Node.Get_congr hv]
    unfold specAuthCredential specChainCredential
    rcases hu : node.User with _ | u
    · simp only
      by_cases hauth : node.Get "auth" = []
      · rw [if_neg (fun h => h hauth), if_neg (fun h => h hauth)]
      · rw [if_pos hauth, if_pos hauth]
        rcases hd : env.base64Decode (node.Get "auth") with _ | cs
        · exfalso
          unfold authStep at ha
          rw [if_pos ⟨hauth, hu⟩, hd] at ha
          simp at ha
        · rfl
    · rfl
  · intro hp hu hauth hd
    unfold ParseChainNode
    rcases hp' : env.ParseNode ns with ⟨node, e⟩
    rw [hp'] at hp hu hauth hd
    simp only at hp hu hauth hd
    subst hp
    simp only
    unfold authStep
    rw [if_pos ⟨hauth, hu⟩, hd]

/-- C9 at four specs: a userinfo next to a `secrets` option is kept; an `auth` option
that is the base64 text of `user:pa:ss` gives the username `user` with the password
`pa:ss`; a `secrets` option naming a users file that opens with a comment and a blank
line gives the first entry of that file, `alice` with the password `wonder land`; and
a spec with none of the three gives no credential. -/
theorem chain_credential_witness :
    (∀ n ∈ (ParseChainNode exampleEnv .config "http://user:pass@:8080?secrets=nofile").1,
        n.User = some (Userinfo.userPassword "user" "pass")) ∧
      (∀ n ∈ (ParseChainNode exampleEnv .config "http://:8080?auth=dXNlcjpwYTpzcw==").1,
        n.User = some (Userinfo.userPassword "user" "pa:ss")) ∧
      (∀ n ∈ (ParseChainNode exampleEnv .config "http://:8080?secrets=secrets.txt").1,
        n.User = some (Userinfo.userPassword "alice" "wonder land")) ∧
      (∀ n ∈ (ParseChainNode exampleEnv .config "socks5://p1:1080").1, n.User = none) ∧
      (ParseChainNode exampleEnv .config "http://:8080?secrets=secrets.txt").1.length = 1 :=
  ⟨fun n hn => ((chain_credential exampleEnv .config
      "http://user:pass@:8080?secrets=nofile").1 (by decide) n hn).trans (by decide),
   fun n hn => ((chain_credential exampleEnv .config
      "http://:8080?auth=dXNlcjpwYTpzcw==").1 (by decide) n hn).trans (by decide),
   fun n hn => ((chain_credential exampleEnv .config
      "http://:8080?secrets=secrets.txt").1 (by decide) n hn).trans (by decide),
   fun n hn => ((chain_credential exampleEnv .config
      "socks5://p1:1080").1 (by decide) n hn).trans (by decide),
   by decide⟩

/-! ## TLS key material of serve nodes -/

theorem serveUser_values (env : Env) (node : Node) :
    (serveUser env node).Values = node.Values := by
  unfold serveUser
  split
  · split <;> rfl
  · rfl

theorem serveListener_nil (env : Env) (b : Build) (chain : Chain) (node : Node) (timeout : Int) :
    (serveListener env b chain node none timeout).TLSConfig = none := by
  unfold serveListener
  repeat' split
  all_goals rfl

/-- A route one of whose serve nodes fails to build returns an error and no router. -/
theorem genRouters_fails_of_serve {env : Env} {b : Build} {r : Route} {chain : Chain}
    {ns : Str} {e : Err} (hc : r.ParseChain env b = .ok chain) (hm : ns ∈ r.ServeNodes)
    (he : serveRouter env b chain ns = .error e) :
    (r.GenRouters env b).2 ≠ none ∧ (r.GenRouters env b).1 = [] := by
  unfold Route.GenRouters
  rw [hc]
  simp only
  have hne : (routersLoop env b chain r.ServeNodes []).2 ≠ none := by
    intro hnone
    obtain ⟨rts, _, hall⟩ := routersLoop_ok r.ServeNodes [] hnone
    obtain ⟨rt, _, hrt⟩ := forall₂_left hall ns hm
    rw [he] at hrt
    simp at hrt
  obtain ⟨e', he'⟩ := Option.ne_none_iff_exists'.mp hne
  exact ⟨hne, (routersLoop_error _ _ he').1⟩

/-- C10: for a serve node whose TLS key material fails to load, the failure makes the
build fail exactly when both the `cert` and the `key` option are non-empty: then the
build of the node, and with it `GenRouters` of every route holding the node, returns
the load error; when at least one of the two options is empty the error is swallowed,
the build goes on as with no TLS config, and the TLS config given to the listener and
to the handler of the router it may produce is nil. -/
theorem tls_load_failure (env : Env) (b : Build) (chain : Chain) (ns : Str)
    (node0 node : Node) (au : Option Authenticator)
    (hp : env.ParseNode ns = (node0, none)) (ha : authStep env node0 = (node, none))
    (hs : serveAuthenticator env node = (au, none))
    (hload : (TlsConfig env (node.Get "cert") (node.Get "key")).2 ≠ none) :
    ((node.Get "cert" ≠ [] ∧ node.Get "key" ≠ []) →
      serveRouter env b chain ns = .error .tls ∧
        ∀ r : Route, r.ParseChain env b = .ok chain → ns ∈ r.ServeNodes →
          (r.GenRouters env b).2 ≠ none ∧ (r.GenRouters env b).1 = []) ∧
    (¬(node.Get "cert" ≠ [] ∧ node.Get "key" ≠ []) →
      serveRouter env b chain ns = serveFinish env b chain (serveUser env node) au none ∧
        ∀ rt, serveRouter env b chain ns = .ok rt →
          rt.Server.TLSConfig = none ∧ rt.Handler.options.TLSConfig = none) := by
  obtain ⟨e, he⟩ := Option.ne_none_iff_exists'.mp hload
  obtain ⟨he1, he2⟩ := TlsConfig_error he
  have hv := serveUser_values env node
  have hT : TlsConfig env ((serveUser env node).Get "cert") ((serveUser env node).Get "key") =
      (none, some .tls) := by
    rw [Node.Get_congr hv, Node.Get_congr hv]
    exact Prod.ext he2 (by rw [he, he1])
  have hsr : serveRouter env b chain ns = serveTLS env b chain (serveUser env node) au := by
    unfold serveRouter
    rw [hp]
    simp only
    rw [ha]
    simp only
    rw [hs]
  constructor
  · intro hboth
    have herr : serveRouter env b chain ns = .error .tls := by
      rw [hsr]
      unfold serveTLS
      rw [hT]
      simp only
      rw [if_pos (by rw [Node.Get_congr hv, Node.Get_congr hv]; exact hboth)]
    exact ⟨herr, fun r hc hm => genRouters_fails_of_serve hc hm herr⟩
  · intro hnot
    have hfin : serveRouter env b chain ns =
        serveFinish env b chain (serveUser env node) au none := by
      rw [hsr]
      unfold serveTLS
      rw [hT]
      simp only
      rw [if_neg (by rw [Node.Get_congr hv, Node.Get_congr hv]; exact hnot)]
    refine ⟨hfin, fun rt hrt => ?_⟩
    rw [hfin] at hrt
    obtain ⟨_, _, _, h4, h5⟩ := serveFinish_chain hrt
    exact ⟨by rw [h5]; exact serveListener_nil _ _ _ _ _, h4⟩

/-- C10 at a TLS serve node with a `cert` option and no `key` option, in an
environment where the default key pair does not load: the router is built, with no
TLS config for the listener and the handler; and at a serve node with both options
naming files that do not load: the build fails. -/
theorem tls_load_failure_witness :
    (∃ rt, serveRouter exampleEnv .config {} "http+tls://:8443?cert=c.pem" = .ok rt ∧
        rt.Server.TLSConfig = none ∧ rt.Handler.options.TLSConfig = none) ∧
      serveRouter exampleEnv .config {} "http+tls://:8443?cert=x.pem&key=y.pem" =
        .error .tls :=
  ⟨⟨_, rfl,
      ((tls_load_failure exampleEnv .config {} "http+tls://:8443?cert=c.pem" _ _ _ rfl rfl rfl
        (by decide)).2 (by decide)).2 _ rfl⟩,
    ((tls_load_failure exampleEnv .config {} "http+tls://:8443?cert=x.pem&key=y.pem" _ _ _
      rfl rfl rfl (by decide)).1 (by decide)).1⟩

/-! ## The server name of the outbound TLS config -/

/-- The TLS config in the handshake options of every node `chainNodeBuild` returns
carries the host `net.SplitHostPort` gives for the node address, and `localhost` when
that is empty. -/
theorem chainNodeBuild_serverName {env : Env} {b : Build} {node : Node} {nodes : List Node}
    (h : chainNodeBuild env b node = (nodes, none)) :
    ∀ n ∈ nodes, ∃ cfg, (handshakeOptionsOf n.HandshakeOptions).TLSConfig = some cfg ∧
      cfg.ServerName =
        if (SplitHostPort node.Addr).1 = [] then ("localhost" : Str)
        else (SplitHostPort node.Addr).1 := by
  unfold chainNodeBuild at h
  split at h
  · simp at h
  · rename_i rootCAs _
    simp only [Node.Clone] at h
    split at h
    · simp only [Prod.mk.injEq, and_true] at h
      subst h
      intro n hn
      simp only [List.mem_singleton] at hn
      subst hn
      exact ⟨chainTLSConfig env node rootCAs, rfl, rfl⟩
    · simp only [Prod.mk.injEq, and_true] at h
      subst h
      intro n hn
      simp only [List.mem_map] at hn
      obtain ⟨ip, _, rfl⟩ := hn
      refine ⟨chainTLSConfig env node rootCAs, ?_, rfl⟩
      simp [handshakeOptionsOf, chainHandshakeOptions, HandshakeOption.apply]

/-- C11 at its failing input: for the chain node `socks5+tls://relay`, whose address
`relay` has a host and no port, `ParseChainNode` succeeds and the server name of the
outbound TLS config is `localhost`, not `relay`; with a port (`relay:1080`) it is
`relay`. -/
theorem serverName_without_port :
    (ParseChainNode exampleEnv .config "socks5+tls://relay").2 = none ∧
      (ParseChainNode exampleEnv .config "socks5+tls://relay").1.map
          (fun n => (n.Addr, (handshakeOptionsOf n.HandshakeOptions).TLSConfig.map
            (fun c => c.ServerName))) =
        [(("relay" : Str), some ("localhost" : Str))] ∧
      (ParseChainNode exampleEnv .config "socks5+tls://relay:1080").1.map
          (fun n => (n.Addr, (handshakeOptionsOf n.HandshakeOptions).TLSConfig.map
            (fun c => c.ServerName))) =
        [(("relay:1080" : Str), some ("relay" : Str))] := by
  decide

/-! ## The host map of serve nodes -/

/-- The host map of a router is the one `ParseHosts` loads for the key the builder
reads (`Hosts` in package config, `hosts` in cmd/gost), and the handler is given the
same one. -/
theorem serveFinish_hosts {env : Env} {b : Build} {chain : Chain} {node : Node}
    {au : Option Authenticator} {tlsCfg : Option TLSConfig} {rt : Router}
    (h : serveFinish env b chain node au tlsCfg = .ok rt) :
    rt.Hosts = ParseHosts env (node.Get (hostsKey b)) ∧ rt.Handler.options.Hosts = rt.Hosts := by
  unfold serveFinish at h
  simp only at h
  split at h
  · simp at h
  · split at h
    · simp at h
    · split at h
      · simp at h
      · simp only [Except.ok.injEq] at h
        rw [← h]
        exact ⟨rfl, rfl⟩

/-- C13 at its failing input: for the serve node `socks5://:1080?hosts=hosts.txt`,
whose `hosts` option names a file that opens, the builder of package config returns a
router without host map (it reads the key `Hosts`), and gives the handler none, while
the builder of cmd/gost returns the host map loaded from the file and gives the
handler the same one. -/
theorem hosts_key_config :
    (exampleEnv.ParseNode "socks5://:1080?hosts=hosts.txt").1.Get "hosts" = ("hosts.txt" : Str) ∧
      exampleEnv.Open "hosts.txt" = some ⟨("127.0.0.1 gateway" : Str), false⟩ ∧
      (({ ServeNodes := [("socks5://:1080?hosts=hosts.txt" : Str)] } : Route).GenRouters
          exampleEnv .config).2 = none ∧
      (({ ServeNodes := [("socks5://:1080?hosts=hosts.txt" : Str)] } : Route).GenRouters
          exampleEnv .config).1.map (fun rt => (rt.Hosts, rt.Handler.options.Hosts)) =
        [(none, none)] ∧
      (({ ServeNodes := [("socks5://:1080?hosts=hosts.txt" : Str)] } : Route).GenRouters
          exampleEnv .cmd).1.map (fun rt => (rt.Hosts, rt.Handler.options.Hosts)) =
        [(some ⟨("hosts.txt" : Str), ⟨("127.0.0.1 gateway" : Str), false⟩⟩,
          some ⟨("hosts.txt" : Str), ⟨("127.0.0.1 gateway" : Str), false⟩⟩)] := by
  decide

/-! ## ParseBypass -/

theorem foldl_bypassEntryStep (xs : List Str) (acc : List Str) :
    xs.foldl bypassEntryStep acc = acc ++ ((xs.map TrimSpace).filter (fun e => e ≠ [])) := by
  induction xs generalizing acc with
  | nil => simp
  | cons x xs ih =>
    rw [List.foldl_cons, ih]
    by_cases hx : TrimSpace x = [] <;> simp [bypassEntryStep, hx]

theorem bypass_rest_eq (s : Str) :
    (if HasPrefix s "~" = true then TrimLeft s '~' else s) = specBypassRest s := by
  unfold specBypassRest TrimLeft HasPrefix
  split
  · rfl
  · rename_i h
    cases s with
    | nil => rfl
    | cons c cs =>
      have hc : c ≠ '~' := by
        intro hc
        apply h
        subst hc
        have ht : ("~" : String).toList = ['~'] := rfl
        rw [ht]
        simp [List.isPrefixOf]
      rw [List.dropWhile_cons, if_neg (by simpa using hc)]

/-- C14 as stated fails: for the argument `~~a`, which does not open as a file, the
rest after the prefix `~` is `~a`, with the single entry `~a`, while `ParseBypass`,
which strips every leading `~`, returns the matcher `a`. -/
theorem parseBypass_prefix_counterexample :
    exampleEnv.Open (specBypassRestPlain "~~a") = none ∧
      specEntries (specBypassRestPlain "~~a") = [("~a" : Str)] ∧
      ParseBypass exampleEnv "~~a" = some { reversed := true, matchers := [("a" : Str)] } ∧
      (ParseBypass exampleEnv "~~a").map (fun bp => bp.matchers) ≠
        some (specEntries (specBypassRestPlain "~~a")) := by
  decide

/-- C14, amended: `ParseBypass("")` is nil; for every other argument the bypass is
inverted exactly when the argument starts with `~`, every leading `~` is stripped
before the rest is interpreted, and when the rest does not open as a file the bypass
is static and its matchers are exactly the white-space trimmed non-empty
comma-separated entries of the rest, in order. In particular `ParseBypass("~")` is a
non-nil inverted bypass with no matchers, and `ParseBypass("~*.internal")`, when
`*.internal` does not open as a file, is an inverted bypass with the single matcher
`*.internal`. -/
theorem parseBypass_spec (env : Env) (s : Str) :
    ParseBypass env [] = none ∧
    (s ≠ [] → ∃ bp, ParseBypass env s = some bp ∧ bp.reversed = HasPrefix s "~" ∧
      (env.Open (specBypassRest s) = none →
        bp.matchers = specEntries (specBypassRest s) ∧ bp.source = none)) ∧
    ParseBypass env "~" = some { reversed := true, matchers := [] } ∧
    (env.Open "*.internal" = none →
      ParseBypass env "~*.internal" =
        some { reversed := true, matchers := [("*.internal" : Str)] }) := by
  have hgen : ∀ t : Str, t ≠ [] → ∃ bp, ParseBypass env t = some bp ∧
      bp.reversed = HasPrefix t "~" ∧
      (env.Open (specBypassRest t) = none →
        bp = { reversed := HasPrefix t "~", matchers := specEntries (specBypassRest t) }) := by
    intro t ht
    unfold ParseBypass
    rw [if_neg ht]
    simp only
    rw [bypass_rest_eq]
    rcases ho : env.Open (specBypassRest t) with _ | r
    · refine ⟨_, rfl, rfl, fun _ => ?_⟩
      rw [foldl_bypassEntryStep]
      rfl
    · exact ⟨_, rfl, rfl, fun hn => by simp at hn⟩
  refine ⟨by simp [ParseBypass], fun hs => ?_, ?_, fun ho => ?_⟩
  · obtain ⟨bp, h1, h2, h3⟩ := hgen s hs
    refine ⟨bp, h1, h2, fun ho => ?_⟩
    rw [h3 ho]
    exact ⟨rfl, rfl⟩
  · obtain ⟨bp, h1, _, h3⟩ := hgen ("~" : Str) (by decide)
    have hr : specBypassRest ("~" : Str) = [] := by decide
    rw [hr] at h3
    rw [h1, h3 (Env.Open_nil env)]
    decide
  · obtain ⟨bp, h1, _, h3⟩ := hgen ("~*.internal" : Str) (by decide)
    have hr : specBypassRest ("~*.internal" : Str) = ("*.internal" : Str) := by decide
    rw [hr] at h3
    rw [h1, h3 ho]
    decide

/-- C14 (amended) at the argument `~~a`: an inverted bypass with the matcher `a`. -/
theorem parseBypass_spec_witness :
    ∃ bp, ParseBypass exampleEnv "~~a" = some bp ∧ bp.reversed = true ∧
      bp.matchers = [("a" : Str)] :=
  (((parseBypass_spec exampleEnv "~~a").2.1 (by decide)).imp fun _ h =>
    ⟨h.1, h.2.1.trans (by decide), (h.2.2 (by decide)).1.trans (by decide)⟩)

/-! ## ParseResolver -/

theorem toLower_ne_upper_C (c : Char) : c.toLower ≠ 'C' := by
  unfold Char.toLower
  simp only
  split
  · rename_i h
    obtain ⟨h1, h2⟩ := h
    generalize c.toNat = n at h1 h2
    interval_cases n <;> decide
  · rename_i h
    intro hc
    apply h
    rw [hc]
    decide

/-- The scheme `url.Parse` returns is lower-cased: it is never the literal
`https-Chain`. -/
theorem urlScheme_ne_https_Chain (env : Env) (raw : Str) :
    urlScheme env raw ≠ some ("https-Chain" : Str) := by
  unfold urlScheme
  simp only
  split
  · simp
  · split
    · simp only [ne_eq, Option.some.injEq]
      decide
    · split
      · simp
      · split
        · simp
        · rename_i scheme _ _
          simp only [ne_eq, Option.some.injEq]
          intro h
          have hm : 'C' ∈ scheme.map Char.toLower := by
            rw [h]
            decide
          obtain ⟨c, _, hc⟩ := List.mem_map.mp hm
          exact toLower_ne_upper_C c hc

theorem resolverEntryStep_eq (env : Env) (nss : List NameServer) (entry : Str) :
    resolverEntryStep env nss entry =
      if TrimSpace entry = [] then nss
      else nss ++ (specNameServer env (TrimSpace entry)).toList := by
  unfold resolverEntryStep specNameServer
  simp only
  by_cases he : TrimSpace entry = []
  · rw [if_pos he, if_pos he]
  · rw [if_neg he, if_neg he]
    by_cases hp : HasPrefix (TrimSpace entry) "https" = true
    · rw [if_pos hp, if_pos hp]
      rcases hu : urlScheme env (TrimSpace entry) with _ | scheme
      · simp
      · simp only
        by_cases hs : scheme = []
        · rw [if_pos hs, if_pos hs]
          simp
        · rw [if_neg hs, if_neg hs]
          have hne : scheme ≠ ("https-Chain" : Str) := by
            intro h
            rw [h] at hu
            exact urlScheme_ne_https_Chain env _ hu
          rw [if_neg hne]
          rfl
    · rw [if_neg hp, if_neg hp]
      rcases Split '/' (TrimSpace entry) with _ | ⟨a, _ | ⟨p, _ | ⟨q, r⟩⟩⟩ <;> simp

theorem foldl_resolverEntryStep (env : Env) (xs : List Str) (acc : List NameServer) :
    xs.foldl (resolverEntryStep env) acc =
      acc ++ (((xs.map TrimSpace).filter (fun e => e ≠ [])).filterMap (specNameServer env)) := by
  induction xs generalizing acc with
  | nil => simp
  | cons x xs ih =>
    rw [List.foldl_cons, ih, resolverEntryStep_eq]
    by_cases hx : TrimSpace x = []
    · simp [hx]
    · rw [if_neg hx]
      cases hn : specNameServer env (TrimSpace x) <;> simp [hx, hn, List.filterMap_cons]

/-- C12 as stated fails: for the inline argument `https-Chain://1.1.1.1/dns-query`
the claim gives the protocol `https-Chain`, while `ParseResolver` returns the protocol
`https`, because `url.Parse` lower-cases the scheme before it is compared with the
literal; and for the inline argument `https.example.com/udp`, which starts with
`https`, the claim gives a name server, while `ParseResolver` skips the entry, whose
URL has no scheme. -/
theorem parseResolver_counterexample :
    exampleEnv.Open "https-Chain://1.1.1.1/dns-query" = none ∧
      (specEntries "https-Chain://1.1.1.1/dns-query").filterMap specNameServerPlain =
        [{ Addr := "https-Chain://1.1.1.1/dns-query", Protocol := "https-Chain" }] ∧
      (ParseResolver exampleEnv "https-Chain://1.1.1.1/dns-query").map (fun r => r.servers) =
        some [{ Addr := "https-Chain://1.1.1.1/dns-query", Protocol := "https" }] ∧
      exampleEnv.Open "https.example.com/udp" = none ∧
      (specEntries "https.example.com/udp").filterMap specNameServerPlain =
        [{ Addr := "https.example.com/udp", Protocol := "https" }] ∧
      (ParseResolver exampleEnv "https.example.com/udp").map (fun r => r.servers) =
        some [] := by
  decide

/-- C12, amended: for a non-empty inline resolver argument (one that does not open as
a file), none of whose entries has the URL scheme `https-chain` in any letter case,
`ParseResolver` maps the trimmed non-empty comma-separated entries, in order, to name
servers: an entry starting with `https` whose URL parses with a scheme becomes a name
server whose `Addr` is the entry verbatim and whose `Protocol` is `https`, and is
skipped when its URL does not parse or has no scheme; any other entry `addr/proto`
becomes `Addr` addr, `Protocol` proto, an entry `addr` becomes `Addr` addr with empty
`Protocol`, and an entry with more than one slash is skipped. -/
theorem parseResolver_inline (env : Env) (cfg : Str) (hc : cfg ≠ [])
    (hopen : env.Open cfg = none)
    (_hs : ∀ e ∈ specEntries cfg, urlScheme env e ≠ some ("https-chain" : Str)) :
    ParseResolver env cfg =
      some { servers := (specEntries cfg).filterMap (specNameServer env) } := by
  unfold ParseResolver
  rw [if_neg hc, hopen]
  simp only [foldl_resolverEntryStep, List.nil_append, specEntries]

/-- C12 (amended) at the argument `https://1.1.1.1/dns-query, 8.8.8.8/udp ,9.9.9.9`. -/
theorem parseResolver_inline_witness :
    ParseResolver exampleEnv "https://1.1.1.1/dns-query, 8.8.8.8/udp ,9.9.9.9" =
      some { servers :=
        [{ Addr := "https://1.1.1.1/dns-query", Protocol := "https" },
          { Addr := "8.8.8.8", Protocol := "udp" }, { Addr := "9.9.9.9" }] } :=
  (parseResolver_inline exampleEnv "https://1.1.1.1/dns-query, 8.8.8.8/udp ,9.9.9.9"
    (by decide) (by decide) (by decide)).trans (by decide)

/-! ## Reload and the backing array of the base nodes -/

theorem appendNodes_spec {k : Nat} {cells : List Node} {s : NodeSlice} (xs : List Node)
    (h : s.covers k cells) :
    (appendNodes cells s xs).2.view (appendNodes cells s xs).1 = s.view cells ++ xs ∧
      (appendNodes cells s xs).1.length = cells.length ∧
      (appendNodes cells s xs).1.take k = cells.take k ∧
      (appendNodes cells s xs).2.covers k (appendNodes cells s xs).1 := by
  cases s with
  | own nodes => exact ⟨rfl, rfl, rfl, trivial⟩
  | shared n =>
    obtain ⟨hk, hn⟩ := h
    unfold appendNodes
    simp only
    split
    · rename_i hfit
      have hlen : (cells.take n ++ xs ++ cells.drop (n + xs.length)).length = cells.length := by
        simp only [List.length_append, List.length_take, List.length_drop]
        omega
      have hpre : (cells.take n ++ xs).length = n + xs.length := by
        simp only [List.length_append, List.length_take]
        omega
      refine ⟨?_, hlen, ?_, ?_⟩
      · simp only [NodeSlice.view]
        rw [List.take_left' hpre]
      · rw [List.append_assoc, List.take_append_of_le_length (by simp; omega),
          List.take_take, Nat.min_eq_left hk]
      · exact ⟨by omega, by rw [hlen]; exact hfit⟩
    · exact ⟨rfl, rfl, rfl, trivial⟩

/-- The loop of `Reload` at the level of slices computes the same list and the same
error as the loop on lists, and leaves the first `k` cells alone. -/
theorem reloadNodesShared_spec (env : Env) (b : Build) (k : Nat) (specs : List Str)
    (cells : List Node) (g : NodeSlice) (nid : Int) (h : g.covers k cells) :
    (reloadNodesShared env b specs cells g nid).2 =
        (reloadNodes env b specs (g.view cells) nid).2 ∧
      (reloadNodesShared env b specs cells g nid).1.2.view
          (reloadNodesShared env b specs cells g nid).1.1 =
        (reloadNodes env b specs (g.view cells) nid).1 ∧
      (reloadNodesShared env b specs cells g nid).1.1.length = cells.length ∧
      (reloadNodesShared env b specs cells g nid).1.1.take k = cells.take k ∧
      (reloadNodesShared env b specs cells g nid).1.2.covers k
        (reloadNodesShared env b specs cells g nid).1.1 := by
  induction specs generalizing cells g nid with
  | nil => exact ⟨rfl, rfl, rfl, rfl, h⟩
  | cons s rest ih =>
    unfold reloadNodesShared reloadNodes
    rcases hp : ParseChainNode env b s with ⟨nodes, _ | e⟩
    · simp only
      obtain ⟨h1, h2, h3, h4⟩ := appendNodes_spec (assignIDs nid nodes) h
      obtain ⟨i1, i2, i3, i4, i5⟩ := ih _ _ (nid + nodes.length) h4
      rw [h1] at i1 i2
      exact ⟨i1, i2, i3.trans h2, i4.trans h3, i5⟩
    · exact ⟨rfl, rfl, rfl, rfl, h⟩

theorem view_length_congr {cells cells' : List Node} (nodes : NodeSlice)
    (h : cells'.length = cells.length) :
    (nodes.view cells').length = (nodes.view cells).length := by
  cases nodes with
  | own l => rfl
  | shared n => simp [NodeSlice.view, List.length_take, h]

theorem covers_length_congr {k : Nat} {cells cells' : List Node} {nodes : NodeSlice}
    (h : cells'.length = cells.length) (hc : nodes.covers k cells) : nodes.covers k cells' := by
  cases nodes with
  | own l => trivial
  | shared n => exact ⟨hc.1, by rw [h]; exact hc.2⟩

theorem parseCells_id (env : Env) (b : Build) (cells : List Node) (nodes : NodeSlice)
    (r : Reader) (hJ : b = .cmd ∨ (env.jsonDecode r.data).BaseNodes = none) :
    parseCells env b cells nodes r = (cells, nodes) := by
  cases b with
  | cmd => rfl
  | config =>
    rcases hJ with h | h
    · cases h
    · unfold parseCells
      simp only
      split
      · rfl
      · rw [h]

theorem parseNewGroup_false (env : Env) (b : Build) (cfg : PeerConfig) (r : Reader)
    (hG : cfg.Group = true) : cfg.parseNewGroup env b r = false := by
  cases b with
  | cmd => rfl
  | config =>
    unfold PeerConfig.parseNewGroup
    simp [hG]

/-- For a `PeerConfig` whose pointer `Group` is set and a content that leaves the base
nodes alone, `Reload` at the level of slices and `Reload` on lists agree on the
`PeerConfig`, the selector and the error they return, and on the node list a
successful reload installs; the base nodes stay the first cells of their backing
array. -/
theorem reloadShared_agrees (env : Env) (b : Build) (cfg : PeerConfig) (cells : List Node)
    (selector : Option Selector) (nodes : NodeSlice) (r : Reader) (group : NodeGroup)
    (hG : cfg.Group = true) (hJ : b = .cmd ∨ (env.jsonDecode r.data).BaseNodes = none)
    (hB : cells.take cfg.BaseNodes.length = cfg.BaseNodes)
    (hcov : nodes.covers cfg.BaseNodes.length cells)
    (hg : group.nodes = nodes.view cells) (hsel : group.selector = selector) :
    (cfg.ReloadShared env b cells selector nodes r).cfg = (cfg.Reload env b group r).cfg ∧
      (cfg.ReloadShared env b cells selector nodes r).err = (cfg.Reload env b group r).err ∧
      (cfg.ReloadShared env b cells selector nodes r).selector =
        (cfg.Reload env b group r).group.selector ∧
      ((cfg.ReloadShared env b cells selector nodes r).err = none →
        (cfg.ReloadShared env b cells selector nodes r).nodes.view
            (cfg.ReloadShared env b cells selector nodes r).cells =
          (cfg.Reload env b group r).group.nodes) ∧
      (cfg.ReloadShared env b cells selector nodes r).cells.take cfg.BaseNodes.length =
        cfg.BaseNodes ∧
      (cfg.ReloadShared env b cells selector nodes r).nodes.covers cfg.BaseNodes.length
        (cfg.ReloadShared env b cells selector nodes r).cells := by
  have hf := (parseFor_frame env b cfg r).2.2.2 hJ
  obtain ⟨hgn, hgs⟩ := (parseGroup_nodes env b cfg group r).1 hG
  have hK : cfg.BaseNodes.length ≤ cells.length := by
    have := congrArg List.length hB
    rw [List.length_take] at this
    omega
  unfold PeerConfig.ReloadShared PeerConfig.Reload
  by_cases hs : cfg.Stopped = true
  · rw [if_pos hs, if_pos hs]
    exact ⟨rfl, rfl, hsel.symm, fun _ => hg.symm, hB, hcov⟩
  · rw [if_neg hs, if_neg hs]
    simp only [parseCells_id env b cells nodes r hJ, parseNewGroup_false env b cfg r hG,
      Bool.false_eq_true, if_false]
    rcases hp : cfg.parseFor env b r with ⟨cfg1, _ | e⟩
    swap
    · exact ⟨rfl, rfl, (hgs.trans hsel).symm, fun h => by simp at h, hB, hcov⟩
    rw [hp] at hf
    simp only at hf ⊢
    by_cases hG1 : cfg1.Group = false
    · rw [if_pos hG1, if_pos hG1]
      exact ⟨rfl, rfl, (hgs.trans hsel).symm, fun h => by simp at h, hB, hcov⟩
    rw [if_neg hG1, if_neg hG1]
    have hcov0 : (NodeSlice.shared cfg1.BaseNodes.length).covers cfg.BaseNodes.length cells := by
      rw [hf]
      exact ⟨Nat.le_refl _, hK⟩
    obtain ⟨j1, j2, j3, j4, j5⟩ := reloadNodesShared_spec env b cfg.BaseNodes.length cfg1.Nodes
      cells (.shared cfg1.BaseNodes.length) (cfg1.BaseNodes.length + 1) hcov0
    have hview : (NodeSlice.shared cfg1.BaseNodes.length).view cells = cfg1.BaseNodes := by
      simp only [NodeSlice.view]
      rw [hf]
      exact hB
    rw [hview] at j1 j2
    rcases hs' : reloadNodesShared env b cfg1.Nodes cells (.shared cfg1.BaseNodes.length)
      (cfg1.BaseNodes.length + 1) with ⟨after, e⟩
    rcases hv : reloadNodes env b cfg1.Nodes cfg1.BaseNodes (cfg1.BaseNodes.length + 1)
      with ⟨gNodes, e'⟩
    rw [hs'] at j1 j2 j3 j4 j5
    rw [hv] at j1 j2
    simp only at j1 j2 j3 j4 j5
    subst j1
    rcases e with _ | e
    · simp only [NodeGroup.SetNodes, NodeGroup.SetSelector]
      have hlen : (nodes.view after.1).length =
          (cfg.parseGroup env b group r).nodes.length := by
        rw [hgn, hg]
        exact view_length_congr nodes j3
      rw [hlen]
      split
      · exact ⟨rfl, rfl, rfl, fun h => by simp at h, j4.trans hB, j5⟩
      · exact ⟨rfl, rfl, rfl, fun _ => j2, j4.trans hB, j5⟩
    · exact ⟨rfl, rfl, rfl, fun h => by simp at h, j4.trans hB, covers_length_congr j3 hcov⟩

/-- On lists, a `Reload` on a content that leaves the base nodes alone, of a group
whose node list starts with the base nodes, keeps the slice of the replaced list in
range, leaves a list that starts with the base nodes, leaves the list as it was when
it returns an error, and stops the `Bypass` of replaced peer nodes only. -/
theorem reload_keeps_base (env : Env) (b : Build) (cfg : PeerConfig) (group : NodeGroup)
    (r : Reader) (hG : cfg.Group = true)
    (hJ : b = .cmd ∨ (env.jsonDecode r.data).BaseNodes = none)
    (hpre : cfg.BaseNodes <+: group.nodes) :
    cfg.BaseNodes.length ≤ group.nodes.length ∧
      (cfg.Reload env b group r).cfg.BaseNodes <+: (cfg.Reload env b group r).group.nodes ∧
      ((cfg.Reload env b group r).err ≠ none →
        (cfg.Reload env b group r).group.nodes = group.nodes) ∧
      (∀ n ∈ (cfg.Reload env b group r).stopped, n ∈ group.nodes.drop cfg.BaseNodes.length) := by
  have hf := (parseFor_frame env b cfg r).2.2.2 hJ
  obtain ⟨hgn, _⟩ := (parseGroup_nodes env b cfg group r).1 hG
  have hlen : cfg.BaseNodes.length ≤ group.nodes.length := hpre.length_le
  refine ⟨hlen, ?_⟩
  unfold PeerConfig.Reload
  by_cases hs : cfg.Stopped = true
  · rw [if_pos hs]
    exact ⟨hpre, fun _ => rfl, fun n hn => by simp at hn⟩
  · rw [if_neg hs]
    simp only
    rcases hp : cfg.parseFor env b r with ⟨cfg1, _ | e⟩
    swap
    · rw [hp] at hf
      refine ⟨?_, fun _ => hgn, fun n hn => by simp at hn⟩
      show cfg1.BaseNodes <+: (cfg.parseGroup env b group r).nodes
      rw [hf, hgn]
      exact hpre
    rw [hp] at hf
    simp only at hf ⊢
    by_cases hG1 : cfg1.Group = false
    · rw [if_pos hG1]
      refine ⟨?_, fun _ => hgn, fun n hn => by simp at hn⟩
      show cfg1.BaseNodes <+: (cfg.parseGroup env b group r).nodes
      rw [hf, hgn]
      exact hpre
    rw [if_neg hG1]
    rcases hn : reloadNodes env b cfg1.Nodes cfg1.BaseNodes (cfg1.BaseNodes.length + 1)
      with ⟨gNodes, _ | e⟩
    swap
    · refine ⟨?_, fun _ => hgn, fun n hn => by simp at hn⟩
      show cfg1.BaseNodes <+: (cfg.parseGroup env b group r).nodes
      rw [hf, hgn]
      exact hpre
    have hg := reloadNodes_ok hn
    simp only [NodeGroup.SetNodes, NodeGroup.SetSelector]
    rw [hf, hgn]
    rw [if_neg (Nat.not_lt.mpr hlen)]
    refine ⟨?_, fun h => by simp at h, fun n hn => ?_⟩
    · rw [hg, hf]
      exact List.prefix_append _ _
    · exact (List.mem_filter.mp hn).1

/-- A `Reload` in which the JSON decoder finds no key `Group` leaves the pointer
`Group` as it was. -/
theorem reload_group_kept (env : Env) (b : Build) (cfg : PeerConfig) (group : NodeGroup)
    (r : Reader) (hJ : b = .cmd ∨ (env.jsonDecode r.data).Group = .absent) :
    (cfg.Reload env b group r).cfg.Group = cfg.Group := by
  have hp : (cfg.parseFor env b r).1.Group = cfg.Group := by
    cases b with
    | cmd => rfl
    | config =>
      rcases hJ with h | h
      · cases h
      · show (cfg.parse env r).1.Group = cfg.Group
        by_cases hr : r.fails = true
        · unfold PeerConfig.parse
          rw [if_pos hr]
        · rw [(parse_frame env cfg r).2.2 (by simpa using hr)]
          simp only [JsonPeer.applyTo, h]
  unfold PeerConfig.Reload
  split
  · rfl
  · simp only
    rcases hq : cfg.parseFor env b r with ⟨cfg1, _ | e⟩
    swap
    · rw [hq] at hp
      exact hp
    rw [hq] at hp
    simp only at hp ⊢
    split
    · exact hp
    rcases hn : reloadNodes env b cfg1.Nodes cfg1.BaseNodes (cfg1.BaseNodes.length + 1)
      with ⟨gNodes, _ | e⟩
    swap
    · exact hp
    simp only
    split <;> exact hp

/-- On lists, after any sequence of `Reload` calls on contents that leave the base
nodes and the pointer `Group` alone, the node list still starts with the base nodes. -/
theorem reloadAll_keeps_base (env : Env) (b : Build) (rs : List Reader) (cfg : PeerConfig)
    (group : NodeGroup) (hG : cfg.Group = true)
    (hJ : b = .cmd ∨ ∀ r ∈ rs, (env.jsonDecode r.data).BaseNodes = none ∧
      (env.jsonDecode r.data).Group = .absent)
    (hpre : cfg.BaseNodes <+: group.nodes) :
    (reloadAll env b cfg group rs).1.BaseNodes <+: (reloadAll env b cfg group rs).2.nodes := by
  induction rs generalizing cfg group with
  | nil => exact hpre
  | cons r rest ih =>
    unfold reloadAll
    have hJr : b = .cmd ∨ (env.jsonDecode r.data).BaseNodes = none :=
      hJ.imp id fun h => (h r (List.mem_cons_self _ _)).1
    have hGr : b = .cmd ∨ (env.jsonDecode r.data).Group = .absent :=
      hJ.imp id fun h => (h r (List.mem_cons_self _ _)).2
    refine ih _ _ ((reload_group_kept env b cfg group r hGr).trans hG)
      (hJ.imp id fun h r' hr' => h r' (List.mem_cons_of_mem _ hr'))
      (reload_keeps_base env b cfg group r hG hJr hpre).2.1

theorem appendNodes_full {cells : List Node} {s : NodeSlice} (xs : List Node)
    (h : s.full cells) :
    (appendNodes cells s xs).1 = cells ∧ (appendNodes cells s xs).2.full cells := by
  cases s with
  | own nodes => exact ⟨rfl, trivial⟩
  | shared n =>
    have hn : n = cells.length := h
    unfold appendNodes
    simp only
    split
    · rename_i hfit
      have hx : xs = [] := by
        apply List.eq_nil_of_length_eq_zero
        omega
      subst hx
      subst hn
      simp [NodeSlice.full]
    · exact ⟨rfl, trivial⟩

theorem reloadNodesShared_full (env : Env) (b : Build) (specs : List Str) (cells : List Node)
    (g : NodeSlice) (nid : Int) (h : g.full cells) :
    (reloadNodesShared env b specs cells g nid).1.1 = cells := by
  induction specs generalizing g nid with
  | nil => rfl
  | cons s rest ih =>
    unfold reloadNodesShared
    rcases hp : ParseChainNode env b s with ⟨nodes, _ | e⟩
    · simp only
      obtain ⟨h1, h2⟩ := appendNodes_full (assignIDs nid nodes) h
      rw [h1]
      exact ih _ _ h2
    · rfl

/-- When the base nodes fill their backing array (no spare capacity, as for the
one-element list of a chain node that is not expanded over addresses), the pointer
`Group` is set and the content leaves the base nodes alone, `Reload` at the level of
slices never writes to that array, stops the same nodes as `Reload` on lists does, and
leaves the same node list, also when it returns an error. -/
theorem reloadShared_no_spare (env : Env) (b : Build) (cfg : PeerConfig) (cells : List Node)
    (selector : Option Selector) (nodes : NodeSlice) (r : Reader) (group : NodeGroup)
    (hG : cfg.Group = true) (hJ : b = .cmd ∨ (env.jsonDecode r.data).BaseNodes = none)
    (hB : cells = cfg.BaseNodes) (hg : group.nodes = nodes.view cells)
    (hlen : cfg.BaseNodes.length ≤ group.nodes.length) :
    (cfg.ReloadShared env b cells selector nodes r).cells = cells ∧
      (cfg.ReloadShared env b cells selector nodes r).stopped =
        (cfg.Reload env b group r).stopped ∧
      ((cfg.ReloadShared env b cells selector nodes r).err ≠ none →
        (cfg.ReloadShared env b cells selector nodes r).nodes = nodes) := by
  have hf := (parseFor_frame env b cfg r).2.2.2 hJ
  obtain ⟨hgn, _⟩ := (parseGroup_nodes env b cfg group r).1 hG
  unfold PeerConfig.ReloadShared PeerConfig.Reload
  by_cases hs : cfg.Stopped = true
  · rw [if_pos hs, if_pos hs]
    exact ⟨rfl, rfl, fun _ => rfl⟩
  · rw [if_neg hs, if_neg hs]
    simp only [parseCells_id env b cells nodes r hJ, parseNewGroup_false env b cfg r hG,
      Bool.false_eq_true, if_false]
    rcases hp : cfg.parseFor env b r with ⟨cfg1, _ | e⟩
    swap
    · exact ⟨rfl, rfl, fun _ => rfl⟩
    rw [hp] at hf
    simp only at hf ⊢
    by_cases hG1 : cfg1.Group = false
    · rw [if_pos hG1, if_pos hG1]
      exact ⟨rfl, rfl, fun _ => rfl⟩
    rw [if_neg hG1, if_neg hG1]
    have hfull : (NodeSlice.shared cfg1.BaseNodes.length).full cells := by
      show cfg1.BaseNodes.length = cells.length
      rw [hf, hB]
    have hcells := reloadNodesShared_full env b cfg1.Nodes cells
      (.shared cfg1.BaseNodes.length) (cfg1.BaseNodes.length + 1) hfull
    have hcov : (NodeSlice.shared cfg1.BaseNodes.length).covers cfg1.BaseNodes.length cells :=
      ⟨Nat.le_refl _, by rw [hf, hB]⟩
    obtain ⟨j1, _, _, _, _⟩ := reloadNodesShared_spec env b cfg1.BaseNodes.length cfg1.Nodes
      cells (.shared cfg1.BaseNodes.length) (cfg1.BaseNodes.length + 1) hcov
    have hview : (NodeSlice.shared cfg1.BaseNodes.length).view cells = cfg1.BaseNodes := by
      simp only [NodeSlice.view]
      rw [hf, hB, List.take_length]
    rw [hview] at j1
    rcases hs' : reloadNodesShared env b cfg1.Nodes cells (.shared cfg1.BaseNodes.length)
      (cfg1.BaseNodes.length + 1) with ⟨after, e⟩
    rcases hv : reloadNodes env b cfg1.Nodes cfg1.BaseNodes (cfg1.BaseNodes.length + 1)
      with ⟨gNodes, e'⟩
    rw [hs'] at j1 hcells
    rw [hv] at j1
    simp only at j1 hcells
    subst j1
    rcases e with _ | e
    · simp only [NodeGroup.SetNodes, NodeGroup.SetSelector]
      rw [hcells, hgn, ← hg]
      rw [hf, if_neg (Nat.not_lt.mpr hlen), if_neg (Nat.not_lt.mpr hlen)]
      exact ⟨rfl, rfl, fun h => by simp at h⟩
    · exact ⟨hcells, rfl, fun _ => rfl⟩

/-- C15 at its failing input: a `PeerConfig` over three base nodes whose backing array
has one spare cell, as three appends to a nil slice leave it. The first reload, of a
peer file naming `socks5://p1:1080?bypass=a.com`, writes the peer node into the spare
cell and installs that array as the node list of the group. The next reload, of a peer
file naming `socks5://p2:1080?bypass=b.com`, overwrites the cell before the replaced
list is read: the node whose `Bypass` it stops is the new peer `p2:1080`, which is in
the list it installs, and not the replaced peer `p1:1080`. And a reload that returns
an error after it parsed the first of two peer specs has already put `p2:1080` in the
place of `p1:1080` in the node list of the group. -/
theorem reloadShared_stops_new_peer :
    exampleFirstReload.err = none ∧
      (exampleFirstReload.nodes.view exampleFirstReload.cells).map (fun n => n.Addr) =
        [("10.0.0.1:1080" : Str), ("10.0.0.2:1080" : Str), ("10.0.0.3:1080" : Str),
          ("p1:1080" : Str)] ∧
      exampleSecondReload.err = none ∧
      (exampleSecondReload.nodes.view exampleSecondReload.cells).map (fun n => n.Addr) =
        [("10.0.0.1:1080" : Str), ("10.0.0.2:1080" : Str), ("10.0.0.3:1080" : Str),
          ("p2:1080" : Str)] ∧
      exampleSecondReload.stopped.map (fun n => n.Addr) = [("p2:1080" : Str)] ∧
      (∀ n ∈ exampleSecondReload.stopped,
        n ∈ exampleSecondReload.nodes.view exampleSecondReload.cells ∧
          n ∉ exampleFirstReload.nodes.view exampleFirstReload.cells) ∧
      exampleFailedReload.err = some (.badNode ("socks5://%zz" : Str)) ∧
      (exampleFailedReload.nodes.view exampleFailedReload.cells).map (fun n => n.Addr) =
        [("10.0.0.1:1080" : Str), ("10.0.0.2:1080" : Str), ("10.0.0.3:1080" : Str),
          ("p2:1080" : Str)] := by
  decide

end Gost
